import Mathlib

/-! The go-onlyoffice client: request dispatcher, token lifecycle and time adapter.

A shallow embedding of `onlyoffice.go`.  Stateful code is written in explicit
state-passing style: the client's cached token and the list of HTTP requests
handed to the transport (`c.client.Do`) are threaded through every call.
The transport, `url.Parse` and the JSON decoders of the result targets are
parameters of the embedding (`Env`, `Codec`).
-/

namespace OnlyOffice

/-! ## Data model -/

/-- Go's `time.Time` as an instant (`sec` seconds since the Unix epoch plus `nsec`
nanoseconds) together with the offset east of UTC, in seconds, that the time's
location has at that instant.  `type Time time.Time` (line 257). -/
structure Time where
  sec : Int
  nsec : Nat
  offset : Int
deriving DecidableEq, Repr

/-- The zero `time.Time`: January 1, year 1, 00:00:00 UTC. -/
def Time.zero : Time := ⟨-62135596800, 0, 0⟩

/-- Two's-complement wrap-around of 64-bit signed arithmetic. -/
def wrap64 (x : Int) : Int :=
  (x + 2 ^ 63) % 2 ^ 64 - 2 ^ 63

/-- The method `t.sec()` of package time: the seconds since January 1, year 1, which
Go keeps in an `int64`; the addition of `unixToInternal` wraps around. -/
def Time.internalSec (t : Time) : Int :=
  wrap64 (t.sec + 62135596800)

/-- Go `func (t Time) Before(u Time) bool` (line 264): instants are compared, locations ignored. -/
def Time.Before (t u : Time) : Bool :=
  decide (t.internalSec < u.internalSec) ||
    (decide (t.internalSec = u.internalSec) && decide (t.nsec < u.nsec))

/-- Go `func (t Time) After(u Time) bool` (line 268). -/
def Time.After (t u : Time) : Bool :=
  decide (t.internalSec > u.internalSec) ||
    (decide (t.internalSec = u.internalSec) && decide (t.nsec > u.nsec))

/-- Outcome of code that may panic. -/
inductive Run (α : Type) where
  | done (a : α)
  | panic (msg : String)
deriving Repr

/-- Go `type Credentials struct` (line 36). -/
structure Credentials where
  Url : String
  User : String
  Password : String
deriving DecidableEq, Repr

/-- Go `type Token struct` (line 251). -/
structure Token where
  Value : String
  Expires : Time
deriving DecidableEq, Repr

/-- The value of `&Token{}`: empty value, zero expiry. -/
def Token.empty : Token := ⟨"", Time.zero⟩

/-- Go `type NewProjectRequest struct` (line 460). -/
structure NewProjectRequest where
  Title : String
  Description : String
  ResponsibleID : String
deriving DecidableEq, Repr

/-- Go `type User struct` (line 128); every field is a pointer and may be unset.
Only the string fields are kept. -/
structure User where
  ID : Option String
  UserName : Option String
  FirstName : Option String
  LastName : Option String
  Email : Option String
  DisplayName : Option String
deriving DecidableEq, Repr

/-- Go `type Project struct` (line 72), restricted to its scalar identity fields. -/
structure Project where
  ID : Option Int
  Title : Option String
  Description : Option String
  ResponsibleID : Option String
deriving DecidableEq, Repr

/-- The value of `new(Project)`. -/
def Project.empty : Project := ⟨none, none, none, none⟩

/-- A value passed as `Request.Params`, represented by what
`query.Values(params)` followed by `v.Encode()` yields for it. -/
structure Params where
  encoded : Except String String

/-- A structured value passed as `Request.Body`, handled by the `default` branch
of the type switch (line 333): the repository's own request records, or any other
value, represented by what `json.Marshal` yields for it. -/
inductive Marshalable where
  | credentials (c : Credentials)
  | newProject (np : NewProjectRequest)
  | other (json : Except String String)

/-- The dynamic type of `Request.Body` (line 326): `[]byte`, `string`, or anything else. -/
inductive Body where
  | bytes (b : String)
  | str (s : String)
  | value (v : Marshalable)

/-- The payload read from the request's body reader: literal text, or the JSON
encoding of one of the repository's request records (kept symbolic). -/
inductive Payload where
  | text (s : String)
  | credentialsJson (c : Credentials)
  | newProjectJson (np : NewProjectRequest)
deriving DecidableEq, Repr

/-- Go `type Request struct` (line 285). -/
structure Request where
  Uri : String
  Method : String
  Params : Option Params
  Body : Option Body
  Token : Option String
  NoAuth : Bool
  Debug : Bool

/-- Go `func (r Request) GetMethod() string` (line 296). -/
def Request.GetMethod (r : Request) : String :=
  if r.Method = "" then "GET" else r.Method

/-- Go `http.Header` as an association list. -/
abbrev Header := List (String × String)

/-- Go `Header.Set`: replaces any value stored under the key. -/
def Header.Set (h : Header) (k v : String) : Header :=
  h.filter (fun p => p.1 != k) ++ [(k, v)]

/-- Go `Header.Values` reduced to presence: the value stored under the key, if any. -/
def Header.lookup (h : Header) (k : String) : Option String :=
  (h.find? (fun p => p.1 == k)).map (fun p => p.2)

/-- Go `*http.Request` as far as `Query` fills it in. -/
structure HttpRequest where
  Method : String
  Url : String
  Body : Option Payload
  Header : Header
deriving DecidableEq, Repr

/-- The `Authorization` header of a request, `none` when it carries none. -/
def HttpRequest.Authorization (r : HttpRequest) : Option String :=
  Header.lookup r.Header "Authorization"

/-- Go `type Client struct` (line 52); the transport lives in `Env`. -/
structure Client where
  credentials : Credentials
  token : Option Token
deriving DecidableEq, Repr

/-- How the two JSON decoding paths of `Query` act on a result target holding a
value of type `ρ`: the new contents of the target and the error, if any, or the
panic raised on the way by an `UnmarshalJSON` method of the target
(`Time.UnmarshalJSON`, line 273, panics on fewer than two bytes).
`Unmarshal` is `json.Unmarshal([]byte(js), result)` (line 389), `Decode` is
`json.NewDecoder(resp.Body).Decode(result)` (line 392). -/
structure Codec (ρ : Type) where
  Unmarshal : String → ρ → Run (ρ × Option String)
  Decode : String → ρ → Run (ρ × Option String)

/-- A non-nil `result` argument: what it points to and how JSON is decoded into it. -/
structure Target (ρ : Type) where
  value : ρ
  codec : Codec ρ

/-- The parts of the world `Query` depends on. -/
structure Env where
  /-- Whether `url.Parse` inside `http.NewRequest` accepts the URL. -/
  urlParses : String → Bool
  /-- The transport `c.client.Do`: given the requests handed to it so far and
  the current one, a transport error or the response body. -/
  Do : List HttpRequest → HttpRequest → Except String String
  /-- Decoding into the envelope of `Auth` (line 405), whose `Response` points at the token. -/
  tokenCodec : Codec Token
  /-- Decoding into the envelope of `GetUsers` (line 453). -/
  usersCodec : Codec (List (Option User))
  /-- Decoding into the envelope of `CreateProject` (line 556). -/
  projectCodec : Codec Project

/-- What a call of `Query` leaves behind: the client, the requests handed to
the transport so far, the contents of the result target, the returned error, and
the panic that ended the call instead of a return, if any.  When the decoding into
the target panics, the target is not looked at any more and `result` is `none`. -/
structure Outcome (ρ : Type) where
  client : Client
  trace : List HttpRequest
  result : Option ρ
  err : Option String
  panic : Option String

/-! ## Request construction (lines 310-351) -/

/-- The characters `httpguts.IsTokenRune` accepts. -/
def isTokenRune (c : Char) : Bool :=
  c.isAlphanum || "!#$%&'*+-.^_`|~".toList.contains c

/-- Go `validMethod` of net/http. -/
def validMethod (method : String) : Bool :=
  decide (0 < method.length) && method.toList.all isTokenRune

/-- Go `http.NewRequest(method, url, body)`. -/
def NewRequest (env : Env) (method url : String) (body : Option Payload) :
    Except String HttpRequest :=
  if validMethod method = false then .error ("net/http: invalid method " ++ method.quote)
  else if env.urlParses url = false then .error ("parse " ++ url)
  else .ok { Method := method, Url := url, Body := body, Header := [] }

/-- Go `json.Marshal(request.Body)` in the `default` branch (line 335). -/
def marshal : Marshalable → Except String Payload
  | .credentials c => .ok (.credentialsJson c)
  | .newProject np => .ok (.newProjectJson np)
  | .other (.ok s) => .ok (.text s)
  | .other (.error e) => .error e

/-- Lines 310-321: the target URL with the encoded query parameters, if any. -/
def buildUrl (c : Client) (request : Request) : Except String String :=
  let url := c.credentials.Url ++ request.Uri
  match request.Params with
  | none => .ok url
  | some p =>
    match p.encoded with
    | .error e => .error e
    | .ok v => .ok (url ++ "?" ++ v)

/-- Lines 324-342: the body reader. -/
def buildBody (request : Request) : Except String (Option Payload) :=
  match request.Body with
  | none => .ok none
  | some (.bytes b) => .ok (some (.text b))
  | some (.str s) => .ok (some (.text s))
  | some (.value v) =>
    match marshal v with
    | .error e => .error ("failed to marshal request body: " ++ e)
    | .ok p => .ok (some p)

/-- Lines 310-351: everything `Query` does before it looks at the token. -/
def buildRequest (env : Env) (c : Client) (request : Request) : Except String HttpRequest :=
  match buildUrl c request with
  | .error e => .error e
  | .ok url =>
    match buildBody request with
    | .error e => .error e
    | .ok rdr =>
      match NewRequest env request.GetMethod url rdr with
      | .error e => .error e
      | .ok req =>
        .ok { req with
          Header := ((req.Header.Set "Accept" "application/json").Set
            "Content-Type" "application/json").Set "Pragma" "no-cache" }

/-! ## The dispatcher (lines 353-411) -/

/-- Lines 364-372: the explicit token wins over the client's token. -/
def setAuthorization (c : Client) (request : Request) (req : HttpRequest) : HttpRequest :=
  match request.Token with
  | some tok => { req with Header := req.Header.Set "Authorization" tok }
  | none =>
    match c.token with
    | some t => { req with Header := req.Header.Set "Authorization" t.Value }
    | none => req

/-- Lines 364-395: set the header, hand the request to the transport, decode. -/
def dispatch {ρ : Type} (env : Env) (c : Client) (tr : List HttpRequest) (request : Request)
    (req : HttpRequest) (result : Option (Target ρ)) : Outcome ρ :=
  let req := setAuthorization c request req
  match env.Do tr req with
  | .error e =>
    ⟨c, tr ++ [req], result.map (fun t => t.value), some ("failed to send request: " ++ e), none⟩
  | .ok body =>
    match result with
    | none => ⟨c, tr ++ [req], none, none, none⟩
    | some t =>
      match (if request.Debug then t.codec.Unmarshal body t.value
             else t.codec.Decode body t.value) with
      | .done r => ⟨c, tr ++ [req], some r.1, r.2, none⟩
      | .panic m => ⟨c, tr ++ [req], none, none, some m⟩

/-- Go `Query` on a request with `NoAuth` set: the token step (lines 354-362) is skipped. -/
def QueryNoAuth {ρ : Type} (env : Env) (c : Client) (tr : List HttpRequest) (request : Request)
    (result : Option (Target ρ)) : Outcome ρ :=
  match buildRequest env c request with
  | .error e => ⟨c, tr, result.map (fun t => t.value), some e, none⟩
  | .ok req => dispatch env c tr request req result

/-- The request descriptor `Auth` builds (line 400). -/
def authRequest (creds : Credentials) : Request :=
  { Uri := "/api/2.0/authentication.json", Method := "POST", Params := none,
    Body := some (.value (.credentials creds)), Token := none, NoAuth := true, Debug := false }

/-- What a call of `Auth` leaves behind: the token `t` and the error it returns,
the requests handed to the transport so far, and the panic that ended the call
instead of a return, if any. -/
structure AuthOutcome where
  token : Token
  err : Option String
  trace : List HttpRequest
  panic : Option String
deriving DecidableEq, Repr

/-- Go `func (c *Client) Auth(creds *Credentials) (t *Token, err error)` (line 398):
when the nested `Query` returns, `t` is returned whatever the error; when the
decoding of the response panics, so does `Auth`. -/
def Auth (env : Env) (c : Client) (tr : List HttpRequest) (creds : Credentials) :
    AuthOutcome :=
  let out := QueryNoAuth env c tr (authRequest creds) (some ⟨Token.empty, env.tokenCodec⟩)
  ⟨out.result.getD Token.empty, out.err, out.trace, out.panic⟩

/-- Line 356: `c.token == nil || time.Time(c.token.Expires).Before(time.Now())`. -/
def needsToken (c : Client) (now : Time) : Bool :=
  match c.token with
  | none => true
  | some t => t.Expires.Before now

/-- Go `func (c *Client) Query(request Request, result interface{}) (err error)` (line 309).
`now` is the value of `time.Now()` at line 356. -/
def Query {ρ : Type} (env : Env) (now : Time) (c : Client) (tr : List HttpRequest)
    (request : Request) (result : Option (Target ρ)) : Outcome ρ :=
  match buildRequest env c request with
  | .error e => ⟨c, tr, result.map (fun t => t.value), some e, none⟩
  | .ok req =>
    if request.NoAuth = false ∧ needsToken c now = true then
      -- c.token, err = c.Auth(c.credentials)
      let a := Auth env c tr c.credentials
      match a.panic with
      | some m => ⟨c, a.trace, result.map (fun t => t.value), none, some m⟩
      | none =>
        let c1 : Client := { c with token := some a.token }
        match a.err with
        | some e =>
          ⟨c1, a.trace, result.map (fun t => t.value), some ("failed to authenticate: " ++ e),
            none⟩
        | none => dispatch env c1 a.trace request req result
    else dispatch env c tr request req result

/-! ## Go's `time` package: calendar

Instants are resolved in the proleptic Gregorian calendar.  Days are counted
from January 1 of year 1; Go counts them from an epoch that lies a whole number
of 400-year cycles earlier, so the cycle arithmetic below is that of `absDate`
and `daysSinceEpoch`.  The calendar functions take the second count as an unbounded
integer: they are those of Go for the instants whose second counts (`t.sec()` and
`t.abs()`) Go computes without wrapping around. -/

/-- The table `daysBefore`: days in a non-leap year before month `m + 1`. -/
def daysBefore (m : Int) : Int :=
  match m.toNat with
  | 0 => 0
  | 1 => 31
  | 2 => 59
  | 3 => 90
  | 4 => 120
  | 5 => 151
  | 6 => 181
  | 7 => 212
  | 8 => 243
  | 9 => 273
  | 10 => 304
  | 11 => 334
  | _ => 365

/-- Go `isLeap` of package time. -/
def isLeap (year : Int) : Bool :=
  decide (year % 4 = 0) && (decide (year % 100 ≠ 0) || decide (year % 400 = 0))

/-- Go `daysIn` of package time. -/
def daysIn (m year : Int) : Int :=
  if m = 2 ∧ isLeap year = true then 29 else daysBefore m - daysBefore (m - 1)

/-- Go `daysSinceEpoch`: days from January 1 of year 1 to January 1 of `year`. -/
def daysSinceEpoch (year : Int) : Int :=
  let y := year - 1
  let n400 := y / 400
  let y := y - 400 * n400
  let n100 := y / 100
  let y := y - 100 * n100
  let n4 := y / 4
  let y := y - 4 * n4
  146097 * n400 + 36524 * n100 + 1461 * n4 + 365 * y

/-- Seconds from January 1 of year 1, 00:00:00 UTC to the Unix epoch. -/
def unixToInternal : Int := 62135596800

/-- Go `time.Date(year, month, day, hour, min, sec, nsec, loc)` for in-range fields
(the only ones `Parse` passes on), in a location whose offset is `offset`. -/
def Date (year month day hour min sec nsec offset : Int) : Time :=
  let d := daysSinceEpoch year + daysBefore (month - 1)
    + (if isLeap year = true ∧ 3 ≤ month then 1 else 0) + (day - 1)
  { sec := d * 86400 + (hour * 3600 + min * 60 + sec) - unixToInternal - offset,
    nsec := nsec.toNat, offset := offset }

/-- Go `Time.abs`: wall-clock seconds since January 1 of year 1 in the time's location. -/
def Time.abs (t : Time) : Int := t.sec + t.offset + unixToInternal

/-- Go `absDate`, first half: the year and the zero-based day of the year. -/
def yearDay (days : Int) : Int × Int :=
  let n400 := days / 146097
  let d := days - 146097 * n400
  let n := d / 36524
  let n100 := n - n / 4
  let d := d - 36524 * n100
  let n4 := d / 1461
  let d := d - 1461 * n4
  let n := d / 365
  let n1 := n - n / 4
  let d := d - 365 * n1
  (400 * n400 + 100 * n100 + 4 * n4 + n1 + 1, d)

/-- Go `absDate`, second half: month and day of the month from the day of the year. -/
def monthDay (year yday : Int) : Int × Int :=
  if isLeap year = true ∧ yday = 31 + 29 - 1 then (2, 29)
  else
    let day := if isLeap year = true ∧ yday > 31 + 29 - 1 then yday - 1 else yday
    let month := day / 31
    let stop := daysBefore (month + 1)
    if day ≥ stop then (month + 2, day - stop + 1)
    else (month + 1, day - daysBefore month + 1)

/-- Go `Time.Year`. -/
def Time.Year (t : Time) : Int := (yearDay (t.abs / 86400)).1

/-- Go `Time.Month`, January being 1. -/
def Time.Month (t : Time) : Int :=
  (monthDay (yearDay (t.abs / 86400)).1 (yearDay (t.abs / 86400)).2).1

/-- Go `Time.Day`. -/
def Time.Day (t : Time) : Int :=
  (monthDay (yearDay (t.abs / 86400)).1 (yearDay (t.abs / 86400)).2).2

/-- Go `Time.Hour`. -/
def Time.Hour (t : Time) : Int := t.abs % 86400 / 3600

/-- Go `Time.Minute`. -/
def Time.Minute (t : Time) : Int := t.abs % 3600 / 60

/-- Go `Time.Second`. -/
def Time.Second (t : Time) : Int := t.abs % 60

/-! ## Go's `time` package: layouts, `Format` and `Parse`

Byte strings are lists of characters; every character the layouts produce or
accept is ASCII. -/

/-- The layout elements `nextStdChunk` finds in the two layouts used here,
and the literal text between them. -/
inductive Chunk where
  | lit (c : Char)
  | stdLongYear
  | stdZeroMonth
  | stdZeroDay
  | stdHour
  | stdZeroMinute
  | stdZeroSecond
  | stdFracSecond0 (digits : Nat)
  | stdNumColonTZ
deriving DecidableEq, Repr

/-- The layout `"2006-01-02T15:04:05"` of `Time.String` and `Time.MarshalJSON`, in chunks. -/
def encodeLayout : List Chunk :=
  [.stdLongYear, .lit '-', .stdZeroMonth, .lit '-', .stdZeroDay, .lit 'T',
   .stdHour, .lit ':', .stdZeroMinute, .lit ':', .stdZeroSecond]

/-- The layout `"2006-01-02T15:04:05.0000000-07:00"` of `Time.UnmarshalJSON`, in chunks. -/
def decodeLayout : List Chunk :=
  encodeLayout ++ [.stdFracSecond0 7, .stdNumColonTZ]

/-- The decimal digits of `u`, most significant first; `fuel` bounds their number. -/
def decimal (fuel u : Nat) (acc : List Char) : List Char :=
  match fuel with
  | 0 => acc
  | fuel + 1 =>
    if u < 10 then Nat.digitChar u :: acc
    else decimal fuel (u / 10) (Nat.digitChar (u % 10) :: acc)

/-- Go `appendInt(b, x, width)`: a sign if negative, zero padding up to `width`, the digits. -/
def appendInt (x : Int) (width : Nat) : List Char :=
  let ds := decimal (x.natAbs + 1) x.natAbs []
  (if x < 0 then ['-'] else []) ++ List.replicate (width - ds.length) '0' ++ ds

/-- What `Time.Format` appends for one chunk. -/
def formatChunk (t : Time) : Chunk → List Char
  | .lit c => [c]
  | .stdLongYear => appendInt t.Year 4
  | .stdZeroMonth => appendInt t.Month 2
  | .stdZeroDay => appendInt t.Day 2
  | .stdHour => appendInt t.Hour 2
  | .stdZeroMinute => appendInt t.Minute 2
  | .stdZeroSecond => appendInt t.Second 2
  | .stdFracSecond0 n => '.' :: (appendInt t.nsec 9).take n
  | .stdNumColonTZ =>
    let zone := t.offset.tdiv 60
    (if zone < 0 then ['-'] else ['+']) ++ appendInt (zone.natAbs / 60) 2 ++ [':']
      ++ appendInt (zone.natAbs % 60) 2

/-- Go `Time.Format(layout)`. -/
def Format (t : Time) (layout : List Chunk) : List Char :=
  (layout.map (formatChunk t)).flatten

/-- The fields `Parse` collects, with their initial values. -/
structure Fields where
  year : Int := 0
  month : Int := -1
  day : Int := -1
  hour : Int := 0
  min : Int := 0
  sec : Int := 0
  nsec : Int := 0
  zoneOffset : Int := -1
deriving DecidableEq, Repr

/-- The message of `errBad`. -/
def errBad : String := "bad value for field"

/-- The message of `errAtoi`. -/
def errAtoi : String := "time: invalid number"

/-- The value of a digit, `int(c - '0')`. -/
def digitVal (c : Char) : Int := (c.toNat : Int) - 48

/-- Go `getnum(s, fixed)`: one or two leading digits; two are required when `fixed`. -/
def getnum : List Char → Bool → Except String (Int × List Char)
  | [], _ => .error errBad
  | c0 :: rest, fixed =>
    if c0.isDigit = false then .error errBad
    else
      match rest with
      | [] => if fixed then .error errBad else .ok (digitVal c0, [])
      | c1 :: rest1 =>
        if c1.isDigit = false then
          (if fixed then .error errBad else .ok (digitVal c0, c1 :: rest1))
        else .ok (digitVal c0 * 10 + digitVal c1, rest1)

/-- Go `leadingInt(s)`: the number spelled by the leading digits, and the rest.
The overflow guard is left out: at most seven digits are read here. -/
def leadingInt : List Char → Nat → Nat × List Char
  | [], x => (x, [])
  | c :: cs, x =>
    if c.isDigit then leadingInt cs (x * 10 + (c.toNat - 48)) else (x, c :: cs)

/-- Go `atoi(s)`: an optional sign, then digits up to the end of `s`. -/
def atoi (s : List Char) : Except String Int :=
  let neg := decide (s.head? = some '-')
  let s := if s.head? = some '-' ∨ s.head? = some '+' then s.tail else s
  let r := leadingInt s 0
  if r.2 ≠ [] then .error errAtoi
  else .ok (if neg then -(r.1 : Int) else (r.1 : Int))

/-- Go `commaOrPeriod`. -/
def commaOrPeriod (c : Char) : Bool := c = '.' || c = ','

/-- Go `parseNanoseconds(value, nbytes)` for `nbytes ≤ 10` and `len(value) ≥ nbytes`. -/
def parseNanoseconds (value : List Char) (nbytes : Nat) : Except String Int :=
  match value with
  | [] => .error errBad
  | c :: rest =>
    if commaOrPeriod c = false then .error errBad
    else
      match atoi (rest.take (nbytes - 1)) with
      | .error e => .error e
      | .ok ns =>
        if ns < 0 then .error "fractional second out of range"
        else .ok (ns * 10 ^ (10 - nbytes))

/-- One turn of the loop of `Parse`: the `switch std & stdMask` for a layout
element, `skip` for literal text. -/
def parseChunk (f : Fields) (value : List Char) : Chunk → Except String (Fields × List Char)
  | .lit c =>
    match value with
    | [] => .error errBad
    | v :: rest => if v = c then .ok (f, rest) else .error errBad
  | .stdLongYear =>
    if value.length < 4 ∨ (value.head?.map Char.isDigit) ≠ some true then .error errBad
    else
      match atoi (value.take 4) with
      | .error e => .error e
      | .ok year => .ok ({ f with year := year }, value.drop 4)
  | .stdZeroMonth =>
    match getnum value true with
    | .error e => .error e
    | .ok (month, rest) =>
      if month ≤ 0 ∨ 12 < month then .error "month out of range"
      else .ok ({ f with month := month }, rest)
  | .stdZeroDay =>
    match getnum value true with
    | .error e => .error e
    | .ok (day, rest) => .ok ({ f with day := day }, rest)
  | .stdHour =>
    match getnum value false with
    | .error e => .error e
    | .ok (hour, rest) =>
      if hour < 0 ∨ 24 ≤ hour then .error "hour out of range"
      else .ok ({ f with hour := hour }, rest)
  | .stdZeroMinute =>
    match getnum value true with
    | .error e => .error e
    | .ok (min, rest) =>
      if min < 0 ∨ 60 ≤ min then .error "minute out of range"
      else .ok ({ f with min := min }, rest)
  | .stdZeroSecond =>
    match getnum value true with
    | .error e => .error e
    | .ok (sec, rest) =>
      if sec < 0 ∨ 60 ≤ sec then .error "second out of range"
      else .ok ({ f with sec := sec }, rest)
  | .stdFracSecond0 n =>
    if value.length < 1 + n then .error errBad
    else
      match parseNanoseconds value (1 + n) with
      | .error e => .error e
      | .ok ns => .ok ({ f with nsec := ns }, value.drop (1 + n))
  | .stdNumColonTZ =>
    match value with
    | sign :: h1 :: h2 :: colon :: m1 :: m2 :: rest =>
      if colon ≠ ':' then .error errBad
      else
        match getnum [h1, h2] true with
        | .error e => .error e
        | .ok (hr, _) =>
          match getnum [m1, m2] true with
          | .error e => .error e
          | .ok (mm, _) =>
            if hr > 24 then .error "time zone offset hour out of range"
            else if mm > 60 then .error "time zone offset minute out of range"
            else if sign = '+' then .ok ({ f with zoneOffset := (hr * 60 + mm) * 60 }, rest)
            else if sign = '-' then .ok ({ f with zoneOffset := -((hr * 60 + mm) * 60) }, rest)
            else .error errBad
    | _ => .error errBad

/-- The loop of `Parse`: chunk after chunk, then no text may be left. -/
def parseChunks : List Chunk → Fields → List Char → Except String Fields
  | [], f, value => if value ≠ [] then .error "extra text" else .ok f
  | ch :: layout, f, value =>
    match parseChunk f value ch with
    | .error e => .error e
    | .ok (f1, rest) => parseChunks layout f1 rest

/-- Go `time.Parse(layout, value)`; every error it returns is a `*time.ParseError`,
of which only the reason is kept as the message.  The parsed offset becomes the
offset of the location of the result. -/
def Parse (layout : List Chunk) (value : List Char) : Except String Time :=
  match parseChunks layout {} value with
  | .error e => .error e
  | .ok f =>
    let month := if f.month < 0 then 1 else f.month
    let day := if f.day < 0 then 1 else f.day
    if day < 1 ∨ day > daysIn month f.year then .error "day out of range"
    else if f.zoneOffset ≠ -1 then
      .ok (Date f.year month day f.hour f.min f.sec f.nsec f.zoneOffset)
    else .ok (Date f.year month day f.hour f.min f.sec f.nsec 0)

/-! ## The time adapter (lines 256-282, 516-522) -/

/-- The slice `data[1 : len(data)-1]` for `len(data) ≥ 2`. -/
def inner (data : List Char) : List Char := (data.take (data.length - 1)).drop 1

/-- Go `func (t Time) MarshalJSON() ([]byte, error)` (line 517). -/
def Time.MarshalJSON (t : Time) : Except String (List Char) :=
  .ok (['"'] ++ Format t encodeLayout ++ ['"'])

/-- Go `func (r *Time) UnmarshalJSON(data []byte) error` (line 273): the new value
of `*r`, or the error; the slice expression `data[1 : len(data)-1]` panics when
`len(data) < 2`. -/
def Time.UnmarshalJSON (data : List Char) : Run (Except String Time) :=
  if data.length < 2 then .panic "slice bounds out of range"
  else .done (Parse decodeLayout (inner data))

/-- Go `func (t Time) String() string` (line 260). -/
def Time.String (t : Time) : List Char := Format t encodeLayout

/-- How `encoding/json` fills the member `expires` of a token (line 253): it calls
`Time.UnmarshalJSON` on the raw bytes of the member; an error of the method is
returned by the decoder and leaves the token alone, a panic is not recovered. -/
def decodeExpires (raw : List Char) (t : Token) : Run (Token × Option String) :=
  match Time.UnmarshalJSON raw with
  | .panic m => .panic m
  | .done (.error e) => .done (t, some e)
  | .done (.ok expires) => .done ({ t with Expires := expires }, none)

/-! ## Domain operations (lines 450-457, 524-562) -/

/-- The request descriptor of `GetUsers` (line 452). -/
def usersRequest : Request :=
  { Uri := "/api/2.0/people/filter.json", Method := "", Params := none, Body := none,
    Token := none, NoAuth := false, Debug := false }

/-- Go `func (c *Client) GetUsers() (list []*User, err error)` (line 451); `list`
is read after `Query` has decoded into it. -/
def GetUsers (env : Env) (now : Time) (c : Client) (tr : List HttpRequest) :
    Outcome (List (Option User)) :=
  Query env now c tr usersRequest (some ⟨[], env.usersCodec⟩)

/-- The message of a nil pointer dereference. -/
def nilDeref : String := "invalid memory address or nil pointer dereference"

/-- The loop of lines 537-542, started with `np.ResponsibleID == ""`: the value
of `np.ResponsibleID` after it. -/
def findByEmail (name : String) : List (Option User) → Run String
  | [] => .done ""
  | none :: _ => .panic nilDeref
  | some user :: rest =>
    match user.Email with
    | none => .panic nilDeref
    | some email =>
      if email = name then
        match user.ID with
        | none => .panic nilDeref
        | some id => .done id
      else findByEmail name rest

/-- The expression `*users[0].ID` (line 547). -/
def firstUserID : List (Option User) → Run String
  | [] => .panic "index out of range [0] with length 0"
  | none :: _ => .panic nilDeref
  | some user :: _ =>
    match user.ID with
    | none => .panic nilDeref
    | some id => .done id

/-- Lines 536-548: the responsible user picked from the list. -/
def pickResponsible (name : String) (users : List (Option User)) : Run String :=
  match findByEmail name users with
  | .panic m => .panic m
  | .done rid => if rid = "" then firstUserID users else .done rid

/-- The request descriptor of `CreateProject` (line 552). -/
def createRequest (np : NewProjectRequest) : Request :=
  { Uri := "/api/2.0/project.json", Method := "POST", Params := none,
    Body := some (.value (.newProject np)), Token := none, NoAuth := false, Debug := false }

/-- A call that ended in a panic did not return; otherwise it returned what it left
behind. -/
def Outcome.toRun {ρ : Type} (out : Outcome ρ) : Run (Outcome ρ) :=
  match out.panic with
  | some m => .panic m
  | none => .done out

/-- Go `func (c *Client) CreateProject(np NewProjectRequest) (prj *Project, err error)`
(line 527).  `now1` is the clock read by the `Query` of `GetUsers`, `now2` the one
read by the `Query` of the create request; a `none` result is a nil `prj`. -/
def CreateProject (env : Env) (now1 now2 : Time) (c : Client) (tr : List HttpRequest)
    (np : NewProjectRequest) : Run (Outcome Project) :=
  if np.ResponsibleID = "" then
    let out := GetUsers env now1 c tr
    match out.panic with
    | some m => .panic m
    | none =>
      match out.err with
      | some e => .done ⟨out.client, out.trace, none, some e, none⟩
      | none =>
        match pickResponsible c.credentials.User (out.result.getD []) with
        | .panic m => .panic m
        | .done rid =>
          (Query env now2 out.client out.trace (createRequest { np with ResponsibleID := rid })
            (some ⟨Project.empty, env.projectCodec⟩)).toRun
  else
    (Query env now2 c tr (createRequest np) (some ⟨Project.empty, env.projectCodec⟩)).toRun

/-! ## Query parameters (lines 314-321, 615-636): go-querystring and `net/url` -/

/-- Go `type ProjectGetTasksRequest struct` (line 617); the `url` tags are the
names used by `queryValues`. -/
structure ProjectGetTasksRequest where
  ProjectId : Int
  Count : Int
  StartIndex : Int
  SortBy : String
  SortOrder : String
  Simple : Bool
deriving DecidableEq, Repr

/-- Go `func NewProjectGetTasksRequest(projectId int) ProjectGetTasksRequest` (line 627). -/
def NewProjectGetTasksRequest (projectId : Int) : ProjectGetTasksRequest :=
  { ProjectId := projectId, Count := 1000, StartIndex := 0, SortBy := "title",
    SortOrder := "ascending", Simple := true }

/-- The bytes of a Go string: its UTF-8 encoding. -/
def utf8 (s : String) : List Nat :=
  (s.data.flatMap String.utf8EncodeChar).map UInt8.toNat

/-- Go's `<` on strings: byte-wise lexicographic order. -/
def bytesLess : List Nat → List Nat → Bool
  | _, [] => false
  | [], _ :: _ => true
  | a :: as, b :: bs => decide (a < b) || (decide (a = b) && bytesLess as bs)

/-- What `fmt.Sprint` prints for an `int`: a sign if negative, then the decimal digits. -/
def sprintInt (x : Int) : String :=
  String.mk ((if x < 0 then ['-'] else []) ++ decimal (x.natAbs + 1) x.natAbs [])

/-- What `fmt.Sprint` prints for a `bool`. -/
def sprintBool (b : Bool) : String := if b then "true" else "false"

/-- The type `url.Values`, a map from key to the values added under it. -/
abbrev Values := List (String × List String)

/-- The method `Values.Add`: appends the value to the list stored under the key. -/
def Values.Add : Values → String → String → Values
  | [], k, v => [(k, [v])]
  | (k1, vs) :: rest, k, v =>
    if k1 = k then (k1, vs ++ [v]) :: rest else (k1, vs) :: Values.Add rest k v

/-- The function `query.Values` of go-querystring on a `ProjectGetTasksRequest`: one
`Add` per field, in field order, under the name of the `url` tag; no field is
tagged `omitempty`, so zero values are added too. -/
def queryValues (r : ProjectGetTasksRequest) : Values :=
  (((((Values.Add [] "projectId" (sprintInt r.ProjectId)).Add
    "count" (sprintInt r.Count)).Add
    "startIndex" (sprintInt r.StartIndex)).Add
    "sortBy" r.SortBy).Add
    "sortOrder" r.SortOrder).Add
    "simple" (sprintBool r.Simple)

/-- The test `shouldEscape(c, encodeQueryComponent)` of `net/url`. -/
def shouldEscape (c : Nat) : Bool :=
  !((97 ≤ c && c ≤ 122) || (65 ≤ c && c ≤ 90) || (48 ≤ c && c ≤ 57)
    || c = 45 || c = 95 || c = 46 || c = 126)

/-- The digit `upperhex[n]`. -/
def upperhex (n : Nat) : Char :=
  if n < 10 then Char.ofNat (48 + n) else Char.ofNat (55 + n)

/-- What `escape(s, encodeQueryComponent)` writes for one byte. -/
def escapeByte (c : Nat) : List Char :=
  if c = 32 then ['+']
  else if shouldEscape c then ['%', upperhex (c / 16), upperhex (c % 16)]
  else [Char.ofNat c]

/-- The function `url.QueryEscape`. -/
def QueryEscape (s : String) : String :=
  String.mk ((utf8 s).flatMap escapeByte)

/-- Inserts a key into a list of keys sorted by `bytesLess`. -/
def insertKey (k : String) : List String → List String
  | [] => [k]
  | x :: xs => if bytesLess (utf8 k) (utf8 x) then k :: x :: xs else x :: insertKey k xs

/-- The sorted keys of a `Values`, as `slices.Sorted(maps.Keys(v))` yields them. -/
def sortedKeys (v : Values) : List String :=
  (v.map (fun p => p.1)).foldr insertKey []

/-- The values stored under a key. -/
def Values.Get (v : Values) (k : String) : List String :=
  ((v.find? (fun p => p.1 == k)).map (fun p => p.2)).getD []

/-- The method `Values.Encode`: the pairs `key=value`, escaped, joined by `&`, the
keys in sorted order. -/
def Values.Encode (v : Values) : String :=
  "&".intercalate ((sortedKeys v).flatMap (fun k =>
    (v.Get k).map (fun val => QueryEscape k ++ "=" ++ QueryEscape val)))

/-- A `ProjectGetTasksRequest` as `Request.Params`: `query.Values` accepts every
struct, then `v.Encode()` (lines 316-320). -/
def ProjectGetTasksRequest.toParams (r : ProjectGetTasksRequest) : Params :=
  ⟨.ok (queryValues r).Encode⟩

/-- The request descriptor of `GetTasks` (line 641). -/
def tasksRequest (req : ProjectGetTasksRequest) : Request :=
  { Uri := "/api/2.0/project/task/filter.json", Method := "", Params := some req.toParams,
    Body := none, Token := none, NoAuth := false, Debug := true }

/-! ## Go's `encoding/json`: the scanner, `Unmarshal` and `Decoder.Decode`

The scanner of `scanner.go` is transcribed state by state.  Bytes are characters:
the scanner only distinguishes ASCII bytes, and treats every other byte the way it
treats any character that is none of them.  The response body is taken to be read
without I/O errors. -/

/-- The values a step of the scanner returns. -/
inductive ScanCode where
  | scanContinue
  | scanBeginLiteral
  | scanBeginObject
  | scanObjectKey
  | scanObjectValue
  | scanEndObject
  | scanBeginArray
  | scanArrayValue
  | scanEndArray
  | scanSkipSpace
  | scanEnd
  | scanError
deriving DecidableEq, Repr

/-- The entries of the scanner's `parseState` stack. -/
inductive ParseState where
  | parseObjectKey
  | parseObjectValue
  | parseArrayValue
deriving DecidableEq, Repr

/-- The state functions a scanner's `step` field can hold. -/
inductive ScanStep where
  | stateBeginValueOrEmpty
  | stateBeginValue
  | stateBeginStringOrEmpty
  | stateBeginString
  | stateEndValue
  | stateEndTop
  | stateInString
  | stateInStringEsc
  | stateInStringEscU
  | stateInStringEscU1
  | stateInStringEscU12
  | stateInStringEscU123
  | stateNeg
  | state1
  | state0
  | stateDot
  | stateDot0
  | stateE
  | stateESign
  | stateE0
  | stateT
  | stateTr
  | stateTru
  | stateF
  | stateFa
  | stateFal
  | stateFals
  | stateN
  | stateNu
  | stateNul
  | stateError
deriving DecidableEq, Repr

/-- Go `type scanner struct`; the top of `parseState` is the head of the list. -/
structure Scanner where
  step : ScanStep
  parseState : List ParseState
  err : Option String
  endTop : Bool
deriving DecidableEq, Repr

/-- The method `scanner.reset`. -/
def Scanner.reset : Scanner :=
  { step := .stateBeginValue, parseState := [], err := none, endTop := false }

/-- The constant `maxNestingDepth`. -/
def maxNestingDepth : Nat := 10000

/-- The bytes `{`, `}` and the backslash. -/
def lbrace : Char := Char.ofNat 123

def rbrace : Char := Char.ofNat 125

def backslash : Char := Char.ofNat 92

/-- The function `isSpace` of `scanner.go`: space, tab, carriage return, newline. -/
def isSpace (c : Char) : Bool :=
  c = ' ' || c = Char.ofNat 9 || c = Char.ofNat 13 || c = Char.ofNat 10

/-- The method `scanner.error`: records the error and parks the scanner in
`stateError`.  The message leaves out the quoted offending byte. -/
def Scanner.error (s : Scanner) (context : String) : Scanner × ScanCode :=
  ({ s with step := .stateError, err := some ("invalid character " ++ context) }, .scanError)

/-- The method `scanner.pushParseState`. -/
def pushParseState (s : Scanner) (newParseState : ParseState) (successState : ScanCode) :
    Scanner × ScanCode :=
  let s1 := { s with parseState := newParseState :: s.parseState }
  if s1.parseState.length ≤ maxNestingDepth then (s1, successState)
  else s1.error "exceeded max depth"

/-- The method `scanner.popParseState`. -/
def popParseState (s : Scanner) : Scanner :=
  if s.parseState.tail = [] then
    { s with parseState := s.parseState.tail, step := .stateEndTop, endTop := true }
  else { s with parseState := s.parseState.tail, step := .stateEndValue }

/-- The state after a complete top-level value: white space only. -/
def stateEndTop (s : Scanner) (c : Char) : Scanner × ScanCode :=
  if isSpace c = false then ((s.error "after top-level value").1, .scanEnd)
  else (s, .scanEnd)

/-- The state after a value: what may follow depends on the enclosing object or array. -/
def stateEndValue (s : Scanner) (c : Char) : Scanner × ScanCode :=
  match s.parseState with
  | [] => stateEndTop { s with step := .stateEndTop, endTop := true } c
  | ps :: rest =>
    if isSpace c then ({ s with step := .stateEndValue }, .scanSkipSpace)
    else
      match ps with
      | .parseObjectKey =>
        if c = ':' then
          ({ s with parseState := .parseObjectValue :: rest, step := .stateBeginValue },
            .scanObjectKey)
        else s.error "after object key"
      | .parseObjectValue =>
        if c = ',' then
          ({ s with parseState := .parseObjectKey :: rest, step := .stateBeginString },
            .scanObjectValue)
        else if c = rbrace then (popParseState s, .scanEndObject)
        else s.error "after object key:value pair"
      | .parseArrayValue =>
        if c = ',' then ({ s with step := .stateBeginValue }, .scanArrayValue)
        else if c = ']' then (popParseState s, .scanEndArray)
        else s.error "after array element"

/-- The state at the beginning of a value. -/
def stateBeginValue (s : Scanner) (c : Char) : Scanner × ScanCode :=
  if isSpace c then (s, .scanSkipSpace)
  else if c = lbrace then
    pushParseState { s with step := .stateBeginStringOrEmpty } .parseObjectKey .scanBeginObject
  else if c = '[' then
    pushParseState { s with step := .stateBeginValueOrEmpty } .parseArrayValue .scanBeginArray
  else if c = '"' then ({ s with step := .stateInString }, .scanBeginLiteral)
  else if c = '-' then ({ s with step := .stateNeg }, .scanBeginLiteral)
  else if c = '0' then ({ s with step := .state0 }, .scanBeginLiteral)
  else if c = 't' then ({ s with step := .stateT }, .scanBeginLiteral)
  else if c = 'f' then ({ s with step := .stateF }, .scanBeginLiteral)
  else if c = 'n' then ({ s with step := .stateN }, .scanBeginLiteral)
  else if '1' ≤ c ∧ c ≤ '9' then ({ s with step := .state1 }, .scanBeginLiteral)
  else s.error "looking for beginning of value"

/-- The state after `[`. -/
def stateBeginValueOrEmpty (s : Scanner) (c : Char) : Scanner × ScanCode :=
  if isSpace c then (s, .scanSkipSpace)
  else if c = ']' then stateEndValue s c
  else stateBeginValue s c

/-- The state after `{` and a comma in an object: a key. -/
def stateBeginString (s : Scanner) (c : Char) : Scanner × ScanCode :=
  if isSpace c then (s, .scanSkipSpace)
  else if c = '"' then ({ s with step := .stateInString }, .scanBeginLiteral)
  else s.error "looking for beginning of object key string"

/-- The state after `{`. -/
def stateBeginStringOrEmpty (s : Scanner) (c : Char) : Scanner × ScanCode :=
  if isSpace c then (s, .scanSkipSpace)
  else if c = rbrace then
    stateEndValue { s with parseState := .parseObjectValue :: s.parseState.tail } c
  else stateBeginString s c

/-- Whether a byte is a hexadecimal digit. -/
def isHex (c : Char) : Bool :=
  ('0' ≤ c && c ≤ '9') || ('a' ≤ c && c ≤ 'f') || ('A' ≤ c && c ≤ 'F')

/-- Whether a byte is a decimal digit. -/
def isDec (c : Char) : Bool := '0' ≤ c && c ≤ '9'

/-- The state after `0` in a number. -/
def state0 (s : Scanner) (c : Char) : Scanner × ScanCode :=
  if c = '.' then ({ s with step := .stateDot }, .scanContinue)
  else if c = 'e' ∨ c = 'E' then ({ s with step := .stateE }, .scanContinue)
  else stateEndValue s c

/-- The state after `e+` or `e-` in a number. -/
def stateESign (s : Scanner) (c : Char) : Scanner × ScanCode :=
  if isDec c then ({ s with step := .stateE0 }, .scanContinue)
  else s.error "in exponent of numeric literal"

/-- A literal continues with the expected byte or the scanner fails. -/
def expect (s : Scanner) (c want : Char) (next : ScanStep) (context : String) :
    Scanner × ScanCode :=
  if c = want then ({ s with step := next }, .scanContinue) else s.error context

/-- One call `s.step(s, c)`. -/
def Scanner.next (s : Scanner) (c : Char) : Scanner × ScanCode :=
  match s.step with
  | .stateBeginValueOrEmpty => stateBeginValueOrEmpty s c
  | .stateBeginValue => stateBeginValue s c
  | .stateBeginStringOrEmpty => stateBeginStringOrEmpty s c
  | .stateBeginString => stateBeginString s c
  | .stateEndValue => stateEndValue s c
  | .stateEndTop => stateEndTop s c
  | .stateInString =>
    if c = '"' then ({ s with step := .stateEndValue }, .scanContinue)
    else if c = backslash then ({ s with step := .stateInStringEsc }, .scanContinue)
    else if c.toNat < 32 then s.error "in string literal"
    else (s, .scanContinue)
  | .stateInStringEsc =>
    if c = 'b' ∨ c = 'f' ∨ c = 'n' ∨ c = 'r' ∨ c = 't' ∨ c = backslash ∨ c = '/' ∨ c = '"' then
      ({ s with step := .stateInString }, .scanContinue)
    else if c = 'u' then ({ s with step := .stateInStringEscU }, .scanContinue)
    else s.error "in string escape code"
  | .stateInStringEscU =>
    if isHex c then ({ s with step := .stateInStringEscU1 }, .scanContinue)
    else s.error "in \\u hexadecimal character escape"
  | .stateInStringEscU1 =>
    if isHex c then ({ s with step := .stateInStringEscU12 }, .scanContinue)
    else s.error "in \\u hexadecimal character escape"
  | .stateInStringEscU12 =>
    if isHex c then ({ s with step := .stateInStringEscU123 }, .scanContinue)
    else s.error "in \\u hexadecimal character escape"
  | .stateInStringEscU123 =>
    if isHex c then ({ s with step := .stateInString }, .scanContinue)
    else s.error "in \\u hexadecimal character escape"
  | .stateNeg =>
    if c = '0' then ({ s with step := .state0 }, .scanContinue)
    else if '1' ≤ c ∧ c ≤ '9' then ({ s with step := .state1 }, .scanContinue)
    else s.error "in numeric literal"
  | .state1 =>
    if isDec c then ({ s with step := .state1 }, .scanContinue) else state0 s c
  | .state0 => state0 s c
  | .stateDot =>
    if isDec c then ({ s with step := .stateDot0 }, .scanContinue)
    else s.error "after decimal point in numeric literal"
  | .stateDot0 =>
    if isDec c then (s, .scanContinue)
    else if c = 'e' ∨ c = 'E' then ({ s with step := .stateE }, .scanContinue)
    else stateEndValue s c
  | .stateE =>
    if c = '+' ∨ c = '-' then ({ s with step := .stateESign }, .scanContinue)
    else stateESign s c
  | .stateESign => stateESign s c
  | .stateE0 => if isDec c then (s, .scanContinue) else stateEndValue s c
  | .stateT => expect s c 'r' .stateTr "in literal true (expecting r)"
  | .stateTr => expect s c 'u' .stateTru "in literal true (expecting u)"
  | .stateTru => expect s c 'e' .stateEndValue "in literal true (expecting e)"
  | .stateF => expect s c 'a' .stateFa "in literal false (expecting a)"
  | .stateFa => expect s c 'l' .stateFal "in literal false (expecting l)"
  | .stateFal => expect s c 's' .stateFals "in literal false (expecting s)"
  | .stateFals => expect s c 'e' .stateEndValue "in literal false (expecting e)"
  | .stateN => expect s c 'u' .stateNu "in literal null (expecting u)"
  | .stateNu => expect s c 'l' .stateNul "in literal null (expecting l)"
  | .stateNul => expect s c 'l' .stateEndValue "in literal null (expecting l)"
  | .stateError => (s, .scanError)

/-- The method `scanner.eof`. -/
def Scanner.eof (s : Scanner) : Scanner × ScanCode :=
  if s.err.isSome then (s, .scanError)
  else if s.endTop then (s, .scanEnd)
  else
    let s1 := (s.next ' ').1
    if s1.endTop then (s1, .scanEnd)
    else if s1.err.isSome then (s1, .scanError)
    else ({ s1 with err := some "unexpected end of JSON input" }, .scanError)

/-- The loop of `checkValid`: every byte is stepped; a `scanError` stops it. -/
def checkValidLoop : Scanner → List Char → Except String Scanner
  | s, [] => .ok s
  | s, c :: cs =>
    if (s.next c).2 = .scanError then .error ((s.next c).1.err.getD "")
    else checkValidLoop (s.next c).1 cs

/-- The function `checkValid(data, scan)`: the syntax error, if there is one. -/
def checkValid (data : List Char) : Option String :=
  match checkValidLoop Scanner.reset data with
  | .error e => some e
  | .ok s => if s.eof.2 = .scanError then some (s.eof.1.err.getD "") else none

/-- The loop of `Decoder.readValue` over a body that is completely available: the
number of bytes of the first value, `scanp` bytes having been scanned. -/
def readValueLoop : Scanner → List Char → Nat → Except String Nat
  | s, [], scanp =>
    if (s.next ' ').2 = .scanEnd then .ok scanp else .error "unexpected EOF"
  | s, c :: cs, scanp =>
    match (s.next c).2 with
    | .scanEnd => .ok scanp
    | .scanError => .error ((s.next c).1.err.getD "")
    | .scanEndObject =>
      if (stateEndValue (s.next c).1 ' ').2 = .scanEnd then .ok (scanp + 1)
      else readValueLoop (stateEndValue (s.next c).1 ' ').1 cs (scanp + 1)
    | .scanEndArray =>
      if (stateEndValue (s.next c).1 ' ').2 = .scanEnd then .ok (scanp + 1)
      else readValueLoop (stateEndValue (s.next c).1 ' ').1 cs (scanp + 1)
    | _ => readValueLoop (s.next c).1 cs (scanp + 1)

/-- The method `Decoder.readValue` on a fresh decoder. -/
def readValue (data : List Char) : Except String Nat :=
  readValueLoop Scanner.reset data 0

/-- The function `json.Unmarshal(data, v)` for a non-nil pointer `v`: the data is
checked as a whole, then `d.unmarshal(v)`, here `store`, decodes it into the target. -/
def jsonUnmarshal {ρ : Type} (store : List Char → ρ → Run (ρ × Option String))
    (data : List Char) (v : ρ) : Run (ρ × Option String) :=
  match checkValid data with
  | some e => .done (v, some e)
  | none => store data v

/-- The method `Decoder.Decode(v)` of a fresh decoder for a non-nil pointer `v`: the
first value is cut out of the stream, then `d.unmarshal(v)`, here `store`, decodes it
into the target. -/
def jsonDecode {ρ : Type} (store : List Char → ρ → Run (ρ × Option String))
    (data : List Char) (v : ρ) : Run (ρ × Option String) :=
  match readValue data with
  | .error e => .done (v, some e)
  | .ok n => store (data.take n) v

/-- The two decoding paths of `Query` (lines 383-393) for a target whose decoding
proper is `store`. -/
def Codec.ofStore {ρ : Type} (store : List Char → ρ → Run (ρ × Option String)) : Codec ρ :=
  { Unmarshal := fun body v => jsonUnmarshal store body.toList v
    Decode := fun body v => jsonDecode store body.toList v }

/-! ## Go's `fmt.Sprintf` called with a format and no operands (line 247)

The loop of `doPrintf` in `fmt/print.go`, specialised to an empty operand list: no
verb finds an operand, every argument index is out of range.  Bytes are characters;
the model reads a verb as one character, as the code does by decoding a rune. -/

/-- The state of `doPrintf` within one verb: the output buffer, the format from the
current position on, and the flags `afterIndex` and `p.goodArgNum`. -/
structure Printer where
  buf : List Char
  format : List Char
  afterIndex : Bool
  goodArgNum : Bool
deriving DecidableEq, Repr

/-- The flag characters skipped after a percent sign. -/
def isFlag (c : Char) : Bool :=
  c = '#' || c = '0' || c = '+' || c = '-' || c = ' '

/-- The loop of `parsenum`: whether a number was read, and the format after it.  A
number above 1e6 is given up, the position moving to the end. -/
def parsenumLoop : Nat → Bool → List Char → Bool × List Char
  | _, isnum, [] => (isnum, [])
  | num, isnum, c :: cs =>
    if c.isDigit then
      if num > 1000000 then (false, [])
      else parsenumLoop (num * 10 + (c.toNat - 48)) true cs
    else (isnum, c :: cs)

/-- The function `parsenum` of `fmt` from the current position to the end. -/
def parsenum (s : List Char) : Bool × List Char :=
  parsenumLoop 0 false s

/-- The function `parseArgNumber` on a format that starts with `[`: the width of the
bracketed index and whether it is a number. -/
def parseArgNumber (s : List Char) : Nat × Bool :=
  if s.length < 3 then (1, false)
  else
    let inner := (s.drop 1).takeWhile (fun c => c != ']')
    if inner.length < (s.drop 1).length then
      (inner.length + 2, (parsenum inner).1 && (parsenum inner).2.isEmpty)
    else (1, false)

/-- The method `pp.argNumber` with no operands: an index, if there is one, is skipped
and never in range. -/
def argNumber (p : Printer) : Printer :=
  match p.format with
  | '[' :: t =>
    { p with
      format := ('[' :: t).drop (parseArgNumber ('[' :: t)).1
      afterIndex := (parseArgNumber ('[' :: t)).2
      goodArgNum := false }
  | _ => { p with afterIndex := false }

def badWidthString : List Char := "%!(BADWIDTH)".toList

def badPrecString : List Char := "%!(BADPREC)".toList

def noVerbString : List Char := "%!(NOVERB)".toList

def percentBangString : List Char := "%!".toList

def badIndexString : List Char := "(BADINDEX)".toList

def missingString : List Char := "(MISSING)".toList

/-- The width part of `doPrintf`: a `*` finds no operand. -/
def doWidth (p : Printer) : Printer :=
  match p.format with
  | '*' :: t => { p with buf := p.buf ++ badWidthString, format := t, afterIndex := false }
  | _ =>
    { p with
      format := (parsenum p.format).2
      goodArgNum := p.goodArgNum && !(p.afterIndex && (parsenum p.format).1) }

/-- The star or number after the point of a precision. -/
def doPrecStar (q : Printer) : Printer :=
  match q.format with
  | '*' :: u => { q with buf := q.buf ++ badPrecString, format := u, afterIndex := false }
  | _ => { q with format := (parsenum q.format).2 }

/-- The precision part of `doPrintf`, entered on a point that does not end the
format (`i+1 < end && format[i] == '.'`). -/
def doPrec (p : Printer) : Printer :=
  match p.format with
  | '.' :: c :: t =>
    doPrecStar (argNumber
      { p with format := c :: t, goodArgNum := p.goodArgNum && !p.afterIndex })
  | _ => p

/-- The end of a verb in `doPrintf`: no verb, a percent sign, a bad index, or a verb
without an operand. -/
def doVerbChar (p : Printer) : Printer :=
  match p.format with
  | [] => { p with buf := p.buf ++ noVerbString }
  | verb :: rest =>
    if verb = '%' then { p with buf := p.buf ++ ['%'], format := rest }
    else if p.goodArgNum = false then
      { p with buf := p.buf ++ percentBangString ++ [verb] ++ badIndexString, format := rest }
    else { p with buf := p.buf ++ percentBangString ++ [verb] ++ missingString, format := rest }

/-- One verb of `doPrintf`, from behind the percent sign. -/
def doVerb (buf format : List Char) : Printer :=
  let p := doPrec (doWidth (argNumber
    { buf := buf, format := format.dropWhile isFlag, afterIndex := false, goodArgNum := true }))
  doVerbChar (if p.afterIndex then p else argNumber p)

/-- The loop of `doPrintf` with no operands; every round consumes a percent sign, and
`none` is returned when `fuel` rounds did not reach the end of the format. -/
def doPrintf : Nat → List Char → List Char → Option (List Char)
  | 0, _, _ => none
  | fuel + 1, buf, format =>
    match format.dropWhile (fun c => c != '%') with
    | [] => some (buf ++ format.takeWhile (fun c => c != '%'))
    | _ :: s =>
      doPrintf fuel (doVerb (buf ++ format.takeWhile (fun c => c != '%')) s).buf
        (doVerb (buf ++ format.takeWhile (fun c => c != '%')) s).format

/-- Go `fmt.Sprintf(format)`: the loop is given one round per character and one more. -/
def Sprintf (format : String) : String :=
  String.mk ((doPrintf (format.length + 1) [] format.toList).getD [])

/-- Go `func (p Project) String() string` (line 246): `fmt.Sprintf(*p.Title)`. -/
def Project.String (p : Project) : Run String :=
  match p.Title with
  | none => .panic nilDeref
  | some title => .done (Sprintf title)

/-! ## Specification-side definitions -/

/-- Two decimal digits, zero padded. -/
def pad2 (n : Int) : List Char :=
  [Nat.digitChar (n.toNat / 10), Nat.digitChar (n.toNat % 10)]

/-- Four decimal digits, zero padded. -/
def pad4 (n : Int) : List Char :=
  [Nat.digitChar (n.toNat / 1000), Nat.digitChar (n.toNat / 100 % 10),
   Nat.digitChar (n.toNat / 10 % 10), Nat.digitChar (n.toNat % 10)]

/-- Character classes of a layout position. -/
inductive Cls where
  | digit
  | sign
  | sep
  | signOrDigit
  | lit (c : Char)
deriving DecidableEq, Repr

/-- Whether a character belongs to a class. -/
def Cls.accepts : Cls → Char → Bool
  | .digit, c => c.isDigit
  | .sign, c => c == '+' || c == '-'
  | .sep, c => c == '.' || c == ','
  | .signOrDigit, c => c.isDigit || c == '+' || c == '-'
  | .lit x, c => c == x

/-- Whether a text has exactly the characters a pattern asks for, position by position. -/
def matchesPattern : List Cls → List Char → Bool
  | [], [] => true
  | p :: ps, c :: cs => p.accepts c && matchesPattern ps cs
  | _, _ => false

/-- The pattern `YYYY-MM-DDT`. -/
def datePattern : List Cls :=
  [.digit, .digit, .digit, .digit, .lit '-', .digit, .digit, .lit '-', .digit, .digit, .lit 'T']

/-- The pattern `:MM:SS.fffffff±HH:MM`, as the specification words it. -/
def tailPattern : List Cls :=
  [.lit ':', .digit, .digit, .lit ':', .digit, .digit, .lit '.',
   .digit, .digit, .digit, .digit, .digit, .digit, .digit,
   .sign, .digit, .digit, .lit ':', .digit, .digit]

/-- The pattern `:MM:SS`, a period or a comma, seven fraction characters of which the
first may be a sign, and `±HH:MM`: what `time.Parse` lets through after the hour. -/
def lenientTailPattern : List Cls :=
  [.lit ':', .digit, .digit, .lit ':', .digit, .digit, .sep,
   .signOrDigit, .digit, .digit, .digit, .digit, .digit, .digit,
   .sign, .digit, .digit, .lit ':', .digit, .digit]

/-- The layout `YYYY-MM-DDTHH:MM:SS.fffffff±HH:MM` of the specification: seven
fraction digits and a signed hour:minute offset. -/
def matchesLayout (s : List Char) : Bool :=
  matchesPattern (datePattern ++ [.digit, .digit] ++ tailPattern) s

/-- The shapes `time.Parse` can accept under the decode layout: the hour may have
one digit or two, the fraction may start with a comma and with a sign. -/
def matchesLenient (s : List Char) : Bool :=
  matchesPattern (datePattern ++ [.digit] ++ lenientTailPattern) s ||
  matchesPattern (datePattern ++ [.digit, .digit] ++ lenientTailPattern) s

/-- A double-quoted string whose content matches the layout of the specification. -/
def quotedLayout (data : List Char) : Bool :=
  decide (2 ≤ data.length) && data.head? == some '"' && data.getLast? == some '"' &&
    matchesLayout (inner data)

/-- The text `.fffffff±HH:MM` that the decode layout has beyond the encode layout. -/
def decodeSuffix (t : Time) : List Char := Format t [.stdFracSecond0 7, .stdNumColonTZ]

/-- The email of an entry of the user list; `none` for a nil entry or an unset email. -/
def userEmail (u : Option User) : Option String := u.bind (fun v => v.Email)

/-- The ID of an entry of the user list; `none` for a nil entry or an unset ID. -/
def userID (u : Option User) : Option String := u.bind (fun v => v.ID)

/-- Whether the email of the entry is set and equals `name`. -/
def emailIs (name : String) (u : Option User) : Bool := userEmail u == some name

/-- The ID of the first user of the list. -/
def firstID (users : List (Option User)) : Option String := users.head?.bind userID

/-- The responsible user as the specification words it: the ID of the user whose
email equals the credentials' user name, else the ID of the first user. -/
def specResponsible (name : String) (users : List (Option User)) : Option String :=
  match users.find? (emailIs name) with
  | some u => userID u
  | none => firstID users

/-- The responsible user the code picks: as `specResponsible`, except that a
matching user whose ID is the empty string counts as no match. -/
def codeResponsible (name : String) (users : List (Option User)) : Option String :=
  match users.find? (emailIs name) with
  | some u => if userID u = some "" then firstID users else userID u
  | none => firstID users

/-- The lists on which the lookup reads set fields only: every user up to the first
one whose email equals `name` (every user, if there is none) is present and has an
email; that user has an ID; and when there is no such user, or its ID is the empty
string, the list is not empty and its first user has an ID. -/
def lookupDefined (name : String) (users : List (Option User)) : Bool :=
  (users.takeWhile (fun u => !emailIs name u)).all (fun u => (userEmail u).isSome) &&
  (match users.find? (emailIs name) with
   | some u => (userID u).isSome && (userID u != some "" || (firstID users).isSome)
   | none => (firstID users).isSome)

/-- The query string of the specification: the pairs in the declaration order of the
fields. -/
def declarationOrderQuery (r : ProjectGetTasksRequest) : String :=
  "projectId=" ++ QueryEscape (sprintInt r.ProjectId) ++ "&count=" ++ QueryEscape (sprintInt r.Count)
    ++ "&startIndex=" ++ QueryEscape (sprintInt r.StartIndex) ++ "&sortBy=" ++ QueryEscape r.SortBy
    ++ "&sortOrder=" ++ QueryEscape r.SortOrder ++ "&simple=" ++ QueryEscape (sprintBool r.Simple)

/-- The query string the code produces: the same pairs, the keys in sorted order. -/
def sortedOrderQuery (r : ProjectGetTasksRequest) : String :=
  "count=" ++ QueryEscape (sprintInt r.Count) ++ "&projectId=" ++ QueryEscape (sprintInt r.ProjectId)
    ++ "&simple=" ++ QueryEscape (sprintBool r.Simple) ++ "&sortBy=" ++ QueryEscape r.SortBy
    ++ "&sortOrder=" ++ QueryEscape r.SortOrder ++ "&startIndex=" ++ QueryEscape (sprintInt r.StartIndex)

/-- The scanner is inside the first top-level value or before it, with no error. -/
def Scanner.Inv (s : Scanner) : Prop :=
  s.err = none ∧ s.endTop = false ∧ s.step ≠ .stateEndTop ∧ s.step ≠ .stateError

/-- The scanner has just completed the top-level value, with no error. -/
def Scanner.Top (s : Scanner) : Prop :=
  s.err = none ∧ s.endTop = true ∧ s.step = .stateEndTop

/-- What a step can do to a scanner that is inside the top-level value. -/
def StepSpec (c : Char) (r : Scanner × ScanCode) : Prop :=
  (r.2 = .scanEnd → (isSpace c = true → r.1.Top) ∧
      (isSpace c = false → r.1.err ≠ none ∧ r.1.step = .stateError)) ∧
  (r.2 = .scanEndObject ∨ r.2 = .scanEndArray → isSpace c = false ∧
      ((r.1.parseState = [] ∧ r.1.Top) ∨
       (r.1.parseState ≠ [] ∧ r.1.Inv ∧ r.1.step = .stateEndValue))) ∧
  (r.2 = .scanError → r.1.endTop = false) ∧
  (r.2 ≠ .scanEnd → r.2 ≠ .scanError → r.2 ≠ .scanEndObject → r.2 ≠ .scanEndArray → r.1.Inv)

/-! ## Concrete inputs used by witnesses and counterexamples -/

/-- A transport that answers every request with the same body. -/
def constEnv (body : String) (tok : Token × Option String) : Env :=
  { urlParses := fun _ => true
    Do := fun _ _ => .ok body
    tokenCodec := ⟨fun _ _ => .done tok, fun _ _ => .done tok⟩
    usersCodec := ⟨fun _ v => .done (v, none), fun _ v => .done (v, none)⟩
    projectCodec := ⟨fun _ v => .done (v, none), fun _ v => .done (v, none)⟩ }

/-- A transport on which every exchange fails. -/
def downEnv : Env :=
  { urlParses := fun _ => true
    Do := fun _ _ => .error "connection refused"
    tokenCodec := ⟨fun _ v => .done (v, none), fun _ v => .done (v, none)⟩
    usersCodec := ⟨fun _ v => .done (v, none), fun _ v => .done (v, none)⟩
    projectCodec := ⟨fun _ v => .done (v, none), fun _ v => .done (v, none)⟩ }

/-- A server that answers the authentication request with a token `T` whose
`expires` member is the number `5`: the decoder hands the one byte `5` to
`Time.UnmarshalJSON`. -/
def exShortExpiresEnv : Env :=
  { urlParses := fun _ => true
    Do := fun _ _ => .ok "\x7b\"response\":\x7b\"token\":\"T\",\"expires\":5\x7d\x7d"
    tokenCodec := ⟨fun _ t => decodeExpires ['5'] { t with Value := "T" },
      fun _ t => decodeExpires ['5'] { t with Value := "T" }⟩
    usersCodec := ⟨fun _ v => .done (v, none), fun _ v => .done (v, none)⟩
    projectCodec := ⟨fun _ v => .done (v, none), fun _ v => .done (v, none)⟩ }

/-- A server that rejects the login: its answer has no `response` member, so the
decoder returns no error and leaves the token of `Auth` empty. -/
def exRejectEnv : Env :=
  constEnv "\x7b\"status\":1,\"statusCode\":401\x7d" (Token.empty, none)

def exCreds : Credentials := ⟨"https://office.example", "a@b.com", "x"⟩

/-- 2099-01-01T00:00:00 UTC. -/
def exLate : Time := ⟨4070908800, 0, 0⟩

/-- 2024-04-16T00:00:00 UTC. -/
def exNow : Time := ⟨1713225600, 0, 0⟩

/-- 2001-09-09T01:46:40 UTC. -/
def exEarly : Time := ⟨1000000000, 0, 0⟩

/-- A request descriptor with `NoAuth` set. -/
def exPing : Request :=
  { Uri := "/api/2.0/people/filter.json", Method := "", Params := none, Body := none,
    Token := none, NoAuth := true, Debug := false }

/-- A request descriptor whose method `http.NewRequest` rejects. -/
def exBad : Request :=
  { Uri := "/api/2.0/people/filter.json", Method := "BAD METHOD", Params := none, Body := none,
    Token := none, NoAuth := false, Debug := false }

/-- A server that answers every request, the user list decoding to `users`. -/
def usersEnv (users : List (Option User)) : Env :=
  { urlParses := fun _ => true
    Do := fun _ _ => .ok ""
    tokenCodec := ⟨fun _ v => .done (v, none), fun _ v => .done (v, none)⟩
    usersCodec := ⟨fun _ _ => .done (users, none), fun _ _ => .done (users, none)⟩
    projectCodec := ⟨fun _ v => .done (v, none), fun _ v => .done (v, none)⟩ }

/-- A user with an ID and an email and nothing else. -/
def exUser (id email : String) : User :=
  { ID := some id, UserName := none, FirstName := none, LastName := none,
    Email := some email, DisplayName := none }

/-- A `d.unmarshal` stand-in that stores the text of the value without its white space. -/
def exStore (text : List Char) (_ : List Char) : Run (List Char × Option String) :=
  .done (text.filter (fun c => !isSpace c), none)

/-- A transport that answers every request with the same body; the envelopes of the
library's own calls are not decoded. -/
def exBodyEnv (body : String) : Env :=
  { urlParses := fun _ => true
    Do := fun _ _ => .ok body
    tokenCodec := ⟨fun _ v => .done (v, none), fun _ v => .done (v, none)⟩
    usersCodec := ⟨fun _ v => .done (v, none), fun _ v => .done (v, none)⟩
    projectCodec := ⟨fun _ v => .done (v, none), fun _ v => .done (v, none)⟩ }

/-- A request descriptor with a token of its own, with and without `Debug`. -/
def exDebugRequest (debug : Bool) : Request :=
  { Uri := "/api/2.0/project.json", Method := "", Params := none, Body := none,
    Token := some "tok", NoAuth := true, Debug := debug }

/-- A result target holding a list of characters, decoded by `exStore`. -/
def exStoreTarget : Target (List Char) := ⟨[], Codec.ofStore exStore⟩

/-! ## Theorems: request construction and headers -/

theorem Header.lookup_Set_self (h : Header) (k v : String) :
    Header.lookup (Header.Set h k v) k = some v := by
  unfold Header.lookup Header.Set
  have hnone : List.find? (fun p => p.1 == k) (List.filter (fun p => p.1 != k) h) = none := by
    rw [List.find?_eq_none]
    intro p hp
    have := (List.mem_filter.mp hp).2
    simpa using this
  simp [List.find?_append, hnone]

/-- The three headers every request carries (lines 349-351). -/
theorem baseHeader_eq :
    Header.Set (Header.Set (Header.Set [] "Accept" "application/json")
      "Content-Type" "application/json") "Pragma" "no-cache"
      = [("Accept", "application/json"), ("Content-Type", "application/json"),
          ("Pragma", "no-cache")] := by
  decide

/-- What a successfully constructed request looks like. -/
theorem buildRequest_ok {env : Env} {c : Client} {request : Request} {req : HttpRequest}
    (h : buildRequest env c request = .ok req) :
    ∃ url rdr, buildUrl c request = .ok url ∧ buildBody request = .ok rdr ∧
      validMethod request.GetMethod = true ∧ env.urlParses url = true ∧
      req = { Method := request.GetMethod, Url := url, Body := rdr,
              Header := [("Accept", "application/json"), ("Content-Type", "application/json"),
                ("Pragma", "no-cache")] } := by
  unfold buildRequest at h
  cases hu : buildUrl c request with
  | error e => simp [hu] at h
  | ok url =>
    cases hb : buildBody request with
    | error e => simp [hu, hb] at h
    | ok rdr =>
      simp only [hu, hb] at h
      unfold NewRequest at h
      by_cases hm : validMethod request.GetMethod = false
      · simp [hm] at h
      · by_cases hp : env.urlParses url = false
        · simp [hm, hp] at h
        · simp only [hm, hp, if_false] at h
          refine ⟨url, rdr, rfl, rfl, by simpa using hm, by simpa using hp, ?_⟩
          injection h with h
          rw [← h]
          simp only [baseHeader_eq]

theorem buildRequest_Authorization {env : Env} {c : Client} {request : Request}
    {req : HttpRequest} (h : buildRequest env c request = .ok req) :
    req.Authorization = none := by
  obtain ⟨url, rdr, -, -, -, -, rfl⟩ := buildRequest_ok h
  simp [HttpRequest.Authorization, Header.lookup]

/-- The header step keeps method, URL and body and sets `Authorization` to the explicit
token, else to the client's token value, else leaves it alone. -/
theorem setAuthorization_spec (c : Client) (request : Request) (req : HttpRequest)
    (h : req.Authorization = none) :
    (setAuthorization c request req).Method = req.Method ∧
    (setAuthorization c request req).Url = req.Url ∧
    (setAuthorization c request req).Body = req.Body ∧
    (setAuthorization c request req).Authorization =
      (match request.Token with
       | some tok => some tok
       | none => c.token.map Token.Value) := by
  unfold setAuthorization
  cases ht : request.Token with
  | some tok => simp [HttpRequest.Authorization, Header.lookup_Set_self]
  | none =>
    cases hc : c.token with
    | some t => simp [HttpRequest.Authorization, Header.lookup_Set_self]
    | none => simpa using h

theorem dispatch_client {ρ : Type} (env : Env) (c : Client) (tr : List HttpRequest)
    (request : Request) (req : HttpRequest) (result : Option (Target ρ)) :
    (dispatch env c tr request req result).client = c := by
  unfold dispatch
  dsimp only
  split
  · rfl
  · split
    · rfl
    · split <;> rfl

theorem dispatch_trace {ρ : Type} (env : Env) (c : Client) (tr : List HttpRequest)
    (request : Request) (req : HttpRequest) (result : Option (Target ρ)) :
    (dispatch env c tr request req result).trace = tr ++ [setAuthorization c request req] := by
  unfold dispatch
  dsimp only
  split
  · rfl
  · split
    · rfl
    · split <;> rfl

/-- A call that ended in a panic returned no error. -/
theorem dispatch_panic_err {ρ : Type} (env : Env) (c : Client) (tr : List HttpRequest)
    (request : Request) (req : HttpRequest) (result : Option (Target ρ))
    (h : (dispatch env c tr request req result).panic ≠ none) :
    (dispatch env c tr request req result).err = none := by
  unfold dispatch at h ⊢
  dsimp only at h ⊢
  split
  · rename_i e he
    simp [he] at h
  · rename_i body hbody
    simp only [hbody] at h
    split
    · rfl
    · rename_i t
      split
      · rename_i r hr
        simp [hr] at h
      · rfl

theorem QueryNoAuth_panic_err {ρ : Type} (env : Env) (c : Client) (tr : List HttpRequest)
    (request : Request) (result : Option (Target ρ))
    (h : (QueryNoAuth env c tr request result).panic ≠ none) :
    (QueryNoAuth env c tr request result).err = none := by
  unfold QueryNoAuth at h ⊢
  cases hb : buildRequest env c request with
  | error e => simp [hb] at h
  | ok req =>
    simp only [hb] at h ⊢
    exact dispatch_panic_err _ _ _ _ _ _ h

/-- When `Auth` returns an error it has returned: it did not panic. -/
theorem Auth_err_panic (env : Env) (c : Client) (tr : List HttpRequest) (creds : Credentials)
    (h : (Auth env c tr creds).err ≠ none) : (Auth env c tr creds).panic = none := by
  by_contra hp
  exact h (QueryNoAuth_panic_err env c tr (authRequest creds)
    (some ⟨Token.empty, env.tokenCodec⟩) hp)

/-- On a request with `NoAuth` set, `Query` is `QueryNoAuth`: the nested call made by `Auth`. -/
theorem Query_noAuth {ρ : Type} (env : Env) (now : Time) (c : Client) (tr : List HttpRequest)
    (request : Request) (result : Option (Target ρ)) (h : request.NoAuth = true) :
    Query env now c tr request result = QueryNoAuth env c tr request result := by
  unfold Query QueryNoAuth
  cases buildRequest env c request with
  | error e => rfl
  | ok req => simp [h]

/-- The request `Auth` constructs. -/
theorem buildRequest_auth (env : Env) (c : Client) (creds : Credentials)
    (h : env.urlParses (c.credentials.Url ++ "/api/2.0/authentication.json") = true) :
    buildRequest env c (authRequest creds) = .ok
      { Method := "POST", Url := c.credentials.Url ++ "/api/2.0/authentication.json",
        Body := some (.credentialsJson creds),
        Header := [("Accept", "application/json"), ("Content-Type", "application/json"),
                ("Pragma", "no-cache")] } := by
  have hm : validMethod "POST" = true := by decide
  simp [buildRequest, buildUrl, buildBody, authRequest, marshal, NewRequest, Request.GetMethod,
    hm, h, baseHeader_eq]

/-- What `Auth` hands to the transport: nothing when its request cannot be
constructed, else exactly the authentication request. -/
theorem Auth_trace (env : Env) (c : Client) (tr : List HttpRequest) (creds : Credentials) :
    ((Auth env c tr creds).trace = tr ∧ (Auth env c tr creds).err ≠ none) ∨
    ∃ areq, (Auth env c tr creds).trace = tr ++ [areq] ∧ areq.Method = "POST" ∧
      areq.Url = c.credentials.Url ++ "/api/2.0/authentication.json" ∧
      areq.Body = some (.credentialsJson creds) := by
  unfold Auth QueryNoAuth
  cases hb : buildRequest env c (authRequest creds) with
  | error e => left; simp
  | ok req =>
    right
    obtain ⟨url, rdr, hu, hbody, -, -, rfl⟩ := buildRequest_ok hb
    simp only [dispatch_trace]
    refine ⟨_, rfl, ?_⟩
    have hu2 : url = c.credentials.Url ++ "/api/2.0/authentication.json" := by
      simpa [buildUrl, authRequest] using hu.symm
    have hb2 : rdr = some (.credentialsJson creds) := by
      simpa [buildBody, authRequest, marshal] using hbody.symm
    subst hu2 hb2
    refine ⟨?_, ?_, ?_⟩ <;>
      simp [setAuthorization, authRequest, Request.GetMethod] <;> cases c.token <;> simp

/-- With a valid authentication URL, `Auth` hands exactly the authentication request
to the transport. -/
theorem Auth_trace_ok (env : Env) (c : Client) (tr : List HttpRequest) (creds : Credentials)
    (h : env.urlParses (c.credentials.Url ++ "/api/2.0/authentication.json") = true) :
    ∃ areq, (Auth env c tr creds).trace = tr ++ [areq] ∧ areq.Method = "POST" ∧
      areq.Url = c.credentials.Url ++ "/api/2.0/authentication.json" ∧
      areq.Body = some (.credentialsJson creds) := by
  unfold Auth QueryNoAuth
  rw [buildRequest_auth env c creds h]
  simp only [dispatch_trace]
  refine ⟨_, rfl, ?_, ?_, ?_⟩ <;>
    simp [setAuthorization, authRequest] <;> cases c.token <;> simp

theorem not_Before_of_After (t u : Time) (h : t.After u = true) : t.Before u = false := by
  simp only [Time.After, Time.Before, Bool.or_eq_true, Bool.and_eq_true, decide_eq_true_eq] at h
  simp only [Time.Before, Bool.or_eq_false_iff, Bool.and_eq_false_iff, decide_eq_false_iff_not]
  generalize t.internalSec = a at h ⊢
  generalize u.internalSec = b at h ⊢
  omega

/-! ## Theorems: the token step and the Authorization header (C1-C6) -/

/-- C1 (counterexample): a client holding a cached token sends that token in the
`Authorization` header of a request with `NoAuth=true`. -/
theorem C1_noAuth_counterexample :
    exPing.NoAuth = true ∧
    (Query (constEnv "" (Token.empty, none)) exNow ⟨exCreds, some ⟨"T1", exLate⟩⟩ [] exPing
      (none : Option (Target Unit))).trace.map HttpRequest.Authorization = [some "T1"] := by
  decide

/-- C1 (amended): on a request with `NoAuth=true`, `Query` leaves the cached token
alone and hands nothing but the request itself to the transport (no Auth exchange);
that request carries the explicit `Token` if one is set, otherwise the cached
token's value if a token is cached, and no `Authorization` header exactly when
neither is present. -/
theorem C1_noAuth_header {ρ : Type} (env : Env) (now : Time) (c : Client)
    (tr : List HttpRequest) (request : Request) (result : Option (Target ρ))
    (h : request.NoAuth = true) :
    (Query env now c tr request result).client = c ∧
    ((∃ e, buildRequest env c request = .error e ∧
        (Query env now c tr request result).trace = tr ∧
        (Query env now c tr request result).err = some e) ∨
     (∃ req0 req, buildRequest env c request = .ok req0 ∧
        (Query env now c tr request result).trace = tr ++ [req] ∧
        req.Method = req0.Method ∧ req.Url = req0.Url ∧ req.Body = req0.Body ∧
        req.Authorization =
          (match request.Token with
           | some tok => some tok
           | none => c.token.map Token.Value) ∧
        (req.Authorization = none ↔ request.Token = none ∧ c.token = none))) := by
  rw [Query_noAuth env now c tr request result h]
  unfold QueryNoAuth
  cases hb : buildRequest env c request with
  | error e => exact ⟨rfl, Or.inl ⟨e, rfl, rfl, rfl⟩⟩
  | ok req0 =>
    obtain ⟨h1, h2, h3, h4⟩ :=
      setAuthorization_spec c request req0 (buildRequest_Authorization hb)
    refine ⟨dispatch_client _ _ _ _ _ _, Or.inr ⟨req0, _, rfl, dispatch_trace _ _ _ _ _ _,
      h1, h2, h3, h4, ?_⟩⟩
    rw [h4]
    cases request.Token <;> cases c.token <;> simp

/-- C1 (witness): the amended claim at a `NoAuth` request of a client without a token. -/
theorem C1_noAuth_header_witness :
    exPing.NoAuth = true ∧
    (Query (constEnv "" (Token.empty, none)) exNow ⟨exCreds, none⟩ [] exPing
      (none : Option (Target Unit))).client = ⟨exCreds, none⟩ :=
  ⟨rfl, (C1_noAuth_header (constEnv "" (Token.empty, none)) exNow ⟨exCreds, none⟩ [] exPing
      (none : Option (Target Unit)) rfl).1⟩

/-- C2 (counterexample): with an expired cached token, a request whose method
`http.NewRequest` rejects makes `Query` return before the token step: nothing is
handed to the transport, so no Auth exchange takes place. -/
theorem C2_expired_counterexample :
    exBad.NoAuth = false ∧ Time.Before exEarly exNow = true ∧
    (Query (constEnv "" (Token.empty, none)) exNow ⟨exCreds, some ⟨"T0", exEarly⟩⟩ [] exBad
      (none : Option (Target Unit))).trace = [] ∧
    (Query (constEnv "" (Token.empty, none)) exNow ⟨exCreds, some ⟨"T0", exEarly⟩⟩ [] exBad
      (none : Option (Target Unit))).err.isSome = true := by
  decide

/-- C2 (amended): for a client whose cached token expired strictly before the current
time and a request with `NoAuth=false`, the authentication URL being valid: when the
request cannot be constructed (parameters or body do not encode, method or URL is
invalid) `Query` returns before the token step and no Auth exchange takes place;
otherwise `Query` hands exactly one Auth exchange (`POST /api/2.0/authentication.json`
with the credentials) to the transport, and does so before the original request,
which follows if and only if `Auth` returned, and returned no error (when the
decoding of the Auth response panics, the Auth exchange is all the transport sees). -/
theorem C2_expired_one_auth {ρ : Type} (env : Env) (now : Time) (c : Client)
    (tr : List HttpRequest) (request : Request) (result : Option (Target ρ)) (t : Token)
    (ht : c.token = some t) (hexp : t.Expires.Before now = true)
    (hn : request.NoAuth = false)
    (hu : env.urlParses (c.credentials.Url ++ "/api/2.0/authentication.json") = true) :
    (∃ e, buildRequest env c request = .error e ∧
       (Query env now c tr request result).trace = tr ∧
       (Query env now c tr request result).err = some e) ∨
    (∃ req0 areq, buildRequest env c request = .ok req0 ∧ areq.Method = "POST" ∧
      areq.Url = c.credentials.Url ++ "/api/2.0/authentication.json" ∧
      areq.Body = some (.credentialsJson c.credentials) ∧
      ((((Auth env c tr c.credentials).err ≠ none ∨
            (Auth env c tr c.credentials).panic ≠ none) ∧
          (Query env now c tr request result).trace = tr ++ [areq]) ∨
       ((Auth env c tr c.credentials).err = none ∧
          (Auth env c tr c.credentials).panic = none ∧
          ∃ req, (Query env now c tr request result).trace = tr ++ [areq, req] ∧
            req.Method = req0.Method ∧ req.Url = req0.Url ∧ req.Body = req0.Body))) := by
  cases hb : buildRequest env c request with
  | error e =>
    left
    exact ⟨e, rfl, by simp [Query, hb], by simp [Query, hb]⟩
  | ok req0 =>
    right
    obtain ⟨areq, hA, h1, h2, h3⟩ := Auth_trace_ok env c tr c.credentials hu
    refine ⟨req0, areq, rfl, h1, h2, h3, ?_⟩
    have hneed : needsToken c now = true := by simp [needsToken, ht, hexp]
    unfold Query
    simp only [hb, hn, hneed, and_self, if_true]
    cases hP : (Auth env c tr c.credentials).panic with
    | some m =>
      left
      exact ⟨Or.inr (by simp), by simpa using hA⟩
    | none =>
      cases hA2 : (Auth env c tr c.credentials).err with
      | some e =>
        left
        exact ⟨Or.inl (by simp), by simpa using hA⟩
      | none =>
        right
        refine ⟨rfl, rfl,
          setAuthorization { c with token := some (Auth env c tr c.credentials).token }
            request req0, ?_, ?_⟩
        · simp only [dispatch_trace, hA, List.append_assoc]
          rfl
        · obtain ⟨g1, g2, g3, -⟩ :=
            setAuthorization_spec { c with token := some (Auth env c tr c.credentials).token }
              request req0 (buildRequest_Authorization hb)
          exact ⟨g1, g2, g3⟩

/-- C2 (witness): an expired token, a constructible request, one Auth exchange first. -/
theorem C2_expired_one_auth_witness :
    Time.Before exEarly exNow = true ∧
    ∃ areq req, areq.Method = "POST" ∧
      areq.Url = exCreds.Url ++ "/api/2.0/authentication.json" ∧
      areq.Body = some (.credentialsJson exCreds) ∧
      (Query (constEnv "" (⟨"T1", exLate⟩, none)) exNow ⟨exCreds, some ⟨"T0", exEarly⟩⟩ []
          usersRequest (none : Option (Target Unit))).trace = [areq, req] := by
  refine ⟨by decide, ?_⟩
  rcases C2_expired_one_auth (constEnv "" (⟨"T1", exLate⟩, none)) exNow
      ⟨exCreds, some ⟨"T0", exEarly⟩⟩ [] usersRequest (none : Option (Target Unit))
      ⟨"T0", exEarly⟩ rfl (by decide) rfl rfl with ⟨e, hb, -⟩ | ⟨req0, areq, -, h1, h2, h3, h4⟩
  · exact absurd hb (by simp [buildRequest, buildUrl, buildBody, NewRequest, usersRequest,
      constEnv, Request.GetMethod, (by decide : validMethod "GET" = true)])
  · rcases h4 with ⟨h5, -⟩ | ⟨-, -, req, h6, -⟩
    · rcases h5 with h5 | h5
      · exact absurd (by decide) h5
      · exact absurd (by decide) h5
    · exact ⟨areq, req, h1, h2, h3, by simpa using h6⟩

/-- C3 (counterexample): the cached token is valid until 2099, the request has
`NoAuth=false` and no explicit `Token`, but its method is one that `http.NewRequest`
rejects: `Query` returns that error and hands nothing to the transport, so the
cached token's value is not sent. -/
theorem C3_valid_token_counterexample :
    Time.After exLate exNow = true ∧ exBad.NoAuth = false ∧ exBad.Token = none ∧
    (Query (constEnv "" (Token.empty, none)) exNow ⟨exCreds, some ⟨"T1", exLate⟩⟩ [] exBad
      (none : Option (Target Unit))).trace = [] ∧
    (Query (constEnv "" (Token.empty, none)) exNow ⟨exCreds, some ⟨"T1", exLate⟩⟩ [] exBad
      (none : Option (Target Unit))).err.isSome = true := by
  decide

/-- C3 (amended): for a client whose cached token expires strictly after the current
time and a request with `NoAuth=false` and no explicit `Token`, `Query` leaves the
cached token as it was and performs no Auth exchange; when the request cannot be
constructed (parameters or body do not encode, method or URL is invalid) it returns
that error and hands nothing to the transport; otherwise the one request it hands
to the transport is the original one, with the cached token's value unchanged as its
`Authorization` header. -/
theorem C3_valid_token_sent {ρ : Type} (env : Env) (now : Time) (c : Client)
    (tr : List HttpRequest) (request : Request) (result : Option (Target ρ)) (t : Token)
    (ht : c.token = some t) (hv : t.Expires.After now = true)
    (hn : request.NoAuth = false) (hT : request.Token = none) :
    (Query env now c tr request result).client = c ∧
    ((∃ e, buildRequest env c request = .error e ∧
        (Query env now c tr request result).trace = tr ∧
        (Query env now c tr request result).err = some e) ∨
     (∃ req0 req, buildRequest env c request = .ok req0 ∧
        (Query env now c tr request result).trace = tr ++ [req] ∧
        req.Method = req0.Method ∧ req.Url = req0.Url ∧ req.Body = req0.Body ∧
        req.Authorization = some t.Value)) := by
  have hneed : needsToken c now = false := by
    simp [needsToken, ht, not_Before_of_After _ _ hv]
  unfold Query
  cases hb : buildRequest env c request with
  | error e => exact ⟨rfl, Or.inl ⟨e, rfl, rfl, rfl⟩⟩
  | ok req0 =>
    simp only [hn, hneed, Bool.false_eq_true, and_false, if_false]
    obtain ⟨h1, h2, h3, h4⟩ :=
      setAuthorization_spec c request req0 (buildRequest_Authorization hb)
    refine ⟨dispatch_client _ _ _ _ _ _, Or.inr ⟨req0, _, rfl, dispatch_trace _ _ _ _ _ _,
      h1, h2, h3, ?_⟩⟩
    rw [h4, hT, ht]
    rfl

/-- C3 (witness): a token valid until 2099 stays cached and is the `Authorization`
header of the one request handed to the transport. -/
theorem C3_valid_token_sent_witness :
    Time.After exLate exNow = true ∧
    (Query (constEnv "" (Token.empty, none)) exNow ⟨exCreds, some ⟨"T1", exLate⟩⟩ [] usersRequest
      (none : Option (Target Unit))).client = ⟨exCreds, some ⟨"T1", exLate⟩⟩ ∧
    ∃ req,
      (Query (constEnv "" (Token.empty, none)) exNow ⟨exCreds, some ⟨"T1", exLate⟩⟩ []
        usersRequest (none : Option (Target Unit))).trace = [req] ∧
      req.Url = "https://office.example/api/2.0/people/filter.json" ∧
      req.Authorization = some "T1" := by
  obtain ⟨h1, h2⟩ := C3_valid_token_sent (constEnv "" (Token.empty, none)) exNow
      ⟨exCreds, some ⟨"T1", exLate⟩⟩ [] usersRequest (none : Option (Target Unit))
      ⟨"T1", exLate⟩ rfl (by decide) rfl rfl
  refine ⟨by decide, h1, ?_⟩
  rcases h2 with ⟨e, hb, -⟩ | ⟨req0, req, hb, ht, -, hurl, -, hauth⟩
  · exact absurd hb (by simp [buildRequest, buildUrl, buildBody, NewRequest, usersRequest,
      constEnv, Request.GetMethod, (by decide : validMethod "GET" = true)])
  · refine ⟨req, by simpa using ht, ?_, hauth⟩
    obtain ⟨url, rdr, hu, -, -, -, rfl⟩ := buildRequest_ok hb
    rw [hurl]
    have : buildUrl ⟨exCreds, some ⟨"T1", exLate⟩⟩ usersRequest
        = .ok "https://office.example/api/2.0/people/filter.json" := rfl
    rw [this] at hu
    injection hu with hu
    exact hu.symm

/-- C4 (counterexample): no token is cached and the request has `NoAuth=false`.
When the server rejects the login with a body that decodes, `Auth` returns no error
(the status of the response is not looked at): `Query` returns no error and sends the
original request, with the empty token as `Authorization`.  When the `expires`
member of the response is the number 5, the decoding panics in `Time.UnmarshalJSON`:
the original request is not sent, but `Query` returns no error either. -/
theorem C4_auth_failure_counterexample :
    usersRequest.NoAuth = false ∧
    ((Query exRejectEnv exNow ⟨exCreds, none⟩ [] usersRequest
        (none : Option (Target Unit))).err = none ∧
      (Query exRejectEnv exNow ⟨exCreds, none⟩ [] usersRequest
        (none : Option (Target Unit))).panic = none ∧
      (Query exRejectEnv exNow ⟨exCreds, none⟩ [] usersRequest
        (none : Option (Target Unit))).trace.map (fun r => (r.Url, r.Authorization))
        = [("https://office.example/api/2.0/authentication.json", none),
           ("https://office.example/api/2.0/people/filter.json", some "")]) ∧
    ((Query exShortExpiresEnv exNow ⟨exCreds, none⟩ [] usersRequest
        (none : Option (Target Unit))).err = none ∧
      (Query exShortExpiresEnv exNow ⟨exCreds, none⟩ [] usersRequest
        (none : Option (Target Unit))).panic = some "slice bounds out of range" ∧
      (Query exShortExpiresEnv exNow ⟨exCreds, none⟩ [] usersRequest
        (none : Option (Target Unit))).trace.map (fun r => r.Url)
        = ["https://office.example/api/2.0/authentication.json"]) := by
  decide

/-- C4 (amended): for a request with `NoAuth=false` issued while no token is cached or
the cached token is expired, if `Auth` returns an error (its request cannot be
constructed or sent, or the response does not decode) then `Query` returns an error
and the original request is never handed to the transport: either the request could
not be constructed, `Query` returns that error and the transport has seen nothing; or
`Query` returns the error of `Auth` behind `failed to authenticate: ` and the
transport has seen what `Auth` handed to it, nothing or the authentication request. -/
theorem C4_auth_failure_stops {ρ : Type} (env : Env) (now : Time) (c : Client)
    (tr : List HttpRequest) (request : Request) (result : Option (Target ρ)) (e : String)
    (hn : request.NoAuth = false)
    (hneed : c.token = none ∨ ∃ t, c.token = some t ∧ t.Expires.Before now = true)
    (hfail : (Auth env c tr c.credentials).err = some e) :
    (Query env now c tr request result).err ≠ none ∧
    (Query env now c tr request result).panic = none ∧
    ((∃ e1, buildRequest env c request = .error e1 ∧
        (Query env now c tr request result).err = some e1 ∧
        (Query env now c tr request result).trace = tr) ∨
     (∃ req0, buildRequest env c request = .ok req0 ∧
        (Query env now c tr request result).err = some ("failed to authenticate: " ++ e) ∧
        (Query env now c tr request result).trace = (Auth env c tr c.credentials).trace ∧
        ((Auth env c tr c.credentials).trace = tr ∨
         ∃ areq, (Auth env c tr c.credentials).trace = tr ++ [areq] ∧ areq.Method = "POST" ∧
           areq.Url = c.credentials.Url ++ "/api/2.0/authentication.json" ∧
           areq.Body = some (.credentialsJson c.credentials)))) := by
  have hneed2 : needsToken c now = true := by
    rcases hneed with h | ⟨t, h, h2⟩ <;> simp [needsToken, h, *]
  have hP : (Auth env c tr c.credentials).panic = none :=
    Auth_err_panic env c tr c.credentials (by simp [hfail])
  unfold Query
  cases hb : buildRequest env c request with
  | error e1 => exact ⟨by simp, rfl, Or.inl ⟨e1, rfl, rfl, rfl⟩⟩
  | ok req0 =>
    simp only [hn, hneed2, and_self, if_true, hP, hfail]
    refine ⟨by simp, trivial, Or.inr ⟨req0, rfl, trivial, trivial, ?_⟩⟩
    rcases Auth_trace env c tr c.credentials with ⟨h1, -⟩ | ⟨areq, h1, h2, h3, h4⟩
    · exact Or.inl h1
    · exact Or.inr ⟨areq, h1, h2, h3, h4⟩

/-- C4 (witness): no token cached and a transport that is down. -/
theorem C4_auth_failure_stops_witness :
    (Auth downEnv ⟨exCreds, none⟩ [] exCreds).err
      = some "failed to send request: connection refused" ∧
    (Query downEnv exNow ⟨exCreds, none⟩ [] usersRequest (none : Option (Target Unit))).err ≠ none ∧
    (Query downEnv exNow ⟨exCreds, none⟩ [] usersRequest (none : Option (Target Unit))).panic
      = none :=
  ⟨by decide, (C4_auth_failure_stops downEnv exNow ⟨exCreds, none⟩ [] usersRequest
      (none : Option (Target Unit)) "failed to send request: connection refused" rfl
      (Or.inl rfl) (by decide)).1,
    (C4_auth_failure_stops downEnv exNow ⟨exCreds, none⟩ [] usersRequest
      (none : Option (Target Unit)) "failed to send request: connection refused" rfl
      (Or.inl rfl) (by decide)).2.1⟩

/-- C5 (the code at the failing inputs): `c.token, err = c.Auth(c.credentials)` stores
what `Auth` returns before the error is looked at, and `Auth` returns its token
whatever the error.  With no token cached and the transport down, the failed call leaves an empty
token behind; with a response whose token decodes but whose envelope does not, the
failed call leaves a token valid until 2099 behind. -/
theorem C5_failed_auth_overwrites_token :
    ((Query downEnv exNow ⟨exCreds, none⟩ [] usersRequest
        (none : Option (Target Unit))).err
        = some "failed to authenticate: failed to send request: connection refused" ∧
     (Query downEnv exNow ⟨exCreds, none⟩ [] usersRequest
        (none : Option (Target Unit))).client.token = some Token.empty) ∧
    ((Query (constEnv "" (⟨"T1", exLate⟩, some "json: cannot unmarshal")) exNow ⟨exCreds, none⟩ []
        usersRequest (none : Option (Target Unit))).err
        = some "failed to authenticate: json: cannot unmarshal" ∧
     (Query (constEnv "" (⟨"T1", exLate⟩, some "json: cannot unmarshal")) exNow ⟨exCreds, none⟩ []
        usersRequest (none : Option (Target Unit))).client.token = some ⟨"T1", exLate⟩) := by
  decide

/-- C6: for every request and client state, `Query` either stops before sending
(the request cannot be constructed, or the token step fails, by an error or a panic
of `Auth`, and only the Auth exchange has been seen by the transport), or it sends
the request, and then the `Authorization` header of that request is the explicit
`Token` of the request if one is set, whatever the client has cached; otherwise the
raw value of the token the client has cached at that point (the token it had, or the
one the Auth exchange of this call returned), if any; and absent if neither is
present. -/
theorem C6_authorization_precedence {ρ : Type} (env : Env) (now : Time) (c : Client)
    (tr : List HttpRequest) (request : Request) (result : Option (Target ρ)) :
    (∃ e, buildRequest env c request = .error e ∧
       (Query env now c tr request result).trace = tr) ∨
    (request.NoAuth = false ∧ needsToken c now = true ∧
       ((Auth env c tr c.credentials).err ≠ none ∨
        (Auth env c tr c.credentials).panic ≠ none) ∧
       (Query env now c tr request result).trace = (Auth env c tr c.credentials).trace) ∨
    (∃ req0 pre req, buildRequest env c request = .ok req0 ∧
       (Query env now c tr request result).trace = pre ++ [req] ∧
       ((pre = tr ∧ (Query env now c tr request result).client = c) ∨
        (pre = (Auth env c tr c.credentials).trace ∧
          (Query env now c tr request result).client.token
            = some (Auth env c tr c.credentials).token)) ∧
       req.Method = req0.Method ∧ req.Url = req0.Url ∧ req.Body = req0.Body ∧
       req.Authorization =
         (match request.Token with
          | some tok => some tok
          | none => (Query env now c tr request result).client.token.map Token.Value) ∧
       (req.Authorization = none ↔
          request.Token = none ∧ (Query env now c tr request result).client.token = none)) := by
  unfold Query
  cases hb : buildRequest env c request with
  | error e => exact Or.inl ⟨e, rfl, rfl⟩
  | ok req0 =>
    right
    by_cases hc : request.NoAuth = false ∧ needsToken c now = true
    · simp only [hc, and_self, if_true]
      cases hP : (Auth env c tr c.credentials).panic with
      | some m => exact Or.inl ⟨trivial, trivial, Or.inr (by simp), rfl⟩
      | none =>
        cases hA : (Auth env c tr c.credentials).err with
        | some e => exact Or.inl ⟨trivial, trivial, Or.inl (by simp), rfl⟩
        | none =>
          right
          obtain ⟨h1, h2, h3, h4⟩ :=
            setAuthorization_spec { c with token := some (Auth env c tr c.credentials).token }
              request req0 (buildRequest_Authorization hb)
          refine ⟨req0, _, _, rfl, dispatch_trace _ _ _ _ _ _,
            Or.inr ⟨rfl, by rw [dispatch_client]⟩, h1, h2, h3,
            by rw [h4, dispatch_client], ?_⟩
          rw [h4, dispatch_client]
          cases request.Token <;> simp
    · simp only [hc, if_false]
      right
      obtain ⟨h1, h2, h3, h4⟩ :=
        setAuthorization_spec c request req0 (buildRequest_Authorization hb)
      refine ⟨req0, _, _, rfl, dispatch_trace _ _ _ _ _ _,
        Or.inl ⟨rfl, dispatch_client _ _ _ _ _ _⟩, h1, h2, h3,
        by rw [h4, dispatch_client], ?_⟩
      rw [h4, dispatch_client]
      cases request.Token <;> cases c.token <;> simp

/-! ## Theorems: the calendar -/

theorem isLeap_eq_false_iff (y : Int) :
    isLeap y = false ↔ (y % 4 ≠ 0 ∨ (y % 100 = 0 ∧ y % 400 ≠ 0)) := by
  simp only [isLeap, Bool.and_eq_false_iff, Bool.or_eq_false_iff, decide_eq_false_iff_not,
    ne_eq, not_not]

theorem isLeap_eq_true_iff (y : Int) :
    isLeap y = true ↔ (y % 4 = 0 ∧ (y % 100 ≠ 0 ∨ y % 400 = 0)) := by
  simp only [isLeap, Bool.and_eq_true, Bool.or_eq_true, decide_eq_true_eq, ne_eq]

theorem yearDay_bounds (days : Int) :
    0 ≤ (yearDay days).2 ∧ (yearDay days).2 ≤ 365 ∧
    (isLeap (yearDay days).1 = false → (yearDay days).2 ≤ 364) := by
  rw [isLeap_eq_false_iff]
  simp only [yearDay]
  refine ⟨by omega, by omega, ?_⟩
  generalize hn400 : days / 146097 = n400
  generalize hd1 : days - 146097 * n400 = d1
  generalize hn : d1 / 36524 = n
  generalize hd2 : d1 - 36524 * (n - n / 4) = d2
  generalize hn4 : d2 / 1461 = n4
  generalize hd3 : d2 - 1461 * n4 = d3
  generalize hm : d3 / 365 = m
  have h1 : 0 ≤ d1 ∧ d1 < 146097 := by omega
  have h2 : 0 ≤ n ∧ n ≤ 4 := by omega
  have h3 : 0 ≤ d2 ∧ d2 < 36525 := by omega
  have h4 : 0 ≤ n4 ∧ n4 ≤ 24 := by omega
  have h5 : 0 ≤ d3 ∧ d3 < 1461 := by omega
  have h6 : 0 ≤ m ∧ m ≤ 4 := by omega
  intro h
  obtain ⟨h2a, h2b⟩ := h2
  obtain ⟨h6a, h6b⟩ := h6
  interval_cases n <;> interval_cases m <;> omega

theorem daysBefore_values :
    daysBefore 0 = 0 ∧ daysBefore 1 = 31 ∧ daysBefore 2 = 59 ∧ daysBefore 3 = 90 ∧
    daysBefore 4 = 120 ∧ daysBefore 5 = 151 ∧ daysBefore 6 = 181 ∧ daysBefore 7 = 212 ∧
    daysBefore 8 = 243 ∧ daysBefore 9 = 273 ∧ daysBefore 10 = 304 ∧ daysBefore 11 = 334 ∧
    daysBefore 12 = 365 := by
  decide

/-- Month and day of the month are in range and add up to the day of the year. -/
theorem monthDay_spec (y yd : Int) (h0 : 0 ≤ yd) (h1 : yd ≤ 365)
    (h2 : isLeap y = false → yd ≤ 364) :
    1 ≤ (monthDay y yd).1 ∧ (monthDay y yd).1 ≤ 12 ∧
    1 ≤ (monthDay y yd).2 ∧ (monthDay y yd).2 ≤ daysIn (monthDay y yd).1 y ∧
    (monthDay y yd).2 ≤ 31 ∧
    daysBefore ((monthDay y yd).1 - 1)
      + (if isLeap y = true ∧ 3 ≤ (monthDay y yd).1 then 1 else 0)
      + ((monthDay y yd).2 - 1) = yd := by
  obtain ⟨v0, v1, v2, v3, v4, v5, v6, v7, v8, v9, v10, v11, v12⟩ := daysBefore_values
  cases hl : isLeap y with
  | false =>
    have h3 := h2 hl
    simp only [monthDay, daysIn, hl, Bool.false_eq_true, false_and, and_false, if_false]
    generalize hm : yd / 31 = m
    have hm0 : 0 ≤ m := by omega
    have hm1 : m ≤ 11 := by omega
    interval_cases m <;> simp only [Int.reduceAdd, Int.reduceSub, v0, v1, v2, v3, v4, v5,
      v6, v7, v8, v9, v10, v11, v12] <;> split <;> simp only [Int.reduceAdd, Int.reduceSub, v0,
      v1, v2, v3, v4, v5, v6, v7, v8, v9, v10, v11, v12] <;> omega
  | true =>
    simp only [monthDay, daysIn, hl, true_and, and_true]
    by_cases hd : yd = 31 + 29 - 1
    · simp [hd, v1]
    · simp only [hd, if_false]
      generalize hday : (if yd > 31 + 29 - 1 then yd - 1 else yd) = day
      have hday0 : 0 ≤ day ∧ day ≤ 364 ∧ (day = yd - 1 ∧ yd > 59 ∨ day = yd ∧ yd < 59) := by
        split at hday <;> omega
      generalize hm : day / 31 = m
      have hm0 : 0 ≤ m := by omega
      have hm1 : m ≤ 11 := by omega
      interval_cases m <;> simp only [Int.reduceAdd, Int.reduceSub, v0, v1, v2, v3, v4, v5,
        v6, v7, v8, v9, v10, v11, v12] <;> split <;> simp only [Int.reduceAdd, Int.reduceSub, v0,
        v1, v2, v3, v4, v5, v6, v7, v8, v9, v10, v11, v12] <;> omega

/-- The calendar and clock fields of every time are in range. -/
theorem Time.fields_bounds (t : Time) :
    (1 ≤ t.Month ∧ t.Month ≤ 12) ∧ (1 ≤ t.Day ∧ t.Day ≤ 31) ∧ (0 ≤ t.Hour ∧ t.Hour ≤ 23) ∧
    (0 ≤ t.Minute ∧ t.Minute ≤ 59) ∧ (0 ≤ t.Second ∧ t.Second ≤ 59) := by
  obtain ⟨b0, b1, b2⟩ := yearDay_bounds (t.abs / 86400)
  obtain ⟨m0, m1, d0, -, d1, -⟩ := monthDay_spec _ _ b0 b1 b2
  refine ⟨⟨m0, m1⟩, ⟨d0, d1⟩, ?_, ?_, ?_⟩ <;>
    simp only [Time.Hour, Time.Minute, Time.Second] <;> omega

/-! ## Theorems: decimal output -/

theorem digitChar_zero : Nat.digitChar 0 = '0' := rfl

theorem decimal_small {f u : Nat} (acc : List Char) (hf : 0 < f) (h : u < 10) :
    decimal f u acc = Nat.digitChar u :: acc := by
  cases f with
  | zero => omega
  | succ f => simp [decimal, h]

theorem decimal_big {f u : Nat} (acc : List Char) (hf : 0 < f) (h : 10 ≤ u) :
    decimal f u acc = decimal (f - 1) (u / 10) (Nat.digitChar (u % 10) :: acc) := by
  cases f with
  | zero => omega
  | succ f =>
    have : ¬ u < 10 := by omega
    simp [decimal, this]

theorem appendInt_two (x : Int) (h0 : 0 ≤ x) (h1 : x ≤ 99) : appendInt x 2 = pad2 x := by
  obtain ⟨n, rfl⟩ := Int.eq_ofNat_of_zero_le h0
  have hn : n ≤ 99 := by omega
  have hneg : ¬ ((n : Int) < 0) := by omega
  simp only [appendInt, pad2, Int.natAbs_ofNat, Int.toNat_ofNat, hneg, if_false, List.nil_append]
  by_cases h : n < 10
  · rw [decimal_small _ (by omega) h]
    have e : n / 10 = 0 := by omega
    have e2 : n % 10 = n := by omega
    simp [e, e2, digitChar_zero]
  · rw [decimal_big _ (by omega) (by omega), decimal_small _ (by omega) (by omega)]
    simp

theorem appendInt_four (x : Int) (h0 : 0 ≤ x) (h1 : x ≤ 9999) : appendInt x 4 = pad4 x := by
  obtain ⟨n, rfl⟩ := Int.eq_ofNat_of_zero_le h0
  have hn : n ≤ 9999 := by omega
  have hneg : ¬ ((n : Int) < 0) := by omega
  simp only [appendInt, pad4, Int.natAbs_ofNat, Int.toNat_ofNat, hneg, if_false, List.nil_append]
  by_cases h : n < 10
  · rw [decimal_small _ (by omega) h]
    have e : n / 1000 = 0 := by omega
    have e1 : n / 100 % 10 = 0 := by omega
    have e2 : n / 10 % 10 = 0 := by omega
    have e3 : n % 10 = n := by omega
    simp [e, e1, e2, e3, List.replicate, digitChar_zero]
  · by_cases h' : n < 100
    · rw [decimal_big _ (by omega) (by omega), decimal_small _ (by omega) (by omega)]
      have e : n / 1000 = 0 := by omega
      have e1 : n / 100 % 10 = 0 := by omega
      have e2 : n / 10 % 10 = n / 10 := by omega
      simp [e, e1, e2, List.replicate, digitChar_zero]
    · by_cases h'' : n < 1000
      · rw [decimal_big _ (by omega) (by omega), decimal_big _ (by omega) (by omega),
          decimal_small _ (by omega) (by omega)]
        have e : n / 1000 = 0 := by omega
        have e1 : n / 100 % 10 = n / 10 / 10 := by omega
        simp [e, e1, List.replicate, digitChar_zero]
      · rw [decimal_big _ (by omega) (by omega), decimal_big _ (by omega) (by omega),
          decimal_big _ (by omega) (by omega), decimal_small _ (by omega) (by omega)]
        have e : n / 1000 = n / 10 / 10 / 10 := by omega
        have e1 : n / 100 % 10 = n / 10 / 10 % 10 := by omega
        simp [e, e1]

/-- C8: for every time whose year is in 0..9999, `MarshalJSON` returns no error and
exactly 21 bytes: a double quote, the calendar fields in the fixed layout
`YYYY-MM-DDTHH:MM:SS` (zero padded, seconds precision, neither fraction nor offset),
a double quote; that is `Time.String` wrapped in double quotes. -/
theorem C8_MarshalJSON_layout (t : Time) (h0 : 0 ≤ t.Year) (h1 : t.Year ≤ 9999) :
    ∃ s, Time.MarshalJSON t = .ok s ∧ s.length = 21 ∧
      s = ['"'] ++ pad4 t.Year ++ ['-'] ++ pad2 t.Month ++ ['-'] ++ pad2 t.Day ++ ['T']
            ++ pad2 t.Hour ++ [':'] ++ pad2 t.Minute ++ [':'] ++ pad2 t.Second ++ ['"'] ∧
      s = ['"'] ++ Time.String t ++ ['"'] := by
  obtain ⟨⟨m0, m1⟩, ⟨d0, d1⟩, ⟨hh0, hh1⟩, ⟨mi0, mi1⟩, ⟨s0, s1⟩⟩ := Time.fields_bounds t
  refine ⟨_, rfl, ?_, ?_, rfl⟩
  · simp [Format, encodeLayout, formatChunk, appendInt_four _ h0 h1,
      appendInt_two _ (by omega : 0 ≤ t.Month) (by omega), appendInt_two _ (by omega : 0 ≤ t.Day) (by omega),
      appendInt_two _ hh0 (by omega), appendInt_two _ mi0 (by omega), appendInt_two _ s0 (by omega),
      pad2, pad4]
  · simp [Format, encodeLayout, formatChunk, appendInt_four _ h0 h1,
      appendInt_two _ (by omega : 0 ≤ t.Month) (by omega), appendInt_two _ (by omega : 0 ≤ t.Day) (by omega),
      appendInt_two _ hh0 (by omega), appendInt_two _ mi0 (by omega), appendInt_two _ s0 (by omega)]

/-- C8 (witness): 2024-04-16T00:00:00 UTC. -/
theorem C8_MarshalJSON_layout_witness :
    ∃ s, Time.MarshalJSON exNow = .ok s ∧ s.length = 21 ∧ s = "\"2024-04-16T00:00:00\"".toList := by
  obtain ⟨s, h1, h2, h3, -⟩ := C8_MarshalJSON_layout exNow (by decide) (by decide)
  exact ⟨s, h1, h2, by rw [h3]; decide⟩

/-! ## Theorems: what `Parse` accepts -/

theorem getnum_fixed_ok {s : List Char} {n : Int} {rest : List Char}
    (h : getnum s true = .ok (n, rest)) :
    ∃ a b, s = a :: b :: rest ∧ a.isDigit = true ∧ b.isDigit = true := by
  match s with
  | [] => simp [getnum] at h
  | [a] =>
    simp only [getnum] at h
    split at h <;> simp at h
  | a :: b :: r =>
    simp only [getnum] at h
    by_cases ha : a.isDigit = false
    · simp [ha] at h
    · by_cases hb : b.isDigit = false
      · simp [ha, hb] at h
      · simp only [ha, hb, if_false] at h
        injection h with h
        injection h with h1 h2
        exact ⟨a, b, by rw [h2], by simpa using ha, by simpa using hb⟩

theorem getnum_free_ok {s : List Char} {n : Int} {rest : List Char}
    (h : getnum s false = .ok (n, rest)) :
    (∃ a, s = a :: rest ∧ a.isDigit = true) ∨
    (∃ a b, s = a :: b :: rest ∧ a.isDigit = true ∧ b.isDigit = true) := by
  match s with
  | [] => simp [getnum] at h
  | [a] =>
    simp only [getnum] at h
    by_cases ha : a.isDigit = false
    · simp [ha] at h
    · simp only [ha, if_false] at h
      injection h with h
      injection h with h1 h2
      exact Or.inl ⟨a, by rw [h2], by simpa using ha⟩
  | a :: b :: r =>
    simp only [getnum] at h
    by_cases ha : a.isDigit = false
    · simp [ha] at h
    · by_cases hb : b.isDigit = false
      · simp only [ha, hb, if_false, if_true] at h
        injection h with h
        injection h with h1 h2
        exact Or.inl ⟨a, by rw [h2], by simpa using ha⟩
      · simp only [ha, hb, if_false] at h
        injection h with h
        injection h with h1 h2
        exact Or.inr ⟨a, b, by rw [h2], by simpa using ha, by simpa using hb⟩

theorem leadingInt_all {s : List Char} {x n : Nat} (h : leadingInt s x = (n, [])) :
    ∀ c ∈ s, c.isDigit = true := by
  induction s generalizing x with
  | nil => simp
  | cons a s ih =>
    simp only [leadingInt] at h
    by_cases ha : a.isDigit = true
    · simp only [ha, if_true] at h
      intro c hc
      rcases List.mem_cons.mp hc with rfl | hc
      · exact ha
      · exact ih h c hc
    · simp [ha] at h

theorem atoi_ok {s : List Char} {n : Int} (h : atoi s = .ok n) :
    (∀ c ∈ s, c.isDigit = true) ∨
    (∃ sg rest, s = sg :: rest ∧ (sg = '+' ∨ sg = '-') ∧ ∀ c ∈ rest, c.isDigit = true) := by
  simp only [atoi] at h
  by_cases hs : s.head? = some '-' ∨ s.head? = some '+'
  · simp only [hs, if_true] at h
    split at h
    · simp at h
    · rename_i hr
      simp only [ne_eq, not_not] at hr
      right
      match s, hs with
      | sg :: rest, hs =>
        refine ⟨sg, rest, rfl, ?_, ?_⟩
        · simp at hs
          tauto
        · exact leadingInt_all (x := 0) (n := (leadingInt rest 0).1) (Prod.ext rfl (by simpa using hr))
  · simp only [hs, if_false] at h
    split at h
    · simp at h
    · rename_i hr
      simp only [ne_eq, not_not] at hr
      left
      exact leadingInt_all (x := 0) (n := (leadingInt s 0).1) (Prod.ext rfl (by simpa using hr))

theorem parseChunk_lit {f f1 : Fields} {v rest : List Char} {c : Char}
    (h : parseChunk f v (.lit c) = .ok (f1, rest)) : v = c :: rest := by
  match v with
  | [] => simp [parseChunk] at h
  | a :: r =>
    simp only [parseChunk] at h
    by_cases hc : a = c
    · simp only [hc, if_true] at h
      injection h with h
      injection h with h1 h2
      rw [hc, h2]
    · simp [hc] at h

theorem parseChunk_year {f f1 : Fields} {v rest : List Char}
    (h : parseChunk f v .stdLongYear = .ok (f1, rest)) :
    ∃ a b c d, v = a :: b :: c :: d :: rest ∧ a.isDigit = true ∧ b.isDigit = true ∧
      c.isDigit = true ∧ d.isDigit = true := by
  simp only [parseChunk] at h
  split at h
  · simp at h
  · rename_i hc
    simp only [not_or, not_lt, ne_eq, not_not] at hc
    obtain ⟨hlen, hhead⟩ := hc
    match v, hlen, hhead with
    | a :: b :: c :: d :: r, _, hhead =>
      simp only [List.take, List.drop] at h
      split at h
      · simp at h
      · rename_i year hy
        injection h with h
        injection h with h1 h2
        have ha : a.isDigit = true := by simpa using hhead
        rcases atoi_ok hy with hall | ⟨sg, rest1, hs, hsg, -⟩
        · exact ⟨a, b, c, d, by rw [h2], ha, hall b (by simp), hall c (by simp), hall d (by simp)⟩
        · exfalso
          injection hs with hs1 hs2
          subst hs1
          rcases hsg with rfl | rfl <;> exact absurd ha (by decide)

theorem parseChunk_fixed {f f1 : Fields} {v rest : List Char} {ch : Chunk}
    (hch : ch = .stdZeroMonth ∨ ch = .stdZeroDay ∨ ch = .stdZeroMinute ∨ ch = .stdZeroSecond)
    (h : parseChunk f v ch = .ok (f1, rest)) :
    ∃ a b, v = a :: b :: rest ∧ a.isDigit = true ∧ b.isDigit = true := by
  rcases hch with rfl | rfl | rfl | rfl <;>
  · simp only [parseChunk] at h
    split at h
    · simp at h
    · rename_i n r hg
      have hr : r = rest := by
        first
          | (split at h
             · simp at h
             · injection h with h
               injection h with h1 h2)
          | (injection h with h
             injection h with h1 h2)
      subst hr
      exact getnum_fixed_ok hg

theorem parseChunk_hour {f f1 : Fields} {v rest : List Char}
    (h : parseChunk f v .stdHour = .ok (f1, rest)) :
    (∃ a, v = a :: rest ∧ a.isDigit = true) ∨
    (∃ a b, v = a :: b :: rest ∧ a.isDigit = true ∧ b.isDigit = true) := by
  simp only [parseChunk] at h
  split at h
  · simp at h
  · rename_i n r hg
    split at h
    · simp at h
    · injection h with h
      injection h with h1 h2
      subst h2
      exact getnum_free_ok hg

theorem parseChunk_frac {f f1 : Fields} {v rest : List Char}
    (h : parseChunk f v (.stdFracSecond0 7) = .ok (f1, rest)) :
    ∃ s a b c d e g k, v = s :: a :: b :: c :: d :: e :: g :: k :: rest ∧
      commaOrPeriod s = true ∧ (a.isDigit = true ∨ a = '+' ∨ a = '-') ∧ b.isDigit = true ∧
      c.isDigit = true ∧ d.isDigit = true ∧ e.isDigit = true ∧ g.isDigit = true ∧
      k.isDigit = true := by
  simp only [parseChunk] at h
  split at h
  · simp at h
  · rename_i hlen
    match v, hlen with
    | [], hl => simp at hl
    | [_], hl => simp at hl
    | [_, _], hl => simp at hl
    | [_, _, _], hl => simp at hl
    | [_, _, _, _], hl => simp at hl
    | [_, _, _, _, _], hl => simp at hl
    | [_, _, _, _, _, _], hl => simp at hl
    | [_, _, _, _, _, _, _], hl => simp at hl
    | s :: a :: b :: c :: d :: e :: g :: k :: r, _ =>
      split at h
      · simp at h
      · rename_i ns hn
        injection h with h
        injection h with h1 h2
        simp only [List.drop] at h2
        subst h2
        simp only [parseNanoseconds] at hn
        by_cases hs : commaOrPeriod s = false
        · simp [hs] at hn
        · have hs1 : commaOrPeriod s = true := by simpa using hs
          simp only [hs1, Bool.true_eq_false, if_false] at hn
          have ht : List.take (1 + 7 - 1) (a :: b :: c :: d :: e :: g :: k :: r)
              = [a, b, c, d, e, g, k] := rfl
          rw [ht] at hn
          cases hat : atoi [a, b, c, d, e, g, k] with
          | error er => simp [hat] at hn
          | ok ns1 =>
            refine ⟨s, a, b, c, d, e, g, k, rfl, hs1, ?_⟩
            rcases atoi_ok hat with hall | ⟨sg, rest1, hsr, hsg, hall⟩
            · exact ⟨Or.inl (hall a (by simp)), hall b (by simp), hall c (by simp),
                hall d (by simp), hall e (by simp), hall g (by simp), hall k (by simp)⟩
            · injection hsr with hs1 hs2
              subst hs1 hs2
              exact ⟨Or.inr hsg, hall b (by simp), hall c (by simp),
                hall d (by simp), hall e (by simp), hall g (by simp), hall k (by simp)⟩

theorem parseChunk_zone {f f1 : Fields} {v rest : List Char}
    (h : parseChunk f v .stdNumColonTZ = .ok (f1, rest)) :
    ∃ sg a b c d, v = sg :: a :: b :: ':' :: c :: d :: rest ∧ (sg = '+' ∨ sg = '-') ∧
      a.isDigit = true ∧ b.isDigit = true ∧ c.isDigit = true ∧ d.isDigit = true := by
  match v with
  | sg :: a :: b :: colon :: c :: d :: r =>
    simp only [parseChunk] at h
    by_cases hc : colon = ':'
    · subst hc
      simp only [ne_eq, not_true_eq_false, if_false] at h
      split at h
      · simp at h
      · rename_i hr r1 hg1
        split at h
        · simp at h
        · rename_i mm r2 hg2
          obtain ⟨a1, b1, e1, ha, hb⟩ := getnum_fixed_ok hg1
          obtain ⟨c1, d1, e2, hc, hd⟩ := getnum_fixed_ok hg2
          injection e1 with e1a e1b
          injection e1b with e1b e1c
          injection e2 with e2a e2b
          injection e2b with e2b e2c
          subst e1a e1b e2a e2b
          split at h
          · simp at h
          · split at h
            · simp at h
            · split at h
              · rename_i hsg
                injection h with h
                injection h with h1 h2
                exact ⟨sg, a, b, c, d, by rw [h2], Or.inl hsg, ha, hb, hc, hd⟩
              · split at h
                · rename_i hsg
                  injection h with h
                  injection h with h1 h2
                  exact ⟨sg, a, b, c, d, by rw [h2], Or.inr hsg, ha, hb, hc, hd⟩
                · simp at h
    · simp [hc] at h
  | [] => simp [parseChunk] at h
  | [_] => simp [parseChunk] at h
  | [_, _] => simp [parseChunk] at h
  | [_, _, _] => simp [parseChunk] at h
  | [_, _, _, _] => simp [parseChunk] at h
  | [_, _, _, _, _] => simp [parseChunk] at h

theorem parseChunks_cons {ch : Chunk} {layout : List Chunk} {f r : Fields} {v : List Char}
    (h : parseChunks (ch :: layout) f v = .ok r) :
    ∃ f1 rest, parseChunk f v ch = .ok (f1, rest) ∧ parseChunks layout f1 rest = .ok r := by
  simp only [parseChunks] at h
  split at h
  · simp at h
  · rename_i f1 rest hp
    exact ⟨f1, rest, hp, h⟩

theorem parseChunks_nil {f r : Fields} {v : List Char}
    (h : parseChunks [] f v = .ok r) : v = [] := by
  simp only [parseChunks] at h
  split at h
  · simp at h
  · rename_i hv
    simpa using hv

/-- Whatever `Parse` accepts under the decode layout has one of the two lenient shapes. -/
theorem parseChunks_decode_shape {f r : Fields} {v : List Char}
    (h : parseChunks decodeLayout f v = .ok r) : matchesLenient v = true := by
  simp only [decodeLayout, encodeLayout, List.cons_append, List.nil_append] at h
  obtain ⟨f1, r1, h1, g1⟩ := parseChunks_cons h
  clear h
  obtain ⟨f2, r2, h2, g2⟩ := parseChunks_cons g1
  clear g1
  obtain ⟨f3, r3, h3, g3⟩ := parseChunks_cons g2
  clear g2
  obtain ⟨f4, r4, h4, g4⟩ := parseChunks_cons g3
  clear g3
  obtain ⟨f5, r5, h5, g5⟩ := parseChunks_cons g4
  clear g4
  obtain ⟨f6, r6, h6, g6⟩ := parseChunks_cons g5
  clear g5
  obtain ⟨f7, r7, h7, g7⟩ := parseChunks_cons g6
  clear g6
  obtain ⟨f8, r8, h8, g8⟩ := parseChunks_cons g7
  clear g7
  obtain ⟨f9, r9, h9, g9⟩ := parseChunks_cons g8
  clear g8
  obtain ⟨f10, r10, h10, g10⟩ := parseChunks_cons g9
  clear g9
  obtain ⟨f11, r11, h11, g11⟩ := parseChunks_cons g10
  clear g10
  obtain ⟨f12, r12, h12, g12⟩ := parseChunks_cons g11
  clear g11
  obtain ⟨f13, r13, h13, g13⟩ := parseChunks_cons g12
  clear g12
  have e14 := parseChunks_nil g13
  obtain ⟨sg, o1, o2, o3, o4, e13, hsg, ho1, ho2, ho3, ho4⟩ := parseChunk_zone h13
  obtain ⟨sp, q1, q2, q3, q4, q5, q6, q7, e12, hsp, hq1, hq2, hq3, hq4, hq5, hq6, hq7⟩ :=
    parseChunk_frac h12
  obtain ⟨s1, s2, e11, hs1, hs2⟩ := parseChunk_fixed (Or.inr (Or.inr (Or.inr rfl))) h11
  have e10 := parseChunk_lit h10
  obtain ⟨i1, i2, e9, hi1, hi2⟩ := parseChunk_fixed (Or.inr (Or.inr (Or.inl rfl))) h9
  have e8 := parseChunk_lit h8
  have e6 := parseChunk_lit h6
  obtain ⟨d1, d2, e5, hd1, hd2⟩ := parseChunk_fixed (Or.inr (Or.inl rfl)) h5
  have e4 := parseChunk_lit h4
  obtain ⟨m1, m2, e3, hm1, hm2⟩ := parseChunk_fixed (Or.inl rfl) h3
  have e2 := parseChunk_lit h2
  obtain ⟨y1, y2, y3, y4, e1, hy1, hy2, hy3, hy4⟩ := parseChunk_year h1
  have hsp2 : (sp == '.' || sp == ',') = true := by simpa [commaOrPeriod] using hsp
  have hsg2 : (sg == '+' || sg == '-') = true := by
    rcases hsg with rfl | rfl <;> decide
  have hq : (q1.isDigit || q1 == '+' || q1 == '-') = true := by
    rcases hq1 with h | rfl | rfl
    · simp [h]
    · decide
    · decide
  rcases parseChunk_hour h7 with ⟨a, e7, ha⟩ | ⟨a, b, e7, ha, hb⟩
  · rw [e1, e2, e3, e4, e5, e6, e7, e8, e9, e10, e11, e12, e13, e14]
    simp [matchesLenient, datePattern, lenientTailPattern, matchesPattern, Cls.accepts, *]
  · rw [e1, e2, e3, e4, e5, e6, e7, e8, e9, e10, e11, e12, e13, e14]
    simp [matchesLenient, datePattern, lenientTailPattern, matchesPattern, Cls.accepts, *]

theorem Parse_decode_shape {v : List Char} {t : Time} (h : Parse decodeLayout v = .ok t) :
    matchesLenient v = true := by
  simp only [Parse] at h
  split at h
  · simp at h
  · rename_i f hf
    exact parseChunks_decode_shape hf

theorem matchesPattern_length {p : List Cls} {s : List Char} (h : matchesPattern p s = true) :
    s.length = p.length := by
  induction p generalizing s with
  | nil =>
    cases s with
    | nil => rfl
    | cons c cs => simp [matchesPattern] at h
  | cons q qs ih =>
    cases s with
    | nil => simp [matchesPattern] at h
    | cons c cs =>
      simp only [matchesPattern, Bool.and_eq_true] at h
      simp [ih h.2]

/-- Every accepted shape is 32 or 33 characters long and starts with four digits and a dash. -/
theorem matchesLenient_head {s : List Char} (h : matchesLenient s = true) :
    (s.length = 32 ∨ s.length = 33) ∧
    ∃ a b c d rest, s = a :: b :: c :: d :: '-' :: rest ∧ a.isDigit = true := by
  simp only [matchesLenient, Bool.or_eq_true] at h
  constructor
  · rcases h with h | h
    · exact Or.inl (matchesPattern_length h)
    · exact Or.inr (matchesPattern_length h)
  · match s with
    | a :: b :: c :: d :: e :: rest =>
      refine ⟨a, b, c, d, rest, ?_, ?_⟩
      · have he : e = '-' := by
          rcases h with h | h <;>
            simp [datePattern, matchesPattern, Cls.accepts] at h <;> tauto
        rw [he]
      · rcases h with h | h <;>
          simp [datePattern, matchesPattern, Cls.accepts] at h <;> tauto
    | [] => rcases h with h | h <;> simp [datePattern, matchesPattern] at h
    | [_] => rcases h with h | h <;> simp [datePattern, matchesPattern] at h
    | [_, _] => rcases h with h | h <;> simp [datePattern, matchesPattern] at h
    | [_, _, _] => rcases h with h | h <;> simp [datePattern, matchesPattern] at h
    | [_, _, _, _] => rcases h with h | h <;> simp [datePattern, matchesPattern] at h

theorem inner_quoted (s : List Char) (a b : Char) : inner (a :: s ++ [b]) = s := by
  simp [inner]

/-! ## Theorems: what `UnmarshalJSON` rejects (C9) -/

/-- C9 (counterexample): a quoted string with a one-digit hour does not match the
layout `YYYY-MM-DDTHH:MM:SS.fffffff±HH:MM`, yet `UnmarshalJSON` decodes it; so it
does an input that is not quoted at all and writes the fraction with a comma and a sign. -/
theorem C9_UnmarshalJSON_counterexample :
    (quotedLayout "\"2024-04-16T5:04:05.0000000+02:00\"".toList = false ∧
     Time.UnmarshalJSON "\"2024-04-16T5:04:05.0000000+02:00\"".toList
       = .done (.ok ⟨1713236645, 0, 7200⟩)) ∧
    (quotedLayout "x2024-04-16T05:04:05,+000000-02:00y".toList = false ∧
     Time.UnmarshalJSON "x2024-04-16T05:04:05,+000000-02:00y".toList
       = .done (.ok ⟨1713251045, 0, -7200⟩)) := by
  refine ⟨⟨by decide, by rfl⟩, ⟨by decide, by rfl⟩⟩

/-- C9 (amended): `UnmarshalJSON` drops the first and the last byte of an input of at
least two bytes without looking at them, and returns a parse error whenever what
remains is not of the form `YYYY-MM-DDTH:MM:SS` or `YYYY-MM-DDTHH:MM:SS` followed by
a period or comma, seven fraction characters (digits, the first possibly a sign), a
sign and `HH:MM`. -/
theorem C9_UnmarshalJSON_rejects (data : List Char) (hlen : 2 ≤ data.length)
    (hno : matchesLenient (inner data) = false) :
    ∃ e, Parse decodeLayout (inner data) = .error e ∧
      Time.UnmarshalJSON data = .done (.error e) := by
  have hl : ¬ data.length < 2 := by omega
  cases hp : Parse decodeLayout (inner data) with
  | ok t => rw [Parse_decode_shape hp] at hno; exact absurd hno (by simp)
  | error e =>
    refine ⟨e, rfl, ?_⟩
    simp only [Time.UnmarshalJSON, hl, if_false, hp]

/-- C9 (witness): the literal `null` is rejected with a parse error. -/
theorem C9_UnmarshalJSON_rejects_witness :
    ∃ e, Time.UnmarshalJSON "null".toList = .done (.error e) := by
  obtain ⟨e, -, h⟩ := C9_UnmarshalJSON_rejects "null".toList (by decide) (by decide)
  exact ⟨e, h⟩

theorem digitChar_isDigit (n : Nat) (h : n < 10) : (Nat.digitChar n).isDigit = true := by
  interval_cases n <;> rfl

theorem decimal_all_digits (f u : Nat) (acc : List Char)
    (hacc : ∀ c ∈ acc, c.isDigit = true) : ∀ c ∈ decimal f u acc, c.isDigit = true := by
  induction f generalizing u acc with
  | zero => simpa [decimal] using hacc
  | succ f ih =>
    simp only [decimal]
    split
    · rename_i hu
      intro c hc
      rcases List.mem_cons.mp hc with rfl | hc
      · exact digitChar_isDigit u hu
      · exact hacc c hc
    · apply ih
      intro c hc
      rcases List.mem_cons.mp hc with rfl | hc
      · exact digitChar_isDigit _ (Nat.mod_lt _ (by decide))
      · exact hacc c hc

theorem decimal_length (f u : Nat) (acc : List Char) (hf : 0 < f) :
    acc.length + 1 ≤ (decimal f u acc).length := by
  induction f generalizing u acc with
  | zero => omega
  | succ f ih =>
    simp only [decimal]
    split
    · simp
    · cases f with
      | zero => simp [decimal]
      | succ f =>
        have := ih (u / 10) (Nat.digitChar (u % 10) :: acc) (by omega)
        simp only [List.length_cons] at this
        omega

/-- The year field of a year beyond 9999 has at least five characters, all digits. -/
theorem appendInt_wide (x : Int) (h : 10000 ≤ x) :
    ∃ a b c d e rest, appendInt x 4 = a :: b :: c :: d :: e :: rest ∧ e.isDigit = true := by
  obtain ⟨n, rfl⟩ := Int.eq_ofNat_of_zero_le (by omega : 0 ≤ x)
  have hn : 10000 ≤ n := by omega
  have hneg : ¬ ((n : Int) < 0) := by omega
  have hlen : 5 ≤ (decimal (n + 1) n []).length := by
    rw [decimal_big _ (by omega) (by omega), decimal_big _ (by omega) (by omega),
      decimal_big _ (by omega) (by omega), decimal_big _ (by omega) (by omega)]
    have := decimal_length (n + 1 - 1 - 1 - 1 - 1) (n / 10 / 10 / 10 / 10)
      [Nat.digitChar (n / 10 / 10 / 10 % 10), Nat.digitChar (n / 10 / 10 % 10),
        Nat.digitChar (n / 10 % 10), Nat.digitChar (n % 10)] (by omega)
    simpa using this
  have hall := decimal_all_digits (n + 1) n [] (by simp)
  have hpad : 4 - (decimal (n + 1) n []).length = 0 := by omega
  simp only [appendInt, Int.natAbs_ofNat, hneg, if_false, List.nil_append, hpad,
    List.replicate_zero]
  match hd : decimal (n + 1) n [], hlen with
  | a :: b :: c :: d :: e :: rest, _ =>
    exact ⟨a, b, c, d, e, rest, rfl, hall e (by simp [hd])⟩

/-- What `MarshalJSON` writes between the quotes never has a shape `Parse` accepts
under the decode layout. -/
theorem Format_encode_not_lenient (t : Time) :
    matchesLenient (Format t encodeLayout) = false := by
  cases hm : matchesLenient (Format t encodeLayout) with
  | false => rfl
  | true =>
    exfalso
    obtain ⟨hlen, a, b, c, d, rest, hs, ha⟩ := matchesLenient_head hm
    obtain ⟨⟨m0, m1⟩, ⟨d0, d1⟩, ⟨hh0, hh1⟩, ⟨mi0, mi1⟩, ⟨s0, s1⟩⟩ := Time.fields_bounds t
    have hF : Format t encodeLayout = appendInt t.Year 4 ++
        ('-' :: (pad2 t.Month ++ '-' :: (pad2 t.Day ++ 'T' :: (pad2 t.Hour ++ ':' ::
          (pad2 t.Minute ++ ':' :: pad2 t.Second))))) := by
      simp [Format, encodeLayout, formatChunk,
        appendInt_two _ (by omega : 0 ≤ t.Month) (by omega),
        appendInt_two _ (by omega : 0 ≤ t.Day) (by omega),
        appendInt_two _ hh0 (by omega), appendInt_two _ mi0 (by omega),
        appendInt_two _ s0 (by omega)]
    by_cases hneg : t.Year < 0
    · have hy : appendInt t.Year 4 = '-' :: (List.replicate
          (4 - (decimal (t.Year.natAbs + 1) t.Year.natAbs []).length) '0'
            ++ decimal (t.Year.natAbs + 1) t.Year.natAbs []) := by
        simp [appendInt, hneg]
      rw [hF, hy] at hs
      injection hs with hs1 hs2
      rw [← hs1] at ha
      exact absurd ha (by decide)
    · by_cases hbig : t.Year ≤ 9999
      · rw [hF, appendInt_four _ (by omega) hbig] at hlen
        simp [pad2, pad4] at hlen
      · obtain ⟨y1, y2, y3, y4, y5, r, hy, h5⟩ := appendInt_wide t.Year (by omega)
        rw [hF, hy] at hs
        simp only [List.cons_append, List.cons.injEq] at hs
        obtain ⟨-, -, -, -, h5', -⟩ := hs
        rw [h5'] at h5
        exact absurd h5 (by decide)

/-! ## Theorems: encoding in the decode layout and decoding again -/

/-- The year and the day of the year add up to the day count they were computed from. -/
theorem daysSinceEpoch_yearDay (days : Int) :
    daysSinceEpoch (yearDay days).1 + (yearDay days).2 = days := by
  simp only [yearDay, daysSinceEpoch]
  generalize hn400 : days / 146097 = n400
  generalize hd1 : days - 146097 * n400 = d1
  generalize hn : d1 / 36524 = n
  generalize hd2 : d1 - 36524 * (n - n / 4) = d2
  generalize hn4 : d2 / 1461 = n4
  generalize hd3 : d2 - 1461 * n4 = d3
  generalize hm : d3 / 365 = m
  have h1 : 0 ≤ d1 ∧ d1 < 146097 := by omega
  have h2 : 0 ≤ n ∧ n ≤ 4 := by omega
  have h3 : 0 ≤ d2 ∧ d2 < 36525 := by omega
  have h4 : 0 ≤ n4 ∧ n4 ≤ 24 := by omega
  have h5 : 0 ≤ d3 ∧ d3 < 1461 := by omega
  have h6 : 0 ≤ m ∧ m ≤ 4 := by omega
  obtain ⟨h2a, h2b⟩ := h2
  obtain ⟨h6a, h6b⟩ := h6
  interval_cases n <;> interval_cases m <;> omega

theorem digitChar_toNat (n : Nat) (h : n < 10) : (Nat.digitChar n).toNat - 48 = n := by
  interval_cases n <;> rfl

theorem digitVal_digitChar (n : Nat) (h : n < 10) : digitVal (Nat.digitChar n) = n := by
  interval_cases n <;> rfl

theorem getnum_pad2 (x : Int) (h0 : 0 ≤ x) (h1 : x ≤ 99) (rest : List Char) (fx : Bool) :
    getnum (pad2 x ++ rest) fx = .ok (x, rest) := by
  obtain ⟨n, rfl⟩ := Int.eq_ofNat_of_zero_le h0
  have hn : n ≤ 99 := by omega
  have ha : n / 10 < 10 := by omega
  have hb : n % 10 < 10 := by omega
  simp only [pad2, Int.toNat_ofNat, List.cons_append, List.nil_append, getnum,
    digitChar_isDigit _ ha, digitChar_isDigit _ hb, Bool.true_eq_false, if_false,
    digitVal_digitChar _ ha, digitVal_digitChar _ hb]
  congr 2
  omega

theorem atoi_pad4 (x : Int) (h0 : 0 ≤ x) (h1 : x ≤ 9999) : atoi (pad4 x) = .ok x := by
  obtain ⟨n, rfl⟩ := Int.eq_ofNat_of_zero_le h0
  have hn : n ≤ 9999 := by omega
  have ha : n / 1000 < 10 := by omega
  have hb : n / 100 % 10 < 10 := by omega
  have hc : n / 10 % 10 < 10 := by omega
  have hd : n % 10 < 10 := by omega
  have hda := digitChar_isDigit _ ha
  have hm : (Nat.digitChar (n / 1000) = '-') = False := by
    apply eq_false
    intro h
    rw [h] at hda
    exact absurd hda (by decide)
  have hp : (Nat.digitChar (n / 1000) = '+') = False := by
    apply eq_false
    intro h
    rw [h] at hda
    exact absurd hda (by decide)
  simp only [atoi, pad4, Int.toNat_ofNat, List.head?_cons, Option.some.injEq, hm, hp,
    or_self, if_false, leadingInt, hda, digitChar_isDigit _ hb, digitChar_isDigit _ hc,
    digitChar_isDigit _ hd, if_true, digitChar_toNat _ ha, digitChar_toNat _ hb,
    digitChar_toNat _ hc, digitChar_toNat _ hd, ne_eq, not_true_eq_false, decide_False,
    Bool.false_eq_true]
  congr 1
  omega

theorem parseChunk_lit_cons (f : Fields) (c : Char) (rest : List Char) :
    parseChunk f (c :: rest) (.lit c) = .ok (f, rest) := by
  simp [parseChunk]

theorem parseChunk_year_pad (f : Fields) (y : Int) (h0 : 0 ≤ y) (h1 : y ≤ 9999)
    (rest : List Char) :
    parseChunk f (pad4 y ++ rest) .stdLongYear = .ok ({ f with year := y }, rest) := by
  have ha := atoi_pad4 y h0 h1
  have hd : (Nat.digitChar (y.toNat / 1000)).isDigit = true :=
    digitChar_isDigit _ (by omega)
  simp only [pad4] at ha
  simp [parseChunk, pad4, ha, hd]

theorem parseChunk_month_pad (f : Fields) (m : Int) (h0 : 1 ≤ m) (h1 : m ≤ 12)
    (rest : List Char) :
    parseChunk f (pad2 m ++ rest) .stdZeroMonth = .ok ({ f with month := m }, rest) := by
  have h2 : ¬ (m ≤ 0 ∨ 12 < m) := by omega
  simp [parseChunk, getnum_pad2 m (by omega) (by omega), h2]

theorem parseChunk_day_pad (f : Fields) (d : Int) (h0 : 1 ≤ d) (h1 : d ≤ 31)
    (rest : List Char) :
    parseChunk f (pad2 d ++ rest) .stdZeroDay = .ok ({ f with day := d }, rest) := by
  simp [parseChunk, getnum_pad2 d (by omega) (by omega)]

theorem parseChunk_hour_pad (f : Fields) (h : Int) (h0 : 0 ≤ h) (h1 : h ≤ 23)
    (rest : List Char) :
    parseChunk f (pad2 h ++ rest) .stdHour = .ok ({ f with hour := h }, rest) := by
  have h2 : ¬ (h < 0 ∨ 24 ≤ h) := by omega
  simp [parseChunk, getnum_pad2 h (by omega) (by omega), h2]

theorem parseChunk_minute_pad (f : Fields) (m : Int) (h0 : 0 ≤ m) (h1 : m ≤ 59)
    (rest : List Char) :
    parseChunk f (pad2 m ++ rest) .stdZeroMinute = .ok ({ f with min := m }, rest) := by
  have h2 : ¬ (m < 0 ∨ 60 ≤ m) := by omega
  simp [parseChunk, getnum_pad2 m (by omega) (by omega), h2]

theorem parseChunk_second_pad (f : Fields) (s : Int) (h0 : 0 ≤ s) (h1 : s ≤ 59)
    (rest : List Char) :
    parseChunk f (pad2 s ++ rest) .stdZeroSecond = .ok ({ f with sec := s }, rest) := by
  have h2 : ¬ (s < 0 ∨ 60 ≤ s) := by omega
  simp [parseChunk, getnum_pad2 s (by omega) (by omega), h2]

theorem parseChunk_frac_zero (f : Fields) (rest : List Char) :
    parseChunk f ('.' :: '0' :: '0' :: '0' :: '0' :: '0' :: '0' :: '0' :: rest)
      (.stdFracSecond0 7) = .ok ({ f with nsec := 0 }, rest) := by
  have ha : atoi ['0', '0', '0', '0', '0', '0', '0'] = .ok 0 := by rfl
  have hc : commaOrPeriod '.' = true := by decide
  simp [parseChunk, parseNanoseconds, hc, ha]

theorem parseChunk_zone_pad (f : Fields) (sg : Char) (hr mm : Int)
    (h0 : 0 ≤ hr) (h1 : hr ≤ 24) (m0 : 0 ≤ mm) (m1 : mm ≤ 59) :
    parseChunk f (sg :: (pad2 hr ++ ':' :: pad2 mm)) .stdNumColonTZ =
      if sg = '+' then .ok ({ f with zoneOffset := (hr * 60 + mm) * 60 }, [])
      else if sg = '-' then .ok ({ f with zoneOffset := -((hr * 60 + mm) * 60) }, [])
      else .error errBad := by
  have g1 := getnum_pad2 hr h0 (by omega) [] true
  have g2 := getnum_pad2 mm m0 (by omega) [] true
  have c1 : ¬ hr > 24 := by omega
  have c2 : ¬ mm > 60 := by omega
  simp only [pad2, List.cons_append, List.nil_append] at g1 g2 ⊢
  simp [parseChunk, g1, g2, c1, c2]

theorem Time.clock_sum (t : Time) :
    t.Hour * 3600 + t.Minute * 60 + t.Second = t.abs % 86400 := by
  simp only [Time.Hour, Time.Minute, Time.Second]
  omega

/-- The fields of a time, put back through `Date`, give the time. -/
theorem Date_fields (t : Time) :
    Date t.Year t.Month t.Day t.Hour t.Minute t.Second t.nsec t.offset = t := by
  obtain ⟨b0, b1, b2⟩ := yearDay_bounds (t.abs / 86400)
  obtain ⟨-, -, -, -, -, hsum⟩ := monthDay_spec _ _ b0 b1 b2
  have hd := daysSinceEpoch_yearDay (t.abs / 86400)
  have hc := Time.clock_sum t
  have key : (daysSinceEpoch t.Year + daysBefore (t.Month - 1)
      + (if isLeap t.Year = true ∧ 3 ≤ t.Month then 1 else 0) + (t.Day - 1)) * 86400
      + (t.Hour * 3600 + t.Minute * 60 + t.Second) - unixToInternal - t.offset = t.sec := by
    have e : daysSinceEpoch t.Year + daysBefore (t.Month - 1)
        + (if isLeap t.Year = true ∧ 3 ≤ t.Month then 1 else 0) + (t.Day - 1)
        = t.abs / 86400 := by
      simp only [Time.Year, Time.Month, Time.Day] at hsum ⊢
      omega
    rw [e, hc]
    simp only [Time.abs]
    omega
  cases t with
  | mk sec nsec offset =>
    simp only [Date] at key ⊢
    simp only [key]
    simp

theorem Format_decode_split (t : Time) :
    Format t decodeLayout = Format t encodeLayout ++ decodeSuffix t := by
  simp [Format, decodeLayout, decodeSuffix]

/-- A time without sub-second part, with a four-digit year and a whole-minute offset
of less than a day, written in the decode layout, parses back to itself. -/
theorem Parse_Format_decode (t : Time) (hns : t.nsec = 0) (hy0 : 0 ≤ t.Year)
    (hy1 : t.Year ≤ 9999) (hoff : t.offset % 60 = 0) (hlo : -86400 < t.offset)
    (hhi : t.offset < 86400) :
    Parse decodeLayout (Format t decodeLayout) = .ok t := by
  obtain ⟨⟨m0, m1⟩, ⟨d0, d1⟩, ⟨hh0, hh1⟩, ⟨mi0, mi1⟩, ⟨s0, s1⟩⟩ := Time.fields_bounds t
  obtain ⟨b0, b1, b2⟩ := yearDay_bounds (t.abs / 86400)
  obtain ⟨-, -, dge, dIn, -, -⟩ := monthDay_spec _ _ b0 b1 b2
  have hz : t.offset.tdiv 60 = t.offset / 60 :=
    Int.tdiv_eq_ediv_of_dvd (Int.dvd_of_emod_eq_zero hoff)
  generalize hzone : t.offset / 60 = zone at hz
  have hr0 : (0 : Int) ≤ ↑zone.natAbs / 60 := by omega
  have hr1 : (↑zone.natAbs / 60 : Int) ≤ 24 := by omega
  have hm0 : (0 : Int) ≤ ↑zone.natAbs % 60 := by omega
  have hm1 : (↑zone.natAbs % 60 : Int) ≤ 59 := by omega
  have hfrac : List.take 7 (appendInt ((0 : Nat) : Int) 9) = ['0', '0', '0', '0', '0', '0', '0'] := by
    decide
  have hF : Format t decodeLayout = pad4 t.Year ++ ('-' :: (pad2 t.Month ++ '-' ::
      (pad2 t.Day ++ 'T' :: (pad2 t.Hour ++ ':' :: (pad2 t.Minute ++ ':' ::
      (pad2 t.Second ++ '.' :: '0' :: '0' :: '0' :: '0' :: '0' :: '0' :: '0' ::
      ((if zone < 0 then '-' else '+') ::
        (pad2 (↑zone.natAbs / 60) ++ ':' :: pad2 (↑zone.natAbs % 60))))))))) := by
    simp only [Format, decodeLayout, encodeLayout, List.cons_append, List.nil_append,
      List.map_cons, List.map_nil, List.flatten_cons, List.flatten_nil, formatChunk]
    rw [hns, hfrac, hz, appendInt_four _ hy0 hy1,
      appendInt_two _ (by omega : 0 ≤ t.Month) (by omega),
      appendInt_two _ (by omega : 0 ≤ t.Day) (by omega),
      appendInt_two _ hh0 (by omega), appendInt_two _ mi0 (by omega),
      appendInt_two _ s0 (by omega), appendInt_two _ hr0 (by omega),
      appendInt_two _ hm0 (by omega)]
    split <;> simp only [List.cons_append, List.nil_append, List.append_assoc, List.append_nil]
  rw [hF]
  simp only [Parse, decodeLayout, encodeLayout, List.cons_append, List.nil_append, parseChunks,
    parseChunk_year_pad _ _ hy0 hy1, parseChunk_lit_cons,
    parseChunk_month_pad _ _ m0 m1, parseChunk_day_pad _ _ d0 d1,
    parseChunk_hour_pad _ _ hh0 hh1, parseChunk_minute_pad _ _ mi0 mi1,
    parseChunk_second_pad _ _ s0 s1, parseChunk_frac_zero,
    parseChunk_zone_pad _ _ _ _ hr0 hr1 hm0 hm1]
  have hmneg : ¬ t.Month < 0 := by omega
  have hdneg : ¬ t.Day < 0 := by omega
  have hday : ¬ (t.Day < 1 ∨ t.Day > daysIn t.Month t.Year) := by
    simp only [Time.Year, Time.Month, Time.Day]
    omega
  have hdate := Date_fields t
  rw [hns] at hdate
  have hc1 : ('-' = '+') = False := by decide
  have hne : ¬ t.offset = -1 := by omega
  by_cases hneg : zone < 0
  · have hzo : -((↑zone.natAbs / 60 * 60 + ↑zone.natAbs % 60) * 60) = t.offset := by omega
    simp only [hneg, if_true, hc1, if_false, hmneg, hdneg, hday, hzo, hne, ne_eq,
      not_false_eq_true]
    simpa [hmneg, hdneg, hday, hne] using hdate
  · have hzo : ((↑zone.natAbs / 60 * 60 + ↑zone.natAbs % 60) * 60 : Int) = t.offset := by omega
    simp only [hneg, if_true, if_false, hmneg, hdneg, hday, hzo, hne, ne_eq,
      not_false_eq_true]
    simpa [hmneg, hdneg, hday, hne] using hdate

/-! ## Theorems: the round trip through the two layouts (C7) -/

/-- C7 (counterexample): 2024-04-16T00:00:00 UTC has no sub-second part, is encoded
as `"2024-04-16T00:00:00"`, and decoding these bytes fails. -/
theorem C7_roundtrip_counterexample :
    exNow.nsec = 0 ∧
    Time.MarshalJSON exNow = .ok "\"2024-04-16T00:00:00\"".toList ∧
    ∃ e, Time.UnmarshalJSON "\"2024-04-16T00:00:00\"".toList = .done (.error e) := by
  refine ⟨rfl, by rfl, errBad, by rfl⟩

/-- C7 (amended): for every point in time T, `MarshalJSON` succeeds and `UnmarshalJSON`
rejects the bytes it produced with a parse error, because the encoder writes the
layout `YYYY-MM-DDTHH:MM:SS` and the decoder requires the fraction and the offset of
`YYYY-MM-DDTHH:MM:SS.fffffff±HH:MM`.  The value survives once the gap between the
two layouts is filled: for T without sub-second part, with a year in 0..9999 and a
whole-minute offset of less than a day, the encoded text followed by the fraction
`.0000000` and the offset of T, in quotes, decodes to T. -/
theorem C7_roundtrip_two_layouts (t : Time) :
    (∃ s e, Time.MarshalJSON t = .ok s ∧ Time.UnmarshalJSON s = .done (.error e)) ∧
    (t.nsec = 0 → 0 ≤ t.Year → t.Year ≤ 9999 → t.offset % 60 = 0 →
      -86400 < t.offset → t.offset < 86400 →
      Time.UnmarshalJSON (['"'] ++ (Time.String t ++ decodeSuffix t) ++ ['"'])
        = .done (.ok t)) := by
  constructor
  · have hin : inner (['"'] ++ Format t encodeLayout ++ ['"']) = Format t encodeLayout :=
      inner_quoted _ _ _
    cases hp : Parse decodeLayout (Format t encodeLayout) with
    | ok u =>
      have := Parse_decode_shape hp
      rw [Format_encode_not_lenient t] at this
      exact absurd this (by simp)
    | error e =>
      refine ⟨_, e, rfl, ?_⟩
      have hl : ¬ (['"'] ++ Format t encodeLayout ++ ['"']).length < 2 := by
        simp
      simp only [Time.UnmarshalJSON, hl, if_false]
      rw [hin, hp]
  · intro hns hy0 hy1 hoff hlo hhi
    have hp := Parse_Format_decode t hns hy0 hy1 hoff hlo hhi
    rw [Format_decode_split] at hp
    have hin : inner (['"'] ++ (Format t encodeLayout ++ decodeSuffix t) ++ ['"'])
        = Format t encodeLayout ++ decodeSuffix t := inner_quoted _ _ _
    have hl : ¬ (['"'] ++ (Format t encodeLayout ++ decodeSuffix t) ++ ['"']).length < 2 := by
      simp only [List.length_append, List.length_cons, List.length_nil]
      omega
    simp only [Time.UnmarshalJSON, Time.String, hl, if_false]
    rw [hin, hp]

/-- C7 (witness): 2024-04-16T00:00:00 UTC, written with fraction and offset, decodes
to itself. -/
theorem C7_roundtrip_two_layouts_witness :
    exNow.nsec = 0 ∧ exNow.offset % 60 = 0 ∧
    Time.UnmarshalJSON "\"2024-04-16T00:00:00.0000000+00:00\"".toList = .done (.ok exNow) := by
  have h := (C7_roundtrip_two_layouts exNow).2 rfl (by decide) (by decide) (by decide)
    (by decide) (by decide)
  have hs : ['"'] ++ (Time.String exNow ++ decodeSuffix exNow) ++ ['"']
      = "\"2024-04-16T00:00:00.0000000+00:00\"".toList := by decide
  rw [hs] at h
  exact ⟨rfl, by decide, h⟩

/-! ## Theorems: `CreateProject` (C10) -/

/-- The search of lines 537-542 returns exactly when every user it reads is present
and has an email and the user it stops at has an ID. -/
theorem findByEmail_spec (name : String) (users : List (Option User)) :
    findByEmail name users =
      if (users.takeWhile (fun u => !emailIs name u)).all (fun u => (userEmail u).isSome) = true ∧
          (∀ u, users.find? (emailIs name) = some u → (userID u).isSome = true) then
        .done (match users.find? (emailIs name) with
               | some u => (userID u).getD ""
               | none => "")
      else .panic nilDeref := by
  induction users with
  | nil => simp [findByEmail]
  | cons u rest ih =>
    cases u with
    | none => simp [findByEmail, emailIs, userEmail]
    | some v =>
      cases he : v.Email with
      | none => simp [findByEmail, emailIs, userEmail, he]
      | some email =>
        by_cases hn : email = name
        · subst hn
          cases hi : v.ID with
          | none => simp [findByEmail, emailIs, userEmail, userID, he, hi]
          | some id => simp [findByEmail, emailIs, userEmail, userID, he, hi]
        · have h1 : emailIs name (some v) = false := by
            simp [emailIs, userEmail, he, hn]
          have h2 : (userEmail (some v)).isSome = true := by simp [userEmail, he]
          rw [findByEmail]
          simp only [he, hn, if_false, ih, List.takeWhile_cons, h1, Bool.not_false, if_true,
            List.all_cons, h2, Bool.true_and, List.find?_cons]

theorem firstUserID_spec (users : List (Option User)) :
    (∀ id, firstID users = some id → firstUserID users = .done id) ∧
    (firstID users = none → ∃ m, firstUserID users = .panic m) := by
  cases users with
  | nil => exact ⟨fun id h => by simp [firstID] at h, fun _ => ⟨_, rfl⟩⟩
  | cons u rest =>
    cases u with
    | none => exact ⟨fun id h => by simp [firstID, userID] at h, fun _ => ⟨_, rfl⟩⟩
    | some v =>
      cases hi : v.ID with
      | none =>
        exact ⟨fun id h => by simp [firstID, userID, hi] at h,
          fun _ => ⟨nilDeref, by simp [firstUserID, hi]⟩⟩
      | some id0 =>
        refine ⟨fun id h => ?_, fun h => by simp [firstID, userID, hi] at h⟩
        have : id0 = id := by simpa [firstID, userID, hi] using h
        subst this
        simp [firstUserID, hi]

/-- On a list on which the lookup is defined, lines 536-548 pick `codeResponsible`
without panicking. -/
theorem pickResponsible_defined (name : String) (users : List (Option User))
    (h : lookupDefined name users = true) :
    ∃ rid, codeResponsible name users = some rid ∧
      pickResponsible name users = .done rid := by
  unfold lookupDefined at h
  rw [Bool.and_eq_true] at h
  obtain ⟨h1, h2⟩ := h
  unfold pickResponsible codeResponsible
  rw [findByEmail_spec]
  cases hfind : users.find? (emailIs name) with
  | none =>
    simp only [hfind] at h2
    obtain ⟨id, hid⟩ := Option.isSome_iff_exists.mp h2
    have hc : (users.takeWhile (fun u => !emailIs name u)).all
        (fun u => (userEmail u).isSome) = true ∧
        (∀ u, (none : Option (Option User)) = some u → (userID u).isSome = true) :=
      ⟨h1, fun u hu => by cases hu⟩
    rw [if_pos hc]
    exact ⟨id, hid, by simp [(firstUserID_spec users).1 id hid]⟩
  | some u =>
    simp only [hfind, Bool.and_eq_true, Bool.or_eq_true] at h2
    obtain ⟨h3, h4⟩ := h2
    obtain ⟨id, hid⟩ := Option.isSome_iff_exists.mp h3
    have hc : (users.takeWhile (fun u => !emailIs name u)).all
        (fun u => (userEmail u).isSome) = true ∧
        (∀ w, some u = some w → (userID w).isSome = true) :=
      ⟨h1, fun w hw => by cases hw; exact h3⟩
    rw [if_pos hc]
    by_cases he : id = ""
    · subst he
      have h5 : (firstID users).isSome = true := by
        rcases h4 with h4 | h4
        · simp [hid] at h4
        · exact h4
      obtain ⟨fid, hfid⟩ := Option.isSome_iff_exists.mp h5
      exact ⟨fid, by simp [hid, hfid], by simp [hid, (firstUserID_spec users).1 fid hfid]⟩
    · exact ⟨id, by simp [hid, he], by simp [hid, he]⟩

/-- On every other list, lines 536-548 panic. -/
theorem pickResponsible_undefined (name : String) (users : List (Option User))
    (h : lookupDefined name users = false) :
    ∃ m, pickResponsible name users = .panic m := by
  unfold pickResponsible
  rw [findByEmail_spec]
  by_cases hc : (users.takeWhile (fun u => !emailIs name u)).all
      (fun u => (userEmail u).isSome) = true ∧
      (∀ u, users.find? (emailIs name) = some u → (userID u).isSome = true)
  · rw [if_pos hc]
    obtain ⟨h1, h2⟩ := hc
    unfold lookupDefined at h
    rw [h1, Bool.true_and] at h
    cases hfind : users.find? (emailIs name) with
    | none =>
      simp only [hfind] at h
      have hn : firstID users = none := by
        cases hf : firstID users with
        | none => rfl
        | some id => simp [hf] at h
      obtain ⟨m, hm⟩ := (firstUserID_spec users).2 hn
      exact ⟨m, by simp [hm]⟩
    | some u =>
      have h3 := h2 u hfind
      obtain ⟨id, hid⟩ := Option.isSome_iff_exists.mp h3
      simp only [hfind, h3, Bool.true_and, Bool.or_eq_false_iff] at h
      obtain ⟨h4, h5⟩ := h
      have he : id = "" := by simpa [hid] using h4
      subst he
      have hn : firstID users = none := by
        cases hf : firstID users with
        | none => rfl
        | some id => simp [hf] at h5
      obtain ⟨m, hm⟩ := (firstUserID_spec users).2 hn
      exact ⟨m, by simp [hid, hm]⟩
  · rw [if_neg hc]
    exact ⟨nilDeref, rfl⟩

/-- The ways a call of `Query` can go: the request cannot be constructed; the token
step fails; or the request is handed to the transport, after the Auth exchange if
there was one. -/
theorem Query_trace_cases {ρ : Type} (env : Env) (now : Time) (c : Client)
    (tr : List HttpRequest) (request : Request) (result : Option (Target ρ)) :
    (((Query env now c tr request result).err ≠ none ∨
        (Query env now c tr request result).panic ≠ none) ∧
       ((Query env now c tr request result).trace = tr ∨
        (Query env now c tr request result).trace = (Auth env c tr c.credentials).trace)) ∨
    (∃ req0 pre req, buildRequest env c request = .ok req0 ∧
       (Query env now c tr request result).trace = pre ++ [req] ∧
       req.Method = req0.Method ∧ req.Url = req0.Url ∧ req.Body = req0.Body) := by
  unfold Query
  cases hb : buildRequest env c request with
  | error e => exact Or.inl ⟨Or.inl (by simp), Or.inl rfl⟩
  | ok req0 =>
    by_cases hc : request.NoAuth = false ∧ needsToken c now = true
    · simp only [hc, and_self, if_true]
      cases hP : (Auth env c tr c.credentials).panic with
      | some m => exact Or.inl ⟨Or.inr (by simp), Or.inr rfl⟩
      | none =>
        cases hA : (Auth env c tr c.credentials).err with
        | some e => exact Or.inl ⟨Or.inl (by simp), Or.inr rfl⟩
        | none =>
          obtain ⟨h1, h2, h3, -⟩ :=
            setAuthorization_spec { c with token := some (Auth env c tr c.credentials).token }
              request req0 (buildRequest_Authorization hb)
          exact Or.inr ⟨req0, _, _, rfl, dispatch_trace _ _ _ _ _ _, h1, h2, h3⟩
    · simp only [hc, if_false]
      obtain ⟨h1, h2, h3, -⟩ :=
        setAuthorization_spec c request req0 (buildRequest_Authorization hb)
      exact Or.inr ⟨req0, _, _, rfl, dispatch_trace _ _ _ _ _ _, h1, h2, h3⟩

theorem Query_credentials {ρ : Type} (env : Env) (now : Time) (c : Client)
    (tr : List HttpRequest) (request : Request) (result : Option (Target ρ)) :
    (Query env now c tr request result).client.credentials = c.credentials := by
  unfold Query
  cases buildRequest env c request with
  | error e => rfl
  | ok req0 =>
    dsimp only
    split
    · split
      · rfl
      · split
        · rfl
        · rw [dispatch_client]
    · rw [dispatch_client]

theorem codeResponsible_eq_spec (name : String) (users : List (Option User))
    (h : ∀ u, users.find? (emailIs name) = some u → userID u ≠ some "") :
    codeResponsible name users = specResponsible name users := by
  unfold codeResponsible specResponsible
  cases hfind : users.find? (emailIs name) with
  | none => rfl
  | some u => simp [h u hfind]

/-- C10 (counterexample): the user whose email is the credentials' user name has the
empty string as ID; the create request then carries the ID of the first user,
not the ID of the matching user. -/
theorem C10_responsible_counterexample :
    specResponsible exCreds.User [some (exUser "A" "x@y.z"), some (exUser "" "a@b.com")]
      = some "" ∧
    (match CreateProject (usersEnv [some (exUser "A" "x@y.z"), some (exUser "" "a@b.com")])
        exNow exNow ⟨exCreds, some ⟨"T1", exLate⟩⟩ [] ⟨"Test project", "", ""⟩ with
     | .done out => out.trace.map (fun r => r.Body)
     | .panic _ => [])
      = [none, some (.newProjectJson ⟨"Test project", "", "A"⟩)] := by
  decide

/-- C10 (amended): let `GetUsers` return a user list without error, on which the
lookup reads set fields only: every user up to the first one whose email equals the
credentials' user name (every user, if there is none) is present and has an email,
that user has an ID, and when there is no such user or its ID is the empty string the
list is not empty and its first user has an ID.  Then, for every `NewProjectRequest`
with an empty `ResponsibleID`, `CreateProject` issues the create request with the ID
of the first user whose email equals the credentials' user name when there is such a
user and that ID is not the empty string, and with the ID of the first user of the
list otherwise (unless the matching user's ID is the empty string, this is the user
the specification names); whenever the create request reaches the transport, its
body is the request with that `responsibleId`. -/
theorem C10_responsible_user (env : Env) (now1 now2 : Time) (c : Client)
    (tr : List HttpRequest) (np : NewProjectRequest) (users : List (Option User))
    (hnp : np.ResponsibleID = "")
    (hret : (GetUsers env now1 c tr).panic = none)
    (herr : (GetUsers env now1 c tr).err = none)
    (hlist : (GetUsers env now1 c tr).result = some users)
    (hdef : lookupDefined c.credentials.User users = true) :
    ∃ rid, codeResponsible c.credentials.User users = some rid ∧
      ((∀ u, users.find? (emailIs c.credentials.User) = some u → userID u ≠ some "") →
        specResponsible c.credentials.User users = some rid) ∧
      CreateProject env now1 now2 c tr np =
        (Query env now2 (GetUsers env now1 c tr).client (GetUsers env now1 c tr).trace
          (createRequest { np with ResponsibleID := rid })
          (some ⟨Project.empty, env.projectCodec⟩)).toRun ∧
      ((((Query env now2 (GetUsers env now1 c tr).client (GetUsers env now1 c tr).trace
          (createRequest { np with ResponsibleID := rid })
          (some ⟨Project.empty, env.projectCodec⟩)).err ≠ none ∨
         (Query env now2 (GetUsers env now1 c tr).client (GetUsers env now1 c tr).trace
          (createRequest { np with ResponsibleID := rid })
          (some ⟨Project.empty, env.projectCodec⟩)).panic ≠ none) ∧
        ((Query env now2 (GetUsers env now1 c tr).client (GetUsers env now1 c tr).trace
          (createRequest { np with ResponsibleID := rid })
          (some ⟨Project.empty, env.projectCodec⟩)).trace = (GetUsers env now1 c tr).trace ∨
         (Query env now2 (GetUsers env now1 c tr).client (GetUsers env now1 c tr).trace
          (createRequest { np with ResponsibleID := rid })
          (some ⟨Project.empty, env.projectCodec⟩)).trace
            = (Auth env (GetUsers env now1 c tr).client (GetUsers env now1 c tr).trace
                (GetUsers env now1 c tr).client.credentials).trace)) ∨
       (∃ pre req,
          (Query env now2 (GetUsers env now1 c tr).client (GetUsers env now1 c tr).trace
            (createRequest { np with ResponsibleID := rid })
            (some ⟨Project.empty, env.projectCodec⟩)).trace = pre ++ [req] ∧
          req.Method = "POST" ∧ req.Url = c.credentials.Url ++ "/api/2.0/project.json" ∧
          req.Body = some (.newProjectJson { np with ResponsibleID := rid }))) := by
  obtain ⟨rid, hr1, hr2⟩ := pickResponsible_defined c.credentials.User users hdef
  refine ⟨rid, hr1, ?_, ?_, ?_⟩
  · intro h
    rw [← codeResponsible_eq_spec _ _ h]
    exact hr1
  · simp [CreateProject, hnp, hret, herr, hlist, hr2]
  · rcases Query_trace_cases env now2 (GetUsers env now1 c tr).client
      (GetUsers env now1 c tr).trace (createRequest { np with ResponsibleID := rid })
      (some ⟨Project.empty, env.projectCodec⟩) with h | ⟨req0, pre, req, hb, ht, h1, h2, h3⟩
    · exact Or.inl h
    · right
      obtain ⟨url, rdr, hu, hbody, -, -, rfl⟩ := buildRequest_ok hb
      have hu2 : url = c.credentials.Url ++ "/api/2.0/project.json" := by
        have hcr : (GetUsers env now1 c tr).client.credentials = c.credentials :=
          Query_credentials _ _ _ _ _ _
        simpa [buildUrl, createRequest, hcr] using hu.symm
      have hb2 : rdr = some (.newProjectJson { np with ResponsibleID := rid }) := by
        simpa [buildBody, createRequest, marshal] using hbody.symm
      refine ⟨pre, req, ht, ?_, ?_, ?_⟩
      · rw [h1]; rfl
      · rw [h2, ← hu2]
      · rw [h3, ← hb2]

/-- C10 (witness): the first user has no ID, the second carries the credentials'
email: the create request names the second user. -/
theorem C10_responsible_user_witness :
    lookupDefined exCreds.User
      [some ⟨none, none, none, none, some "x@y.z", none⟩, some (exUser "B" "a@b.com")] = true ∧
    ∃ rid, rid = "B" ∧
      CreateProject
        (usersEnv [some ⟨none, none, none, none, some "x@y.z", none⟩,
          some (exUser "B" "a@b.com")])
        exNow exNow ⟨exCreds, some ⟨"T1", exLate⟩⟩ [] ⟨"Test project", "", ""⟩ =
        (Query
          (usersEnv [some ⟨none, none, none, none, some "x@y.z", none⟩,
            some (exUser "B" "a@b.com")]) exNow
          (GetUsers
            (usersEnv [some ⟨none, none, none, none, some "x@y.z", none⟩,
              some (exUser "B" "a@b.com")])
            exNow ⟨exCreds, some ⟨"T1", exLate⟩⟩ []).client
          (GetUsers
            (usersEnv [some ⟨none, none, none, none, some "x@y.z", none⟩,
              some (exUser "B" "a@b.com")])
            exNow ⟨exCreds, some ⟨"T1", exLate⟩⟩ []).trace
          (createRequest ⟨"Test project", "", rid⟩)
          (some ⟨Project.empty,
            (usersEnv [some ⟨none, none, none, none, some "x@y.z", none⟩,
              some (exUser "B" "a@b.com")]).projectCodec⟩)).toRun := by
  refine ⟨by decide, ?_⟩
  obtain ⟨rid, h1, -, h3, -⟩ :=
    C10_responsible_user
      (usersEnv [some ⟨none, none, none, none, some "x@y.z", none⟩, some (exUser "B" "a@b.com")])
      exNow exNow ⟨exCreds, some ⟨"T1", exLate⟩⟩ [] ⟨"Test project", "", ""⟩
      [some ⟨none, none, none, none, some "x@y.z", none⟩, some (exUser "B" "a@b.com")]
      rfl (by decide) (by decide) (by decide) (by decide)
  have hrid : rid = "B" := by
    have h2 : codeResponsible exCreds.User
        [some ⟨none, none, none, none, some "x@y.z", none⟩, some (exUser "B" "a@b.com")]
        = some "B" := by decide
    rw [h2] at h1
    exact (Option.some.inj h1).symm
  exact ⟨rid, hrid, h3⟩

/-! ## Theorems: the query string of `GetTasks` -/

theorem queryValues_eq (r : ProjectGetTasksRequest) :
    queryValues r = [("projectId", [sprintInt r.ProjectId]), ("count", [sprintInt r.Count]),
      ("startIndex", [sprintInt r.StartIndex]), ("sortBy", [r.SortBy]),
      ("sortOrder", [r.SortOrder]), ("simple", [sprintBool r.Simple])] := by
  simp [queryValues, Values.Add]

theorem sortedKeys_queryValues (r : ProjectGetTasksRequest) :
    sortedKeys (queryValues r)
      = ["count", "projectId", "simple", "sortBy", "sortOrder", "startIndex"] := by
  rw [queryValues_eq]
  simp only [sortedKeys, List.map]
  decide

theorem Encode_queryValues (r : ProjectGetTasksRequest) :
    (queryValues r).Encode = sortedOrderQuery r := by
  have hk : ∀ k : String, k ∈ ["count", "projectId", "simple", "sortBy", "sortOrder",
      "startIndex"] → QueryEscape k = k := by decide
  simp only [Values.Encode, sortedKeys_queryValues]
  rw [queryValues_eq]
  simp only [Values.Get, List.find?, sortedOrderQuery, String.intercalate, String.intercalate.go,
    List.flatMap_cons, List.flatMap_nil, List.map, List.cons_append, List.nil_append,
    List.append_nil, Option.map, Option.getD, hk "count" (by decide), hk "projectId" (by decide),
    hk "simple" (by decide), hk "sortBy" (by decide), hk "sortOrder" (by decide),
    hk "startIndex" (by decide), (by decide : ("projectId" == "count") = false),
    (by decide : ("count" == "count") = true), (by decide : ("projectId" == "projectId") = true),
    (by decide : ("projectId" == "simple") = false), (by decide : ("count" == "simple") = false),
    (by decide : ("startIndex" == "simple") = false), (by decide : ("sortBy" == "simple") = false),
    (by decide : ("sortOrder" == "simple") = false), (by decide : ("simple" == "simple") = true),
    (by decide : ("projectId" == "sortBy") = false), (by decide : ("count" == "sortBy") = false),
    (by decide : ("startIndex" == "sortBy") = false), (by decide : ("sortBy" == "sortBy") = true),
    (by decide : ("projectId" == "sortOrder") = false),
    (by decide : ("count" == "sortOrder") = false),
    (by decide : ("startIndex" == "sortOrder") = false),
    (by decide : ("sortBy" == "sortOrder") = false),
    (by decide : ("sortOrder" == "sortOrder") = true),
    (by decide : ("projectId" == "startIndex") = false),
    (by decide : ("count" == "startIndex") = false),
    (by decide : ("startIndex" == "startIndex") = true)]
  rw [(by decide : "count=" = "count" ++ "="), (by decide : "&projectId=" = "&" ++ "projectId" ++ "="),
    (by decide : "&simple=" = "&" ++ "simple" ++ "="), (by decide : "&sortBy=" = "&" ++ "sortBy" ++ "="),
    (by decide : "&sortOrder=" = "&" ++ "sortOrder" ++ "="),
    (by decide : "&startIndex=" = "&" ++ "startIndex" ++ "=")]
  simp only [String.append_assoc]

/-- C11 (counterexample): for `NewProjectGetTasksRequest 5` the URL handed to the
transport carries the pairs with the keys in sorted order, `count` first, not in
the order in which the fields are declared, `projectId` first. -/
theorem C11_query_counterexample :
    (Query (constEnv "" (Token.empty, none)) exNow ⟨exCreds, none⟩ []
        (tasksRequest (NewProjectGetTasksRequest 5))
        (none : Option (Target Unit))).trace.map (fun r => r.Url)
      = ["https://office.example/api/2.0/authentication.json",
         "https://office.example/api/2.0/project/task/filter.json?" ++
           "count=1000&projectId=5&simple=true&sortBy=title&sortOrder=ascending&startIndex=0"] ∧
    declarationOrderQuery (NewProjectGetTasksRequest 5)
      = "projectId=5&count=1000&startIndex=0&sortBy=title&sortOrder=ascending&simple=true" ∧
    sortedOrderQuery (NewProjectGetTasksRequest 5) ≠
      declarationOrderQuery (NewProjectGetTasksRequest 5) := by
  refine ⟨?_, ?_, ?_⟩ <;> decide

/-- C11 (amended): for every `ProjectGetTasksRequest` passed as `Params`, the URL is
the client's URL, the request's `Uri`, a question mark and one `key=value` pair per
field under the field's tag-declared name, zero and empty values included, the
pairs joined by `&` with the keys in sorted order (count, projectId, simple, sortBy,
sortOrder, startIndex); and either `Query` ends, by an error or by a panic of the
token step, without handing the request to the transport, or the last request handed
to the transport has this URL. -/
theorem C11_query_sorted {ρ : Type} (env : Env) (now : Time) (c : Client)
    (tr : List HttpRequest) (request : Request) (r : ProjectGetTasksRequest)
    (result : Option (Target ρ)) :
    buildUrl c { request with Params := some r.toParams }
      = .ok (c.credentials.Url ++ request.Uri ++ "?" ++ sortedOrderQuery r) ∧
    ((((Query env now c tr { request with Params := some r.toParams } result).err ≠ none ∨
          (Query env now c tr { request with Params := some r.toParams } result).panic ≠ none) ∧
        ((Query env now c tr { request with Params := some r.toParams } result).trace = tr ∨
         (Query env now c tr { request with Params := some r.toParams } result).trace
           = (Auth env c tr c.credentials).trace)) ∨
      ∃ pre req,
        (Query env now c tr { request with Params := some r.toParams } result).trace
          = pre ++ [req] ∧
        req.Url = c.credentials.Url ++ request.Uri ++ "?" ++ sortedOrderQuery r) := by
  have hu : buildUrl c { request with Params := some r.toParams }
      = .ok (c.credentials.Url ++ request.Uri ++ "?" ++ sortedOrderQuery r) := by
    simp only [buildUrl, ProjectGetTasksRequest.toParams, Encode_queryValues]
  refine ⟨hu, ?_⟩
  rcases Query_trace_cases env now c tr { request with Params := some r.toParams } result with
    h | ⟨req0, pre, req, hb, ht, -, h2, -⟩
  · exact Or.inl h
  · obtain ⟨url, rdr, hu1, -, -, -, rfl⟩ := buildRequest_ok hb
    rw [hu] at hu1
    injection hu1 with hu1
    exact Or.inr ⟨pre, req, ht, by rw [h2, ← hu1]⟩

/-- C11 (witness): a request whose fields are all zero or empty still yields all six
pairs. -/
theorem C11_query_sorted_witness :
    buildUrl ⟨exCreds, none⟩ (tasksRequest ⟨0, 0, 0, "", "", false⟩)
      = .ok ("https://office.example/api/2.0/project/task/filter.json?" ++
          "count=0&projectId=0&simple=false&sortBy=&sortOrder=&startIndex=0") :=
  (C11_query_sorted (constEnv "" (Token.empty, none)) exNow ⟨exCreds, none⟩ []
    (tasksRequest ⟨0, 0, 0, "", "", false⟩) ⟨0, 0, 0, "", "", false⟩
    (none : Option (Target Unit))).1.trans (by rfl)

/-! ## Theorems: the two JSON decoding paths -/

theorem isSpace_rbrace : isSpace rbrace = false := by decide

theorem isSpace_rbracket : isSpace ']' = false := by decide

theorem stateEndValue_spec (s : Scanner) (c : Char) (he : s.err = none) (ht : s.endTop = false) :
    StepSpec c (stateEndValue s c) := by
  rcases s with ⟨st, ps, err, et⟩
  simp only at he ht
  subst he ht
  cases ps with
  | nil =>
    cases hc : isSpace c <;>
      simp [StepSpec, stateEndValue, stateEndTop, Scanner.error, Scanner.Top, Scanner.Inv, hc]
  | cons p rest =>
    cases hc : isSpace c
    · cases p <;>
        simp only [StepSpec, stateEndValue, hc, Scanner.error, popParseState, Scanner.Top,
          Scanner.Inv] <;>
        split_ifs <;> simp_all
    · cases p <;> simp [StepSpec, stateEndValue, hc, Scanner.Inv]

theorem pushParseState_spec (s : Scanner) (p : ParseState) (code : ScanCode) (c : Char)
    (he : s.err = none) (ht : s.endTop = false) (h1 : s.step ≠ .stateEndTop)
    (h2 : s.step ≠ .stateError) (hc1 : code ≠ .scanEnd) (hc2 : code ≠ .scanEndObject)
    (hc3 : code ≠ .scanEndArray) :
    StepSpec c (pushParseState s p code) := by
  rcases s with ⟨st, ps, err, et⟩
  simp only at he ht h1 h2
  subst he ht
  simp only [pushParseState]
  split_ifs <;> simp_all [StepSpec, Scanner.error, Scanner.Inv]

theorem StepSpec_other (c : Char) (s : Scanner) (code : ScanCode) (h : s.Inv)
    (hc1 : code ≠ .scanEnd) (hc2 : code ≠ .scanEndObject) (hc3 : code ≠ .scanEndArray)
    (hc4 : code ≠ .scanError) : StepSpec c (s, code) := by
  refine ⟨fun h1 => absurd h1 hc1, fun h1 => ?_, fun h1 => absurd h1 hc4, fun _ _ _ _ => h⟩
  rcases h1 with h1 | h1
  · exact absurd h1 hc2
  · exact absurd h1 hc3

theorem StepSpec_error (c : Char) (s : Scanner) (context : String) (ht : s.endTop = false) :
    StepSpec c (s.error context) := by
  refine ⟨fun h1 => ?_, fun h1 => ?_, fun _ => ht, fun _ h1 _ _ => absurd rfl h1⟩
  · cases h1
  · rcases h1 with h1 | h1 <;> cases h1

theorem StepSpec_ite (c : Char) (p : Prop) [Decidable p] (a b : Scanner × ScanCode)
    (ha : p → StepSpec c a) (hb : ¬ p → StepSpec c b) : StepSpec c (if p then a else b) := by
  by_cases h : p
  · rw [if_pos h]
    exact ha h
  · rw [if_neg h]
    exact hb h

theorem Inv_step (s : Scanner) (h : s.Inv) (st : ScanStep) (h1 : st ≠ .stateEndTop)
    (h2 : st ≠ .stateError) : Scanner.Inv { s with step := st } :=
  ⟨h.1, h.2.1, h1, h2⟩

theorem StepSpec_to (c : Char) (s : Scanner) (h : s.Inv) (st : ScanStep) (code : ScanCode)
    (h1 : st ≠ .stateEndTop) (h2 : st ≠ .stateError)
    (hc1 : code ≠ .scanEnd) (hc2 : code ≠ .scanEndObject) (hc3 : code ≠ .scanEndArray)
    (hc4 : code ≠ .scanError) : StepSpec c ({ s with step := st }, code) :=
  StepSpec_other c _ code (Inv_step s h st h1 h2) hc1 hc2 hc3 hc4

theorem stateBeginValue_spec (s : Scanner) (c : Char) (h : s.Inv) :
    StepSpec c (stateBeginValue s c) := by
  unfold stateBeginValue
  refine StepSpec_ite _ _ _ _ (fun _ => ?_) (fun _ => ?_)
  · exact StepSpec_other c s _ h (by decide) (by decide) (by decide) (by decide)
  refine StepSpec_ite _ _ _ _ (fun _ => ?_) (fun _ => ?_)
  · exact pushParseState_spec { s with step := .stateBeginStringOrEmpty } .parseObjectKey
      .scanBeginObject c h.1 h.2.1 (by simp) (by simp) (by decide) (by decide) (by decide)
  refine StepSpec_ite _ _ _ _ (fun _ => ?_) (fun _ => ?_)
  · exact pushParseState_spec { s with step := .stateBeginValueOrEmpty } .parseArrayValue
      .scanBeginArray c h.1 h.2.1 (by simp) (by simp) (by decide) (by decide) (by decide)
  refine StepSpec_ite _ _ _ _ (fun _ => ?_) (fun _ => ?_)
  · exact StepSpec_to c s h _ _ (by decide) (by decide) (by decide) (by decide) (by decide) (by decide)
  refine StepSpec_ite _ _ _ _ (fun _ => ?_) (fun _ => ?_)
  · exact StepSpec_to c s h _ _ (by decide) (by decide) (by decide) (by decide) (by decide) (by decide)
  refine StepSpec_ite _ _ _ _ (fun _ => ?_) (fun _ => ?_)
  · exact StepSpec_to c s h _ _ (by decide) (by decide) (by decide) (by decide) (by decide) (by decide)
  refine StepSpec_ite _ _ _ _ (fun _ => ?_) (fun _ => ?_)
  · exact StepSpec_to c s h _ _ (by decide) (by decide) (by decide) (by decide) (by decide) (by decide)
  refine StepSpec_ite _ _ _ _ (fun _ => ?_) (fun _ => ?_)
  · exact StepSpec_to c s h _ _ (by decide) (by decide) (by decide) (by decide) (by decide) (by decide)
  refine StepSpec_ite _ _ _ _ (fun _ => ?_) (fun _ => ?_)
  · exact StepSpec_to c s h _ _ (by decide) (by decide) (by decide) (by decide) (by decide) (by decide)
  refine StepSpec_ite _ _ _ _ (fun _ => ?_) (fun _ => ?_)
  · exact StepSpec_to c s h _ _ (by decide) (by decide) (by decide) (by decide) (by decide) (by decide)
  · exact StepSpec_error c s _ h.2.1

theorem stateBeginString_spec (s : Scanner) (c : Char) (h : s.Inv) :
    StepSpec c (stateBeginString s c) := by
  unfold stateBeginString
  refine StepSpec_ite _ _ _ _ (fun _ => ?_) (fun _ => ?_)
  · exact StepSpec_other c s _ h (by decide) (by decide) (by decide) (by decide)
  refine StepSpec_ite _ _ _ _ (fun _ => ?_) (fun _ => ?_)
  · exact StepSpec_to c s h _ _ (by decide) (by decide) (by decide) (by decide) (by decide) (by decide)
  · exact StepSpec_error c s _ h.2.1

theorem state0_spec (s : Scanner) (c : Char) (h : s.Inv) : StepSpec c (state0 s c) := by
  unfold state0
  refine StepSpec_ite _ _ _ _ (fun _ => ?_) (fun _ => ?_)
  · exact StepSpec_to c s h _ _ (by decide) (by decide) (by decide) (by decide) (by decide) (by decide)
  refine StepSpec_ite _ _ _ _ (fun _ => ?_) (fun _ => ?_)
  · exact StepSpec_to c s h _ _ (by decide) (by decide) (by decide) (by decide) (by decide) (by decide)
  · exact stateEndValue_spec s c h.1 h.2.1

theorem stateESign_spec (s : Scanner) (c : Char) (h : s.Inv) : StepSpec c (stateESign s c) := by
  unfold stateESign
  refine StepSpec_ite _ _ _ _ (fun _ => ?_) (fun _ => ?_)
  · exact StepSpec_to c s h _ _ (by decide) (by decide) (by decide) (by decide) (by decide) (by decide)
  · exact StepSpec_error c s _ h.2.1

theorem expect_spec (s : Scanner) (c want : Char) (next : ScanStep) (context : String)
    (h : s.Inv) (hn1 : next ≠ .stateEndTop) (hn2 : next ≠ .stateError) :
    StepSpec c (expect s c want next context) := by
  unfold expect
  refine StepSpec_ite _ _ _ _ (fun _ => ?_) (fun _ => ?_)
  · exact StepSpec_to c s h _ _ hn1 hn2 (by decide) (by decide) (by decide) (by decide)
  · exact StepSpec_error c s _ h.2.1

/-- Every step from inside the top-level value behaves as `StepSpec` says. -/
theorem next_spec (s : Scanner) (c : Char) (h : s.Inv) : StepSpec c (s.next c) := by
  have h1 := h.2.2.1
  have h2 := h.2.2.2
  unfold Scanner.next
  cases hst : s.step
  case stateEndTop => exact absurd hst h1
  case stateError => exact absurd hst h2
  case stateBeginValue => exact stateBeginValue_spec s c h
  case stateBeginString => exact stateBeginString_spec s c h
  case stateEndValue => exact stateEndValue_spec s c h.1 h.2.1
  case state0 => exact state0_spec s c h
  case stateESign => exact stateESign_spec s c h
  case stateBeginValueOrEmpty =>
    show StepSpec c (stateBeginValueOrEmpty s c)
    unfold stateBeginValueOrEmpty
    refine StepSpec_ite _ _ _ _ (fun _ => ?_) (fun _ => ?_)
    · exact StepSpec_other c s _ h (by decide) (by decide) (by decide) (by decide)
    refine StepSpec_ite _ _ _ _ (fun _ => ?_) (fun _ => ?_)
    · exact stateEndValue_spec s c h.1 h.2.1
    · exact stateBeginValue_spec s c h
  case stateBeginStringOrEmpty =>
    show StepSpec c (stateBeginStringOrEmpty s c)
    unfold stateBeginStringOrEmpty
    refine StepSpec_ite _ _ _ _ (fun _ => ?_) (fun _ => ?_)
    · exact StepSpec_other c s _ h (by decide) (by decide) (by decide) (by decide)
    refine StepSpec_ite _ _ _ _ (fun _ => ?_) (fun _ => ?_)
    · exact stateEndValue_spec _ c h.1 h.2.1
    · exact stateBeginString_spec s c h
  case state1 =>
    refine StepSpec_ite _ _ _ _ (fun _ => ?_) (fun _ => ?_)
    · exact StepSpec_to c s h _ _ (by decide) (by decide) (by decide) (by decide) (by decide) (by decide)
    · exact state0_spec s c h
  case stateDot0 =>
    refine StepSpec_ite _ _ _ _ (fun _ => ?_) (fun _ => ?_)
    · exact StepSpec_other c s _ h (by decide) (by decide) (by decide) (by decide)
    refine StepSpec_ite _ _ _ _ (fun _ => ?_) (fun _ => ?_)
    · exact StepSpec_to c s h _ _ (by decide) (by decide) (by decide) (by decide) (by decide) (by decide)
    · exact stateEndValue_spec s c h.1 h.2.1
  case stateE =>
    refine StepSpec_ite _ _ _ _ (fun _ => ?_) (fun _ => ?_)
    · exact StepSpec_to c s h _ _ (by decide) (by decide) (by decide) (by decide) (by decide) (by decide)
    · exact stateESign_spec s c h
  case stateE0 =>
    refine StepSpec_ite _ _ _ _ (fun _ => ?_) (fun _ => ?_)
    · exact StepSpec_other c s _ h (by decide) (by decide) (by decide) (by decide)
    · exact stateEndValue_spec s c h.1 h.2.1
  case stateInString =>
    refine StepSpec_ite _ _ _ _ (fun _ => ?_) (fun _ => ?_)
    · exact StepSpec_to c s h _ _ (by decide) (by decide) (by decide) (by decide) (by decide) (by decide)
    refine StepSpec_ite _ _ _ _ (fun _ => ?_) (fun _ => ?_)
    · exact StepSpec_to c s h _ _ (by decide) (by decide) (by decide) (by decide) (by decide) (by decide)
    refine StepSpec_ite _ _ _ _ (fun _ => ?_) (fun _ => ?_)
    · exact StepSpec_error c s _ h.2.1
    · exact StepSpec_other c s _ h (by decide) (by decide) (by decide) (by decide)
  case stateInStringEsc =>
    refine StepSpec_ite _ _ _ _ (fun _ => ?_) (fun _ => ?_)
    · exact StepSpec_to c s h _ _ (by decide) (by decide) (by decide) (by decide) (by decide) (by decide)
    refine StepSpec_ite _ _ _ _ (fun _ => ?_) (fun _ => ?_)
    · exact StepSpec_to c s h _ _ (by decide) (by decide) (by decide) (by decide) (by decide) (by decide)
    · exact StepSpec_error c s _ h.2.1
  case stateNeg =>
    refine StepSpec_ite _ _ _ _ (fun _ => ?_) (fun _ => ?_)
    · exact StepSpec_to c s h _ _ (by decide) (by decide) (by decide) (by decide) (by decide) (by decide)
    refine StepSpec_ite _ _ _ _ (fun _ => ?_) (fun _ => ?_)
    · exact StepSpec_to c s h _ _ (by decide) (by decide) (by decide) (by decide) (by decide) (by decide)
    · exact StepSpec_error c s _ h.2.1
  all_goals first
    | exact expect_spec s c _ _ _ h (by decide) (by decide)
    | (refine StepSpec_ite _ _ _ _ (fun _ => ?_) (fun _ => ?_)
       · exact StepSpec_to c s h _ _ (by decide) (by decide) (by decide) (by decide) (by decide) (by decide)
       · exact StepSpec_error c s _ h.2.1)

theorem checkValidLoop_cons {s sf : Scanner} {c : Char} {cs : List Char}
    (h : checkValidLoop s (c :: cs) = .ok sf) :
    (s.next c).2 ≠ .scanError ∧ checkValidLoop (s.next c).1 cs = .ok sf := by
  simp only [checkValidLoop] at h
  by_cases hc : (s.next c).2 = .scanError
  · simp [hc] at h
  · simp only [hc, if_false] at h
    exact ⟨hc, h⟩

/-- Once the scanner has failed, `checkValid` cannot go on. -/
theorem checkValidLoop_error {s sf : Scanner} {cs : List Char} (hs : s.step = .stateError)
    (h : checkValidLoop s cs = .ok sf) : cs = [] ∧ sf = s := by
  cases cs with
  | nil =>
    simp only [checkValidLoop] at h
    injection h with h
    exact ⟨rfl, h.symm⟩
  | cons c cs =>
    have h1 := (checkValidLoop_cons h).1
    exfalso
    apply h1
    simp [Scanner.next, hs]

theorem eof_error {s : Scanner} (h : s.err ≠ none) : s.eof.2 = .scanError := by
  cases he : s.err with
  | none => exact absurd he h
  | some e => simp [Scanner.eof, he]

/-- After the top-level value `checkValid` lets only white space through. -/
theorem checkValidLoop_top (cs : List Char) :
    ∀ (s sf : Scanner), s.Top → checkValidLoop s cs = .ok sf → sf.eof.2 ≠ .scanError →
      ∀ c ∈ cs, isSpace c = true := by
  induction cs with
  | nil => intro s sf _ _ _ c hc; cases hc
  | cons c cs ih =>
    intro s sf hT hL hE
    obtain ⟨hne, hL1⟩ := checkValidLoop_cons hL
    have hn : s.next c = stateEndTop s c := by simp [Scanner.next, hT.2.2]
    rw [hn] at hL1
    cases hsp : isSpace c with
    | true =>
      have h1 : (stateEndTop s c).1 = s := by simp [stateEndTop, hsp]
      rw [h1] at hL1
      intro d hd
      rcases List.mem_cons.mp hd with rfl | hd
      · exact hsp
      · exact ih s sf hT hL1 hE d hd
    | false =>
      exfalso
      have h1 : (stateEndTop s c).1.step = .stateError := by simp [stateEndTop, hsp, Scanner.error]
      have h2 : (stateEndTop s c).1.err ≠ none := by simp [stateEndTop, hsp, Scanner.error]
      obtain ⟨-, rfl⟩ := checkValidLoop_error h1 hL1
      exact hE (eof_error h2)

theorem stateEndValue_space_top (s : Scanner) (h : s.parseState = []) :
    (stateEndValue s ' ').2 = .scanEnd := by
  simp only [stateEndValue, h, stateEndTop]
  split <;> rfl

theorem stateEndValue_space_inner (s : Scanner) (h : s.parseState ≠ [])
    (hs : s.step = .stateEndValue) : stateEndValue s ' ' = (s, .scanSkipSpace) := by
  rcases s with ⟨st, ps, err, et⟩
  simp only at h hs
  subst hs
  cases ps with
  | nil => exact absurd rfl h
  | cons p rest =>
    have : isSpace ' ' = true := by decide
    simp [stateEndValue, this]

/-- At the end of the input, a scanner inside the top-level value that completes it
on a space reports `scanEnd` for that space. -/
theorem next_space_end (s : Scanner) (h : s.Inv) (he : (s.next ' ').1.endTop = true) :
    (s.next ' ').2 = .scanEnd := by
  obtain ⟨h1, h2, h3, h4⟩ := next_spec s ' ' h
  by_contra hne
  by_cases hE : (s.next ' ').2 = .scanError
  · rw [h3 hE] at he
    exact absurd he (by decide)
  · by_cases hO : (s.next ' ').2 = .scanEndObject
    · exact absurd (h2 (Or.inl hO)).1 (by decide)
    · by_cases hA : (s.next ' ').2 = .scanEndArray
      · exact absurd (h2 (Or.inr hA)).1 (by decide)
      · have := (h4 hne hE hO hA).2.1
        rw [this] at he
        exact absurd he (by decide)

/-- What `checkValid` accepts, `readValue` reads: it stops at some point with nothing
but white space left. -/
theorem readValueLoop_of_valid (data : List Char) :
    ∀ (s sf : Scanner) (k : Nat), s.Inv → checkValidLoop s data = .ok sf →
      sf.eof.2 ≠ .scanError →
      ∃ n, readValueLoop s data k = .ok (k + n) ∧ n ≤ data.length ∧
        ∀ c ∈ data.drop n, isSpace c = true := by
  induction data with
  | nil =>
    intro s sf k hI hL hE
    simp only [checkValidLoop] at hL
    injection hL with hL
    subst hL
    have het : (s.next ' ').1.endTop = true := by
      by_contra hc
      apply hE
      unfold Scanner.eof
      rw [if_neg (by simp [hI.1]), if_neg (by simp [hI.2.1])]
      dsimp only
      rw [if_neg hc]
      split <;> rfl
    refine ⟨0, ?_, Nat.le_refl _, ?_⟩
    · simp [readValueLoop, next_space_end s hI het]
    · intro c hc
      cases hc
  | cons c cs ih =>
    intro s sf k hI hL hE
    obtain ⟨hne, hL1⟩ := checkValidLoop_cons hL
    obtain ⟨h1, h2, h3, h4⟩ := next_spec s c hI
    have hclosed : ((s.next c).2 = .scanEndObject ∨ (s.next c).2 = .scanEndArray) →
        ∃ n, (if (stateEndValue (s.next c).1 ' ').2 = .scanEnd then Except.ok (k + 1)
              else readValueLoop (stateEndValue (s.next c).1 ' ').1 cs (k + 1))
            = .ok (k + n) ∧ n ≤ (c :: cs).length ∧
          ∀ d ∈ (c :: cs).drop n, isSpace d = true := by
      intro hcode
      rcases (h2 hcode).2 with ⟨hps, hT⟩ | ⟨hps, hI1, hst⟩
      · refine ⟨1, ?_, by simp, ?_⟩
        · simp [stateEndValue_space_top _ hps]
        · simpa using checkValidLoop_top cs _ sf hT hL1 hE
      · obtain ⟨n, hn1, hn2, hn3⟩ := ih (s.next c).1 sf (k + 1) hI1 hL1 hE
        refine ⟨n + 1, ?_, by simpa using hn2, by simpa using hn3⟩
        rw [stateEndValue_space_inner _ hps hst]
        simp only [reduceCtorEq, if_false]
        rw [hn1]
        congr 1
        omega
    have hother : (s.next c).2 ≠ .scanEnd → (s.next c).2 ≠ .scanEndObject →
        (s.next c).2 ≠ .scanEndArray →
        ∃ n, readValueLoop (s.next c).1 cs (k + 1) = .ok (k + n) ∧ n ≤ (c :: cs).length ∧
          ∀ d ∈ (c :: cs).drop n, isSpace d = true := by
      intro a b d
      obtain ⟨n, hn1, hn2, hn3⟩ := ih (s.next c).1 sf (k + 1) (h4 a hne b d) hL1 hE
      refine ⟨n + 1, ?_, by simpa using hn2, by simpa using hn3⟩
      rw [hn1]
      congr 1
      omega
    cases hcode : (s.next c).2
    case scanError => exact absurd hcode hne
    case scanEnd =>
      refine ⟨0, by simp [readValueLoop, hcode], by simp, ?_⟩
      cases hsp : isSpace c with
      | false =>
        exfalso
        obtain ⟨e1, e2⟩ := (h1 hcode).2 hsp
        obtain ⟨-, rfl⟩ := checkValidLoop_error e2 hL1
        exact hE (eof_error e1)
      | true =>
        intro d hd
        rcases List.mem_cons.mp (by simpa using hd) with rfl | hd
        · exact hsp
        · exact checkValidLoop_top cs _ sf ((h1 hcode).1 hsp) hL1 hE d hd
    case scanEndObject =>
      simp only [readValueLoop, hcode]
      exact hclosed (Or.inl hcode)
    case scanEndArray =>
      simp only [readValueLoop, hcode]
      exact hclosed (Or.inr hcode)
    all_goals
      simp only [readValueLoop, hcode]
      exact hother (by rw [hcode]; decide) (by rw [hcode]; decide) (by rw [hcode]; decide)

theorem Scanner.reset_Inv : Scanner.reset.Inv := by
  simp [Scanner.Inv, Scanner.reset]

/-- A body that `checkValid` accepts is one value followed by white space only, and
`readValue` returns the length of the value. -/
theorem readValue_of_checkValid (data : List Char) (h : checkValid data = none) :
    ∃ n, readValue data = .ok n ∧ n ≤ data.length ∧ ∀ c ∈ data.drop n, isSpace c = true := by
  simp only [checkValid] at h
  cases hL : checkValidLoop Scanner.reset data with
  | error e => simp [hL] at h
  | ok sf =>
    simp only [hL] at h
    have hE : sf.eof.2 ≠ .scanError := by
      intro hc
      simp [hc] at h
    obtain ⟨n, h1, h2, h3⟩ := readValueLoop_of_valid data Scanner.reset sf 0 Scanner.reset_Inv hL hE
    exact ⟨n, by simpa [readValue] using h1, h2, h3⟩

theorem exStore_trailing (text ws v : List Char) (h : ∀ c ∈ ws, isSpace c = true) :
    exStore (text ++ ws) v = exStore text v := by
  have : ws.filter (fun c => !isSpace c) = [] := by
    rw [List.filter_eq_nil_iff]
    intro c hc
    simp [h c hc]
  simp [exStore, List.filter_append, this]

/-- The two decoding paths on one body: either they do the same to the target, or
`json.Unmarshal` rejects the body and leaves the target alone. -/
theorem ofStore_paths {ρ : Type} (store : List Char → ρ → Run (ρ × Option String))
    (hstore : ∀ text ws v, (∀ c ∈ ws, isSpace c = true) → store (text ++ ws) v = store text v)
    (body : String) (v : ρ) :
    (Codec.ofStore store).Decode body v = (Codec.ofStore store).Unmarshal body v ∨
    ∃ e, checkValid body.toList = some e ∧
      (Codec.ofStore store).Unmarshal body v = .done (v, some e) := by
  show jsonDecode store body.toList v = jsonUnmarshal store body.toList v ∨
    ∃ e, checkValid body.toList = some e ∧ jsonUnmarshal store body.toList v = .done (v, some e)
  generalize body.toList = data
  unfold jsonDecode jsonUnmarshal
  cases hv : checkValid data with
  | some e => exact Or.inr ⟨e, rfl, rfl⟩
  | none =>
    obtain ⟨n, h1, -, h3⟩ := readValue_of_checkValid data hv
    left
    simp only [h1]
    conv_rhs => rw [← List.take_append_drop n data]
    exact (hstore _ _ v h3).symm

theorem buildRequest_Debug (env : Env) (c : Client) (request : Request) (b : Bool) :
    buildRequest env c { request with Debug := b } = buildRequest env c request := rfl

theorem setAuthorization_Debug (c : Client) (request : Request) (req : HttpRequest) (b : Bool) :
    setAuthorization c { request with Debug := b } req = setAuthorization c request req := rfl

theorem dispatch_Debug {ρ : Type} (store : List Char → ρ → Run (ρ × Option String))
    (hstore : ∀ text ws v, (∀ c ∈ ws, isSpace c = true) → store (text ++ ws) v = store text v)
    (env : Env) (c : Client) (tr : List HttpRequest) (request : Request) (req : HttpRequest)
    (v : ρ) :
    dispatch env c tr { request with Debug := false } req (some ⟨v, Codec.ofStore store⟩)
      = dispatch env c tr { request with Debug := true } req (some ⟨v, Codec.ofStore store⟩) ∨
    ((dispatch env c tr { request with Debug := true } req
        (some ⟨v, Codec.ofStore store⟩)).err ≠ none ∧
     (dispatch env c tr { request with Debug := true } req
        (some ⟨v, Codec.ofStore store⟩)).result = some v) := by
  unfold dispatch
  simp only [setAuthorization_Debug]
  cases hd : env.Do tr (setAuthorization c request req) with
  | error e => exact Or.inl rfl
  | ok body =>
    simp only [if_true, Bool.false_eq_true, if_false]
    rcases ofStore_paths store hstore body v with h | ⟨e, -, h⟩
    · left
      rw [h]
    · right
      rw [h]
      exact ⟨by simp, rfl⟩

theorem dispatch_Debug_trace {ρ : Type} (env : Env) (c : Client) (tr : List HttpRequest)
    (request : Request) (req : HttpRequest) (t : Target ρ) (b : Bool) :
    (dispatch env c tr { request with Debug := b } req (some t)).client = c ∧
    (dispatch env c tr { request with Debug := b } req (some t)).trace
      = tr ++ [setAuthorization c request req] :=
  ⟨dispatch_client _ _ _ _ _ _, dispatch_trace _ _ _ _ _ _⟩

/-- C12 (counterexample): on the body `{} x` the call with `Debug` set returns the
syntax error of `json.Unmarshal` and leaves the target as it was, while the call
without `Debug` returns no error and has decoded `{}` into the target. -/
theorem C12_debug_counterexample :
    (Query (exBodyEnv "\x7b\x7d x") exNow ⟨exCreds, none⟩ [] (exDebugRequest true)
        (some exStoreTarget)).err ≠ none ∧
    (Query (exBodyEnv "\x7b\x7d x") exNow ⟨exCreds, none⟩ [] (exDebugRequest true)
        (some exStoreTarget)).result = some [] ∧
    (Query (exBodyEnv "\x7b\x7d x") exNow ⟨exCreds, none⟩ [] (exDebugRequest false)
        (some exStoreTarget)).err = none ∧
    (Query (exBodyEnv "\x7b\x7d x") exNow ⟨exCreds, none⟩ [] (exDebugRequest false)
        (some exStoreTarget)).result = some [lbrace, rbrace] := by
  refine ⟨?_, ?_, ?_, ?_⟩ <;> decide

/-- C12 (amended): for a target decoded by `encoding/json`, whose decoding proper
`store` (Go's `d.unmarshal`) does not look at white space behind the value, the call
with `Debug` set and the call without leave the same client and hand the same requests
to the transport, and either they have the same outcome altogether, or the call with
`Debug` set returns an error and leaves the target as it was (the body is not one JSON
value surrounded by white space only).  In particular, whenever the call with `Debug`
set succeeds both calls agree, and whenever the call without `Debug` returns an error
so does the call with `Debug` set. -/
theorem C12_debug_paths {ρ : Type} (store : List Char → ρ → Run (ρ × Option String))
    (hstore : ∀ text ws v, (∀ c ∈ ws, isSpace c = true) → store (text ++ ws) v = store text v)
    (env : Env) (now : Time) (c : Client) (tr : List HttpRequest) (request : Request) (v : ρ) :
    (Query env now c tr { request with Debug := true } (some ⟨v, Codec.ofStore store⟩)).client
      = (Query env now c tr { request with Debug := false }
          (some ⟨v, Codec.ofStore store⟩)).client ∧
    (Query env now c tr { request with Debug := true } (some ⟨v, Codec.ofStore store⟩)).trace
      = (Query env now c tr { request with Debug := false }
          (some ⟨v, Codec.ofStore store⟩)).trace ∧
    (Query env now c tr { request with Debug := false } (some ⟨v, Codec.ofStore store⟩)
        = Query env now c tr { request with Debug := true } (some ⟨v, Codec.ofStore store⟩) ∨
      ((Query env now c tr { request with Debug := true }
          (some ⟨v, Codec.ofStore store⟩)).err ≠ none ∧
       (Query env now c tr { request with Debug := true }
          (some ⟨v, Codec.ofStore store⟩)).result = some v)) ∧
    ((Query env now c tr { request with Debug := true }
        (some ⟨v, Codec.ofStore store⟩)).err = none →
      Query env now c tr { request with Debug := false } (some ⟨v, Codec.ofStore store⟩)
        = Query env now c tr { request with Debug := true } (some ⟨v, Codec.ofStore store⟩)) ∧
    ((Query env now c tr { request with Debug := false }
        (some ⟨v, Codec.ofStore store⟩)).err ≠ none →
      (Query env now c tr { request with Debug := true }
        (some ⟨v, Codec.ofStore store⟩)).err ≠ none) := by
  have key : ∀ c1 tr1 req,
      ((dispatch env c1 tr1 { request with Debug := true } req
          (some ⟨v, Codec.ofStore store⟩)).client
        = (dispatch env c1 tr1 { request with Debug := false } req
          (some ⟨v, Codec.ofStore store⟩)).client ∧
      (dispatch env c1 tr1 { request with Debug := true } req
          (some ⟨v, Codec.ofStore store⟩)).trace
        = (dispatch env c1 tr1 { request with Debug := false } req
          (some ⟨v, Codec.ofStore store⟩)).trace) ∧
      (dispatch env c1 tr1 { request with Debug := false } req (some ⟨v, Codec.ofStore store⟩)
        = dispatch env c1 tr1 { request with Debug := true } req
            (some ⟨v, Codec.ofStore store⟩) ∨
      ((dispatch env c1 tr1 { request with Debug := true } req
          (some ⟨v, Codec.ofStore store⟩)).err ≠ none ∧
       (dispatch env c1 tr1 { request with Debug := true } req
          (some ⟨v, Codec.ofStore store⟩)).result = some v)) := by
    intro c1 tr1 req
    refine ⟨⟨?_, ?_⟩, dispatch_Debug store hstore env c1 tr1 request req v⟩
    · rw [(dispatch_Debug_trace env c1 tr1 request req _ true).1,
        (dispatch_Debug_trace env c1 tr1 request req _ false).1]
    · rw [(dispatch_Debug_trace env c1 tr1 request req _ true).2,
        (dispatch_Debug_trace env c1 tr1 request req _ false).2]
  have main :
      ((Query env now c tr { request with Debug := true }
          (some ⟨v, Codec.ofStore store⟩)).client
        = (Query env now c tr { request with Debug := false }
          (some ⟨v, Codec.ofStore store⟩)).client ∧
      (Query env now c tr { request with Debug := true } (some ⟨v, Codec.ofStore store⟩)).trace
        = (Query env now c tr { request with Debug := false }
          (some ⟨v, Codec.ofStore store⟩)).trace) ∧
      (Query env now c tr { request with Debug := false } (some ⟨v, Codec.ofStore store⟩)
        = Query env now c tr { request with Debug := true } (some ⟨v, Codec.ofStore store⟩) ∨
      ((Query env now c tr { request with Debug := true }
          (some ⟨v, Codec.ofStore store⟩)).err ≠ none ∧
       (Query env now c tr { request with Debug := true }
          (some ⟨v, Codec.ofStore store⟩)).result = some v)) := by
    unfold Query
    simp only [buildRequest_Debug]
    cases hb : buildRequest env c request with
    | error e => exact ⟨⟨rfl, rfl⟩, Or.inl rfl⟩
    | ok req0 =>
      dsimp only
      by_cases hc : request.NoAuth = false ∧ needsToken c now = true
      · rw [if_pos hc, if_pos hc]
        cases hP : (Auth env c tr c.credentials).panic with
        | some m => exact ⟨⟨rfl, rfl⟩, Or.inl rfl⟩
        | none =>
          cases hA : (Auth env c tr c.credentials).err with
          | some e => exact ⟨⟨rfl, rfl⟩, Or.inl rfl⟩
          | none => exact key _ _ _
      · rw [if_neg hc, if_neg hc]
        exact key _ _ _
  obtain ⟨⟨h1, h2⟩, h3⟩ := main
  refine ⟨h1, h2, h3, ?_, ?_⟩
  · intro h
    rcases h3 with h3 | ⟨h3, -⟩
    · exact h3
    · exact absurd h h3
  · intro h
    rcases h3 with h3 | ⟨h3, -⟩
    · rw [← h3]
      exact h
    · exact h3

/-- C12 (witness): the amended statement at the body ` [1, 2]` followed by a newline. -/
theorem C12_debug_paths_witness :
    Query (exBodyEnv " [1, 2]\n") exNow ⟨exCreds, none⟩ [] (exDebugRequest false)
        (some exStoreTarget)
      = Query (exBodyEnv " [1, 2]\n") exNow ⟨exCreds, none⟩ [] (exDebugRequest true)
        (some exStoreTarget) ∧
    (Query (exBodyEnv " [1, 2]\n") exNow ⟨exCreds, none⟩ [] (exDebugRequest true)
        (some exStoreTarget)).result = some "[1,2]".toList :=
  ⟨(C12_debug_paths exStore exStore_trailing (exBodyEnv " [1, 2]\n") exNow ⟨exCreds, none⟩ []
      (exDebugRequest true) []).2.2.2.1 (by decide), by decide⟩

/-! ## Theorems: `Project.String` -/

theorem dropWhile_length_le (p : Char → Bool) (l : List Char) :
    (l.dropWhile p).length ≤ l.length := by
  induction l with
  | nil => exact Nat.le_refl _
  | cons a l ih =>
    rw [List.dropWhile_cons]
    split
    · exact Nat.le_succ_of_le ih
    · exact Nat.le_refl _

theorem parsenumLoop_length (s : List Char) :
    ∀ (num : Nat) (isnum : Bool), (parsenumLoop num isnum s).2.length ≤ s.length := by
  induction s with
  | nil => intro num isnum; simp [parsenumLoop]
  | cons c cs ih =>
    intro num isnum
    unfold parsenumLoop
    split
    · split
      · simp
      · exact Nat.le_succ_of_le (ih _ _)
    · exact Nat.le_refl _

theorem argNumber_length (p : Printer) : (argNumber p).format.length ≤ p.format.length := by
  unfold argNumber
  split
  next t h =>
    rw [h]
    exact List.length_drop _ _ ▸ Nat.sub_le _ _
  next => exact Nat.le_refl _

theorem doWidth_length (p : Printer) : (doWidth p).format.length ≤ p.format.length := by
  unfold doWidth
  split
  next t h =>
    rw [h]
    exact Nat.le_succ _
  next => exact parsenumLoop_length _ _ _

theorem doPrecStar_length (p : Printer) : (doPrecStar p).format.length ≤ p.format.length := by
  unfold doPrecStar
  split
  next t h =>
    rw [h]
    exact Nat.le_succ _
  next => exact parsenumLoop_length _ _ _

theorem doPrec_length (p : Printer) : (doPrec p).format.length ≤ p.format.length := by
  unfold doPrec
  split
  next c t h =>
    rw [h]
    exact Nat.le_trans (doPrecStar_length _)
      (Nat.le_trans (argNumber_length _) (Nat.le_succ _))
  next => exact Nat.le_refl _

theorem doVerbChar_length (p : Printer) : (doVerbChar p).format.length ≤ p.format.length := by
  unfold doVerbChar
  split
  next h => simp [h]
  next verb rest h =>
    rw [h]
    split
    · exact Nat.le_succ _
    · split <;> exact Nat.le_succ _

theorem doVerb_length (buf format : List Char) :
    (doVerb buf format).format.length ≤ format.length := by
  unfold doVerb
  have h1 : (doPrec (doWidth (argNumber
      { buf := buf, format := format.dropWhile isFlag, afterIndex := false,
        goodArgNum := true }))).format.length ≤ format.length :=
    Nat.le_trans (doPrec_length _) (Nat.le_trans (doWidth_length _)
      (Nat.le_trans (argNumber_length _) (dropWhile_length_le _ _)))
  refine Nat.le_trans (doVerbChar_length _) ?_
  split
  · exact h1
  · exact Nat.le_trans (argNumber_length _) h1

/-- The loop of `doPrintf` reaches the end of the format within one round per
character and one more. -/
theorem doPrintf_total (fuel : Nat) :
    ∀ (buf format : List Char), format.length < fuel →
      (doPrintf fuel buf format).isSome = true := by
  induction fuel with
  | zero => intro buf format h; exact absurd h (Nat.not_lt_zero _)
  | succ fuel ih =>
    intro buf format h
    unfold doPrintf
    have hd := dropWhile_length_le (fun c => c != '%') format
    split
    next => rfl
    next x s hs =>
      apply ih
      rw [hs] at hd
      have := doVerb_length (buf ++ List.takeWhile (fun c => c != '%') format) s
      simp only [List.length_cons] at hd
      omega

/-- A format without a percent sign is returned as it is. -/
theorem Sprintf_no_percent (format : String) (h : '%' ∉ format.toList) :
    Sprintf format = format := by
  have hd : format.toList.dropWhile (fun c => c != '%') = [] := by
    rw [List.dropWhile_eq_nil_iff]
    intro c hc
    have : c ≠ '%' := fun e => h (e ▸ hc)
    simpa using this
  have ht : format.toList.takeWhile (fun c => c != '%') = format.toList := by
    rw [List.takeWhile_eq_self_iff]
    intro c hc
    have : c ≠ '%' := fun e => h (e ▸ hc)
    simpa using this
  unfold Sprintf doPrintf
  simp only [hd, ht, List.nil_append, Option.getD_some]
  rfl

/-- C13 (the code at the failing inputs): `fmt.Sprintf(*p.Title)` reads the title as a
format.  The title `100%` comes back as `100%!(NOVERB)`, the title `50% done` as
`50%!d(MISSING)one`, and the title `a%%b` as `a%b`; the title `Test project`, which
has no percent sign, comes back as it is. -/
theorem C13_String_reads_title_as_format :
    Project.String ⟨none, some "100%", none, none⟩ = .done "100%!(NOVERB)" ∧
    Project.String ⟨none, some "50% done", none, none⟩ = .done "50%!d(MISSING)one" ∧
    Project.String ⟨none, some "a%%b", none, none⟩ = .done "a%b" ∧
    Project.String ⟨none, some "Test project", none, none⟩ = .done "Test project" := by
  refine ⟨?_, ?_, ?_, ?_⟩ <;> rfl

/-! ## Theorems: `CreateProject` on short or incomplete user lists -/

/-- C14 (the code at the failing inputs): `GetUsers` returns each of these lists
without an error, and `CreateProject` with an empty `ResponsibleID` panics on it.  On
the empty list `users[0]` is out of range; on a list whose first user has no email,
`*user.Email` dereferences nil; on a list whose only user has another email and no
ID, `*users[0].ID` dereferences nil; on a list whose user has the credentials' email
and no ID, `*user.ID` dereferences nil. -/
theorem C14_CreateProject_panics :
    ((GetUsers (usersEnv []) exNow ⟨exCreds, some ⟨"T1", exLate⟩⟩ []).err = none ∧
      (GetUsers (usersEnv []) exNow ⟨exCreds, some ⟨"T1", exLate⟩⟩ []).result = some [] ∧
      CreateProject (usersEnv []) exNow exNow ⟨exCreds, some ⟨"T1", exLate⟩⟩ []
          ⟨"Test project", "", ""⟩
        = .panic "index out of range [0] with length 0") ∧
    ((GetUsers (usersEnv [some ⟨some "A", none, none, none, none, none⟩]) exNow
          ⟨exCreds, some ⟨"T1", exLate⟩⟩ []).err = none ∧
      CreateProject (usersEnv [some ⟨some "A", none, none, none, none, none⟩]) exNow exNow
          ⟨exCreds, some ⟨"T1", exLate⟩⟩ [] ⟨"Test project", "", ""⟩
        = .panic nilDeref) ∧
    ((GetUsers (usersEnv [some ⟨none, none, none, none, some "x@y.z", none⟩]) exNow
          ⟨exCreds, some ⟨"T1", exLate⟩⟩ []).err = none ∧
      CreateProject (usersEnv [some ⟨none, none, none, none, some "x@y.z", none⟩]) exNow exNow
          ⟨exCreds, some ⟨"T1", exLate⟩⟩ [] ⟨"Test project", "", ""⟩
        = .panic nilDeref) ∧
    ((GetUsers (usersEnv [some ⟨none, none, none, none, some "a@b.com", none⟩]) exNow
          ⟨exCreds, some ⟨"T1", exLate⟩⟩ []).err = none ∧
      CreateProject (usersEnv [some ⟨none, none, none, none, some "a@b.com", none⟩]) exNow exNow
          ⟨exCreds, some ⟨"T1", exLate⟩⟩ [] ⟨"Test project", "", ""⟩
        = .panic nilDeref) := by
  refine ⟨⟨?_, ?_, ?_⟩, ⟨?_, ?_⟩, ⟨?_, ?_⟩, ⟨?_, ?_⟩⟩ <;> rfl

end OnlyOffice
